import Mathlib

/-!
PANOC inner solver (alpaqa): statistics, parameters and loop controller;
switch nodes of the symbolic framework (CasADi): construction, selection of
the function, numerical evaluation and code generation.

Shallow embedding of `src/alpaqa/include/alpaqa/inner/panoc.hpp`. The header
declares the statistics, the parameters and the solver class; the body of the
solve entry point is modelled from the spec of the solver.

* `unsigned` counters are natural numbers, every addition reduced modulo `2 ^ 32`.
* `std::chrono::nanoseconds` is an integer count of nanoseconds; its signed 64-bit
  addition is embedded as two's-complement wrap-around (`wrap_i64`), and the
  statements about exact sums carry the no-overflow side condition under which
  the C++ addition is defined.
* `real_t` is embedded in exact arithmetic: a rational number or one of the
  special values `inf`, `neg_inf`, `nan`.

The second part embeds `casadi/core/mx/casadi_switch.cpp`; member functions that
can fail return `Except CasadiException`.
-/

namespace alpaqa

/-! ## Scalar types -/

/-- Modulus of the C++ type `unsigned` (32 bits). -/
def UNSIGNED_MOD : Nat := 2 ^ 32

/-- Addition of two `unsigned` values. -/
def uadd (a b : Nat) : Nat := (a + b) % UNSIGNED_MOD

/-- Two's-complement reduction of an integer to the signed 64-bit range. -/
def wrap_i64 (z : Int) : Int := (z + 2 ^ 63) % 2 ^ 64 - 2 ^ 63

/-- The integer is representable as a signed 64-bit value. -/
def in_i64 (z : Int) : Prop := -(2 ^ 63) ≤ z ∧ z < 2 ^ 63

instance (z : Int) : Decidable (in_i64 z) := by
  unfold in_i64; exact inferInstance

/-- Addition of two `std::chrono::nanoseconds` tick counts. -/
def ns_add (a b : Int) : Int := wrap_i64 (a + b)

/-- Values of the floating-point type `real_t`, read in exact arithmetic. -/
inductive real_t where
  | finite (q : ℚ)
  | inf
  | neg_inf
  | nan
  deriving DecidableEq

namespace real_t

/-- Addition of `real_t` values: exact on finite values, with the usual rules
for the special values. -/
def add : real_t → real_t → real_t
  | finite a, finite b => finite (a + b)
  | nan, _ => nan
  | _, nan => nan
  | inf, neg_inf => nan
  | neg_inf, inf => nan
  | inf, _ => inf
  | _, inf => inf
  | neg_inf, _ => neg_inf
  | _, neg_inf => neg_inf

instance : Add real_t := ⟨add⟩
instance : Zero real_t := ⟨finite 0⟩

end real_t

/-- Addition of `real_t` values is associative and commutative with neutral
element `finite 0`. -/
instance : AddCommMonoid real_t where
  add := (· + ·)
  zero := 0
  add_assoc a b c := by
    show real_t.add (real_t.add a b) c = real_t.add a (real_t.add b c)
    cases a <;> cases b <;> cases c <;> simp [real_t.add, add_assoc]
  zero_add a := by
    show real_t.add (real_t.finite 0) a = a
    cases a <;> simp [real_t.add]
  add_zero a := by
    show real_t.add a (real_t.finite 0) = a
    cases a <;> simp [real_t.add]
  add_comm a b := by
    show real_t.add a b = real_t.add b a
    cases a <;> cases b <;> simp [real_t.add, add_comm]
  nsmul := nsmulRec

/-- Modelled from the spec: the enumeration `SolverStatus` of the header
`alpaqa/inner/internal/solverstatus.hpp`, which is not part of the sources at
hand; the spec lists `Busy` and the seven terminal statuses. -/
inductive SolverStatus where
  | Busy
  | Converged
  | MaxTime
  | MaxIterations
  | NoProgress
  | Interrupted
  | NotFinite
  | Exception
  deriving DecidableEq, Repr

/-- Modelled from the spec: the seven statuses other than `Busy` are terminal
(§4.6); the enumeration itself is declared in a header that is not part of the
sources at hand. -/
def SolverStatus.terminal : SolverStatus → Bool
  | .Busy => false
  | _ => true

/-! ## Statistics (`PANOCStats`, `InnerStatsAccumulator`) -/

/-- The struct `PANOCStats`, with the default member initialisers as field defaults. -/
structure PANOCStats where
  status : SolverStatus := SolverStatus.Busy
  ε : real_t := real_t.inf
  elapsed_time : Int := 0
  iterations : Nat := 0
  linesearch_failures : Nat := 0
  linesearch_backtracks : Nat := 0
  stepsize_backtracks : Nat := 0
  lbfgs_failures : Nat := 0
  lbfgs_rejected : Nat := 0
  τ_1_accepted : Nat := 0
  count_τ : Nat := 0
  sum_τ : real_t := real_t.finite 0
  final_γ : real_t := real_t.finite 0
  final_ψ : real_t := real_t.finite 0
  final_h : real_t := real_t.finite 0
  final_φγ : real_t := real_t.finite 0
  deriving DecidableEq

/-- The struct `InnerStatsAccumulator<PANOCStats<Conf>>`. -/
structure InnerStatsAccumulator where
  elapsed_time : Int := 0
  iterations : Nat := 0
  linesearch_failures : Nat := 0
  linesearch_backtracks : Nat := 0
  stepsize_backtracks : Nat := 0
  lbfgs_failures : Nat := 0
  lbfgs_rejected : Nat := 0
  τ_1_accepted : Nat := 0
  count_τ : Nat := 0
  sum_τ : real_t := real_t.finite 0
  final_γ : real_t := real_t.finite 0
  final_ψ : real_t := real_t.finite 0
  final_h : real_t := real_t.finite 0
  final_φγ : real_t := real_t.finite 0
  deriving DecidableEq

/-- The free function `operator+=(InnerStatsAccumulator&, const PANOCStats&)`. -/
def add_assign (acc : InnerStatsAccumulator) (s : PANOCStats) : InnerStatsAccumulator :=
  { iterations := uadd acc.iterations s.iterations
    elapsed_time := ns_add acc.elapsed_time s.elapsed_time
    linesearch_failures := uadd acc.linesearch_failures s.linesearch_failures
    linesearch_backtracks := uadd acc.linesearch_backtracks s.linesearch_backtracks
    stepsize_backtracks := uadd acc.stepsize_backtracks s.stepsize_backtracks
    lbfgs_failures := uadd acc.lbfgs_failures s.lbfgs_failures
    lbfgs_rejected := uadd acc.lbfgs_rejected s.lbfgs_rejected
    τ_1_accepted := uadd acc.τ_1_accepted s.τ_1_accepted
    count_τ := uadd acc.count_τ s.count_τ
    sum_τ := acc.sum_τ + s.sum_τ
    final_γ := s.final_γ
    final_ψ := s.final_ψ
    final_h := s.final_h
    final_φγ := s.final_φγ }

/-- Merging a list of statistics, first to last, into a default-constructed
accumulator by repeated `+=`. -/
def merge_all (l : List PANOCStats) : InnerStatsAccumulator :=
  l.foldl add_assign {}

/-- Every `unsigned` field of the accumulator holds a value of the type
(below `2 ^ 32`) and `elapsed_time` a signed 64-bit tick count. -/
def InnerStatsAccumulator.well_formed (a : InnerStatsAccumulator) : Prop :=
  in_i64 a.elapsed_time ∧ a.iterations < 2 ^ 32 ∧ a.linesearch_failures < 2 ^ 32 ∧
  a.linesearch_backtracks < 2 ^ 32 ∧ a.stepsize_backtracks < 2 ^ 32 ∧
  a.lbfgs_failures < 2 ^ 32 ∧ a.lbfgs_rejected < 2 ^ 32 ∧ a.τ_1_accepted < 2 ^ 32 ∧
  a.count_τ < 2 ^ 32

/-! ## Parameters (`PANOCParams`) -/

/-- The numeric traits of the floating-point type of a configuration that the
default member initialisers of `PANOCParams` read:
`std::numeric_limits<real_t>::epsilon()` and `max_digits10`. -/
structure Config where
  epsilon : ℚ
  max_digits10 : Nat

/-- Double precision: `epsilon = 2⁻⁵²`, `max_digits10 = 17`. -/
def EigenConfigd : Config := { epsilon := 1 / 2 ^ 52, max_digits10 := 17 }

/-- Single precision: `epsilon = 2⁻²³`, `max_digits10 = 9`. -/
def EigenConfigf : Config := { epsilon := 1 / 2 ^ 23, max_digits10 := 9 }

/-- Modelled from the spec: the struct `LipschitzEstimateParams` of the header
`alpaqa/inner/internal/lipschitz.hpp`, which is not part of the sources at hand.
The spec's step-size controller takes an optional initial estimate
(`estimate(L_init?)`) and a small safety margin `δ` with `γ = (1 − δ) / L`. -/
structure LipschitzEstimateParams where
  L_init : Option ℚ
  δ : ℚ

/-- Modelled from the spec: the enumeration `PANOCStopCrit` of the header
`alpaqa/inner/internal/panoc-stop-crit.hpp`, which is not part of the sources at
hand: a closed set of criteria of which the spec names the canonical one,
`ApproxKKT`; the others are told apart by a number. -/
inductive PANOCStopCrit where
  | ApproxKKT
  | other (id : Nat)
  deriving DecidableEq

/-- The struct `PANOCParams<Conf>`, with the default member initialisers as field
defaults; `Lipschitz` is default-constructed from a type declared elsewhere and
has no default here. Floating-point parameters are read as exact rationals,
durations are nanosecond counts. -/
structure PANOCParams (Conf : Config) where
  Lipschitz : LipschitzEstimateParams
  max_iter : Nat := 100
  max_time : Int := 5 * 60 * 1000000000
  τ_min : ℚ := 1 / 256
  force_linesearch : Bool := false
  β : ℚ := 95 / 100
  L_min : ℚ := 1 / 100000
  L_max : ℚ := 100000000000000000000
  stop_crit : PANOCStopCrit := PANOCStopCrit.ApproxKKT
  max_no_progress : Nat := 10
  print_interval : Nat := 0
  print_precision : Int := Conf.max_digits10 / 2
  quadratic_upperbound_tolerance_factor : ℚ := 10 * Conf.epsilon
  linesearch_tolerance_factor : ℚ := 10 * Conf.epsilon

/-- The parameter invariant stated in the spec (§3): `0 < τ_min < 1`, `0 < β < 1`,
`L_min ≤ L_max`. -/
def PANOCParams.invariant {Conf : Config} (p : PANOCParams Conf) : Prop :=
  (0 < p.τ_min ∧ p.τ_min < 1) ∧ (0 < p.β ∧ p.β < 1) ∧ p.L_min ≤ p.L_max

/-! ## Collaborators of the solver

The solver header declares the solve entry point `PANOCSolver::operator()` but
its body, and the headers of the types it works with, are not part of the
sources at hand. They are modelled from the spec below. -/

/-- Real vectors (`rvec`, `crvec`), in exact arithmetic. -/
abbrev Vec := List ℚ

/-- Componentwise sum of two vectors. -/
def Vec.add (a b : Vec) : Vec := List.zipWith (· + ·) a b

/-- Componentwise difference of two vectors. -/
def Vec.sub (a b : Vec) : Vec := List.zipWith (· - ·) a b

/-- Multiple of a vector. -/
def Vec.smul (c : ℚ) (a : Vec) : Vec := a.map (c * ·)

/-- Inner product of two vectors. -/
def Vec.dot (a b : Vec) : ℚ := (List.zipWith (· * ·) a b).sum

/-- Modelled from the spec: the two ways an evaluation of the problem can fail
(§6, §7), a non-finite value or an exception raised inside the evaluation; the
problem interface is declared in a header that is not part of the sources at
hand. -/
inductive Failure where
  | not_finite
  | exception
  deriving DecidableEq

deriving instance DecidableEq for Except

/-- Modelled from the spec: the terminal status a failed evaluation surfaces as
(§6, §7), for the solver body that is not part of the sources at hand. -/
def Failure.status : Failure → SolverStatus
  | .not_finite => SolverStatus.NotFinite
  | .exception => SolverStatus.Exception

/-- Modelled from the spec: the problem contract (§6) behind
`TypeErasedProblem` of `alpaqa/problem/type-erased-problem.hpp`, which is not
part of the sources at hand: `cost(x) -> ψ`, `gradient(x) -> ∇ψ`,
`eval_forward_backward(x, γ) -> (x̂, h(x̂))` and the dimension accessor. Each
evaluation yields a finite value or fails. -/
structure TypeErasedProblem where
  n : Nat
  cost : Vec → Except Failure ℚ
  gradient : Vec → Except Failure Vec
  eval_forward_backward : Vec → ℚ → Except Failure (Vec × ℚ)

/-- Modelled from the spec: the direction contract (§4.3) over a curvature
memory `D`: `propose` is given the memory, the current iterate and gradient and,
when there is one, the previous iterate and gradient, and yields a direction or
fails; `update` yields the new memory and whether the pair was accepted. -/
structure DirectionOps (D : Type) where
  propose : D → Vec → Vec → Option (Vec × Vec) → Option Vec
  update : D → Vec → Vec → Option (Vec × Vec) → D × Bool

/-- Modelled from the spec: the per-call solve options of
`alpaqa/inner/inner-solve-options.hpp`, which is not part of the sources at
hand; the loop controller reads the tolerance from them. -/
structure InnerSolveOptions where
  tolerance : ℚ

/-- Modelled from the spec: the cancellation flag `AtomicStopSignal` of
`alpaqa/util/atomic-stop-signal.hpp`, which is not part of the sources at hand:
an atomic boolean that `stop()` sets and that is never reset automatically. -/
structure AtomicStopSignal where
  flag : Bool := false
  deriving DecidableEq

/-- Modelled from the spec: `AtomicStopSignal::stop`, of the same header, sets
the flag. -/
def AtomicStopSignal.stop (_ : AtomicStopSignal) : AtomicStopSignal := { flag := true }

/-- Modelled from the spec: `AtomicStopSignal::stop_requested`, of the same
header, reads the flag. -/
def AtomicStopSignal.stop_requested (s : AtomicStopSignal) : Bool := s.flag

/-- The members of the class `PANOCSolver<DirectionT>`: `params`, `stop_signal`,
`progress_cb` (an empty `std::function` is `none`) and `direction`; `CB` is the
type of progress callbacks. The output stream `os` is left out. -/
structure PANOCSolver (Conf : Config) (D : Type) (CB : Type) where
  params : PANOCParams Conf
  stop_signal : AtomicStopSignal := {}
  progress_cb : Option CB := none
  direction : D

/-- The member function `PANOCSolver::stop`. -/
def PANOCSolver.stop {Conf : Config} {D CB : Type} (self : PANOCSolver Conf D CB) :
    PANOCSolver Conf D CB :=
  { self with stop_signal := self.stop_signal.stop }

/-- Modelled from the spec: the formulas of the solver body (not part of the
sources at hand) that the spec leaves to the implementation, taken as given
functions: the finite-difference Lipschitz estimate from two nearby points
(§4.1), the stopping measure `ε` of the selected criterion from
`x, x̂, p, y, Σ, γ` (§4.5), the sufficient-decrease margin from
`linesearch_tolerance_factor`, `γ`, `‖p‖²` and `φγ(x)` (§4.4), the test that `ε`
strictly improved on the previous value beyond the numerical slack (§4.6), and
the dual estimate and residual written back from the last `x`, `y` and `Σ`. -/
structure Numerics where
  fd_estimate : TypeErasedProblem → Vec → Except Failure ℚ
  evaluate : PANOCStopCrit → Vec → Vec → Vec → Vec → Vec → ℚ → ℚ
  margin : ℚ → ℚ → ℚ → ℚ → ℚ
  improved : ℚ → ℚ → Bool
  multipliers : TypeErasedProblem → Vec → Vec → Vec → Vec × Vec

/-- Modelled from the spec: what a call of the solver body (not part of the
sources at hand) observes of its surroundings (§5): the elapsed time in
nanoseconds read at the time test of iteration `k`, the elapsed time read on
return, and whether `stop()` has been called from outside the call by the time
iteration `k` polls the flag. -/
structure Surroundings where
  elapsed : Nat → Nat
  elapsed_at_return : Nat
  stop_called : Nat → Bool

/-! ## Step-size / Lipschitz controller (spec §4.1) -/

/-- Modelled from the spec: the step size of §4.1 for an estimate `L`, computed
in the header `lipschitz.hpp` that is not part of the sources at hand:
`γ = (1 − δ) / L`, not finite for `L = 0`. -/
def step_size (δ L : ℚ) : Except Failure ℚ :=
  if L = 0 then .error Failure.not_finite else .ok ((1 - δ) / L)

/-- Modelled from the spec: clipping a value to `[lo, hi]` (§4.1), for the
estimate computed in the header `lipschitz.hpp` that is not part of the sources
at hand. -/
def clip (v lo hi : ℚ) : ℚ := if v < lo then lo else if hi < v then hi else v

/-- Modelled from the spec: `estimate(L_init?) -> (L, γ)` (§4.1), of the solver
body that is not part of the sources at hand. A supplied
initial estimate is used as it is; without one the finite-difference estimate
is clipped to `[L_min, L_max]`; a non-finite probe is fatal. -/
def estimate {Conf : Config} (num : Numerics) (params : PANOCParams Conf)
    (problem : TypeErasedProblem) (x : Vec) : Except Failure (ℚ × ℚ) :=
  match params.Lipschitz.L_init with
  | some L =>
    match step_size params.Lipschitz.δ L with
    | .error e => .error e
    | .ok γ => .ok (L, γ)
  | none =>
    match num.fd_estimate problem x with
    | .error e => .error e
    | .ok v =>
      match step_size params.Lipschitz.δ (clip v params.L_min params.L_max) with
      | .error e => .error e
      | .ok γ => .ok (clip v params.L_min params.L_max, γ)

/-- Modelled from the spec: `grow(L, γ) -> (L', γ')` (§4.1), of the solver body
that is not part of the sources at hand: `L` is doubled,
bounded by `L_max`, and `γ` recomputed as `(1 − δ) / L'`. -/
def grow {Conf : Config} (params : PANOCParams Conf) (L : ℚ) : Except Failure (ℚ × ℚ) :=
  match step_size params.Lipschitz.δ (min (2 * L) params.L_max) with
  | .error e => .error e
  | .ok γ => .ok (min (2 * L) params.L_max, γ)

/-! ## Loop controller (spec §4.2, §4.4, §4.6) -/

/-- Modelled from the spec: the values the loop controller of the solver body
(not part of the sources at hand) carries from one iteration to the next (§3): the
iterate `x`, the Lipschitz estimate and step size, the curvature memory of the
direction strategy, the previous iterate and gradient, the previous stopping
measure, the number of consecutive iterations without progress, the
cancellation flag as last seen, and the statistics so far. `L_hist` records every
pair `(L, γ)` the step-size controller has produced during the call, most
recent first. -/
structure LoopState (D : Type) where
  x : Vec
  L : ℚ
  γ : ℚ
  direction : D
  prev : Option (Vec × Vec)
  ε_prev : Option ℚ
  no_progress : Nat
  stop_signal : AtomicStopSignal
  s : PANOCStats
  L_hist : List (ℚ × ℚ)

/-- Modelled from the spec: the result of a forward-backward step (§4.2) of the
solver body that is not part of the sources at hand, from `x` with step size `γ`:
`x̂`, `h(x̂)`, `p = x̂ − x` and `ψ(x̂)`. -/
structure ForwardBackward where
  x_hat : Vec
  h : ℚ
  p : Vec
  ψ_hat : ℚ

/-- Modelled from the spec: the forward-backward step of §4.2: `x̂` and `h(x̂)`
from the problem, `p = x̂ − x`, and the cost at `x̂` for the quadratic upper
bound. A step size `0` leaves `‖p‖² / (2γ)` without a finite value. -/
def forward_backward (problem : TypeErasedProblem) (x : Vec) (γ : ℚ) :
    Except Failure ForwardBackward :=
  if γ = 0 then .error Failure.not_finite else
  match problem.eval_forward_backward x γ with
  | .error e => .error e
  | .ok (x_hat, h) =>
    match problem.cost x_hat with
    | .error e => .error e
    | .ok ψ_hat => .ok { x_hat := x_hat, h := h, p := Vec.sub x_hat x, ψ_hat := ψ_hat }

/-- Modelled from the spec: the quadratic upper bound of §4.2,
`ψ(x̂) ≤ ψ(x) + ⟨∇ψ(x), p⟩ + (1/2γ)‖p‖² + tol` with
`tol = quadratic_upperbound_tolerance_factor · max(1, |ψ(x)|)`. -/
def quadratic_upperbound_holds {Conf : Config} (params : PANOCParams Conf) (ψx : ℚ)
    (grad_ψ : Vec) (γ : ℚ) (fb : ForwardBackward) : Bool :=
  decide (fb.ψ_hat ≤ ψx + Vec.dot grad_ψ fb.p + (1 / (2 * γ)) * Vec.dot fb.p fb.p
    + params.quadratic_upperbound_tolerance_factor * max 1 |ψx|)

/-- Modelled from the spec: the retry loop of §4.2. The step size is accepted
when the quadratic upper bound holds; when it is violated and `L` has reached
`L_max` the failure is reported as `NotFinite`; otherwise `L` is grown, the
step-size-backtrack counter is incremented and the step is retried. The loop
yields the state it ends in, with the accepted step or the status of the
failure; the result is `none` when `fuel` attempts do not suffice. -/
def stepsize_loop {Conf : Config} {D : Type} (params : PANOCParams Conf)
    (problem : TypeErasedProblem) (ψx : ℚ) (grad_ψ : Vec) :
    Nat → LoopState D → Option (LoopState D × Except SolverStatus ForwardBackward)
  | 0, _ => none
  | fuel + 1, st =>
    match forward_backward problem st.x st.γ with
    | .error e => some (st, .error e.status)
    | .ok fb =>
      if quadratic_upperbound_holds params ψx grad_ψ st.γ fb then some (st, .ok fb)
      else if params.L_max ≤ st.L then some (st, .error SolverStatus.NotFinite)
      else
        match grow params st.L with
        | .error e => some (st, .error e.status)
        | .ok (L, γ) =>
          stepsize_loop params problem ψx grad_ψ fuel
            { st with L := L, γ := γ, L_hist := (L, γ) :: st.L_hist,
                      s := { st.s with stepsize_backtracks := uadd st.s.stepsize_backtracks 1 } }

/-- Modelled from the spec: the forward-backward envelope (glossary): the
smooth model `ψ(x) + ⟨∇ψ(x), p⟩ + ‖p‖² / (2γ)` and the nonsmooth term at the
proximal candidate, `h(x̂)`. -/
def envelope (ψx : ℚ) (grad_ψ : Vec) (γ : ℚ) (fb : ForwardBackward) : ℚ :=
  ψx + fb.h + Vec.dot grad_ψ fb.p + Vec.dot fb.p fb.p / (2 * γ)

/-- Modelled from the spec: the candidate of the line search (§4.4),
`x(τ) = x + (1 − τ) p + τ q`. -/
def candidate (x p q : Vec) (τ : ℚ) : Vec :=
  Vec.add x (Vec.add (Vec.smul (1 - τ) p) (Vec.smul τ q))

/-- Modelled from the spec: the sufficient-decrease test of §4.4 at the
candidate `x(τ)`: `φγ(x(τ)) ≤ φγ(x) − margin`, the envelope at the candidate
evaluated through the problem. -/
def sufficient_decrease {Conf : Config} (num : Numerics) (params : PANOCParams Conf)
    (problem : TypeErasedProblem) (x p q : Vec) (γ φγ : ℚ) (τ : ℚ) : Except Failure Bool :=
  match problem.cost (candidate x p q τ) with
  | .error e => .error e
  | .ok ψc =>
    match problem.gradient (candidate x p q τ) with
    | .error e => .error e
    | .ok gc =>
      match forward_backward problem (candidate x p q τ) γ with
      | .error e => .error e
      | .ok fbc =>
        .ok (decide (envelope ψc gc γ fbc
          ≤ φγ - num.margin params.linesearch_tolerance_factor γ (Vec.dot p p) φγ))

/-- Modelled from the spec: the line search of §4.4 over the weight `τ`, given
the sufficient-decrease test `accept`. `backtracks` counts the rejected
candidates so far (`0` at the start, where `τ = 1`). The search is abandoned as
soon as `τ < τ_min`: `τ` is forced to `0` and a line-search failure recorded.
With `force_linesearch` the first candidate is accepted unconditionally. An
acceptance at `τ = 1` without backtrack increments `τ_1_accepted`; a rejected
candidate multiplies `τ` by `β` and increments `linesearch_backtracks`. A failed
evaluation ends the call. The result is `none` when `fuel` candidates do not
suffice. -/
def linesearch_loop {Conf : Config} (params : PANOCParams Conf)
    (accept : ℚ → Except Failure Bool) :
    Nat → ℚ → Nat → PANOCStats → Option (PANOCStats × Except Failure ℚ)
  | 0, _, _, _ => none
  | fuel + 1, τ, backtracks, s =>
    if τ < params.τ_min then
      some ({ s with linesearch_failures := uadd s.linesearch_failures 1 }, .ok 0)
    else
      match (if params.force_linesearch && backtracks == 0 then .ok true else accept τ) with
      | .error e => some (s, .error e)
      | .ok true =>
        some ({ s with τ_1_accepted :=
          if backtracks = 0 then uadd s.τ_1_accepted 1 else s.τ_1_accepted }, .ok τ)
      | .ok false =>
        linesearch_loop params accept fuel (params.β * τ) (backtracks + 1)
          { s with linesearch_backtracks := uadd s.linesearch_backtracks 1 }

/-- Modelled from the spec: how one iteration of the loop controller (§4.6) of
the solver body, not part of the sources at hand, ends: the call returns with a
terminal status, or the loop goes on with the advanced state. -/
inductive Step (σ : Type) where
  | finished (st : σ) (status : SolverStatus)
  | next (st : σ)

/-- Modelled from the spec: step 6 of §4.6 for an iteration that goes on: the
direction strategy proposes `q` (a failure is counted and falls back to the
pure proximal step `τ = 0`), the line search runs and its `τ` is added to the
running sum and count, the curvature memory is updated (a rejection is
counted), `x` advances to `x(τ)` and the iteration counter is incremented. -/
def advance {Conf : Config} {D : Type} (num : Numerics) (ops : DirectionOps D)
    (params : PANOCParams Conf) (problem : TypeErasedProblem) (fuel : Nat)
    (st : LoopState D) (grad_ψ : Vec) (fb : ForwardBackward) (φγ ε : ℚ) (no_progress : Nat) :
    Option (Step (LoopState D)) :=
  let searched : Option (PANOCStats × Except Failure Vec) :=
    match ops.propose st.direction st.x grad_ψ st.prev with
    | none =>
      some ({ st.s with lbfgs_failures := uadd st.s.lbfgs_failures 1 }, .ok fb.x_hat)
    | some q =>
      match linesearch_loop params
          (sufficient_decrease num params problem st.x fb.p q st.γ φγ) fuel 1 0 st.s with
      | none => none
      | some (s, .error e) => some (s, .error e)
      | some (s, .ok τ) =>
        some ({ s with count_τ := uadd s.count_τ 1, sum_τ := s.sum_τ + real_t.finite τ },
          .ok (candidate st.x fb.p q τ))
  match searched with
  | none => none
  | some (s, .error e) => some (.finished { st with s := s } e.status)
  | some (s, .ok x_next) =>
    let upd := ops.update st.direction st.x grad_ψ st.prev
    some (.next
      { st with
        x := x_next
        direction := upd.1
        prev := some (st.x, grad_ψ)
        ε_prev := some ε
        no_progress := no_progress
        s := { s with
          iterations := uadd s.iterations 1
          lbfgs_rejected := if upd.2 then s.lbfgs_rejected else uadd s.lbfgs_rejected 1 } })

/-- Modelled from the spec: the stopping measure has not strictly improved,
beyond the numerical slack, on that of the previous iteration (§4.6, step 5);
the first iteration has nothing to compare with. -/
def stalled (num : Numerics) (ε_prev : Option ℚ) (ε : ℚ) : Bool :=
  match ε_prev with
  | none => false
  | some ε_old => !num.improved ε_old ε

/-- Modelled from the spec: one iteration `k` of the loop controller, the
transition of §4.6. (1) the step size is computed (§4.1–§4.2), which may end
the call; (2) `φγ` and `ε` are computed and `ε ≤ tolerance` gives `Converged`;
(3) an elapsed time `≥ max_time` gives `MaxTime`; (4) a set cancellation flag
gives `Interrupted`; (5) `max_no_progress` consecutive iterations in which `ε`
has not strictly improved give `NoProgress`; (6) otherwise the iteration goes
on as in `advance`. The progress callback observes the iteration and has no
effect on the result; it is left out. -/
def iteration {Conf : Config} {D : Type} (num : Numerics) (env : Surroundings)
    (ops : DirectionOps D) (params : PANOCParams Conf) (problem : TypeErasedProblem)
    (opts : InnerSolveOptions) (y Sigma : Vec) (fuel : Nat) (k : Nat) (st : LoopState D) :
    Option (Step (LoopState D)) :=
  match problem.cost st.x with
  | .error e => some (.finished st e.status)
  | .ok ψx =>
    match problem.gradient st.x with
    | .error e => some (.finished st e.status)
    | .ok grad_ψ =>
      match stepsize_loop params problem ψx grad_ψ fuel st with
      | none => none
      | some (st1, .error status) => some (.finished st1 status)
      | some (st1, .ok fb) =>
        let φγ := envelope ψx grad_ψ st1.γ fb
        let ε := num.evaluate params.stop_crit st1.x fb.x_hat fb.p y Sigma st1.γ
        let st2 : LoopState D :=
          { st1 with
            stop_signal := { flag := st1.stop_signal.stop_requested || env.stop_called k }
            s := { st1.s with
              ε := real_t.finite ε
              final_γ := real_t.finite st1.γ
              final_ψ := real_t.finite fb.ψ_hat
              final_h := real_t.finite fb.h
              final_φγ := real_t.finite φγ } }
        if ε ≤ opts.tolerance then some (.finished st2 SolverStatus.Converged)
        else if params.max_time ≤ (env.elapsed k : Int) then
          some (.finished st2 SolverStatus.MaxTime)
        else if st2.stop_signal.stop_requested then
          some (.finished st2 SolverStatus.Interrupted)
        else
          let no_progress := if stalled num st2.ε_prev ε then st2.no_progress + 1 else 0
          if stalled num st2.ε_prev ε && decide (params.max_no_progress ≤ no_progress) then
            some (.finished st2 SolverStatus.NoProgress)
          else advance num ops params problem fuel st2 grad_ψ fb φγ ε no_progress

/-- Modelled from the spec: the loop of §4.6. After an iteration that went on,
the iteration counter `k + 1` is compared with `max_iter` and the call returns
`MaxIterations` when it has reached it; `remaining` is the number of iterations
that may still follow this one. -/
def main_loop {Conf : Config} {D : Type} (num : Numerics) (env : Surroundings)
    (ops : DirectionOps D) (params : PANOCParams Conf) (problem : TypeErasedProblem)
    (opts : InnerSolveOptions) (y Sigma : Vec) (fuel : Nat) :
    Nat → Nat → LoopState D → Option (LoopState D × SolverStatus)
  | remaining, k, st =>
    match iteration num env ops params problem opts y Sigma fuel k st with
    | none => none
    | some (.finished st1 status) => some (st1, status)
    | some (.next st1) =>
      match remaining with
      | 0 => some (st1, SolverStatus.MaxIterations)
      | r + 1 => main_loop num env ops params problem opts y Sigma fuel r (k + 1) st1

/-- Modelled from the spec: what a call of the solve entry point, whose body is
not part of the sources at hand, leaves behind (§6): the returned `Stats`,
the vectors `x`, `y`, `err_z` as written back, the solver instance after the
call, and the pairs `(L, γ)` the step-size controller produced, in order. -/
structure SolveResult (Conf : Config) (D : Type) (CB : Type) where
  stats : PANOCStats
  x : Vec
  y : Vec
  err_z : Vec
  solver : PANOCSolver Conf D CB
  L_trace : List (ℚ × ℚ)

/-- Modelled from the spec: how a call returns (§7): the `Stats` carries the
terminal status and the partial results, `x` holds the last accepted iterate,
the cancellation flag is left as last seen and the curvature memory as last
updated. -/
def finish {Conf : Config} {D CB : Type} (num : Numerics) (env : Surroundings)
    (self : PANOCSolver Conf D CB) (problem : TypeErasedProblem) (y Sigma : Vec)
    (st : LoopState D) (status : SolverStatus) : SolveResult Conf D CB :=
  { stats := { st.s with status := status, elapsed_time := env.elapsed_at_return }
    x := st.x
    y := (num.multipliers problem st.x y Sigma).1
    err_z := (num.multipliers problem st.x y Sigma).2
    solver := { self with stop_signal := st.stop_signal, direction := st.direction }
    L_trace := st.L_hist.reverse }

/-- Modelled from the spec: the state in which a call starts (§4.6): state
`Busy` with iteration counter `0` (a default `Stats`), the caller's `x`, the
solver's cancellation flag and curvature memory, and no estimate of `L` yet. -/
def start_state {Conf : Config} {D CB : Type} (self : PANOCSolver Conf D CB) (x : Vec) :
    LoopState D :=
  { x := x, L := 0, γ := 0, direction := self.direction, prev := none, ε_prev := none,
    no_progress := 0, stop_signal := self.stop_signal, s := {}, L_hist := [] }

/-- Modelled from the spec: the state of the solver body (not part of the
sources at hand) with the initial estimate of `L` and `γ` of §4.1 recorded. -/
def LoopState.with_estimate {D : Type} (st : LoopState D) (L γ : ℚ) : LoopState D :=
  { st with L := L, γ := γ, L_hist := [(L, γ)] }

/-- Modelled from the spec: the primary overload of the solve entry point,
`PANOCSolver::operator()(problem, opts, x, y, Σ, err_z)`, whose body is not part
of the sources at hand. The call starts in `start_state`, estimates `L` and `γ`
(§4.1), which may end the call, and runs the loop of §4.6. The result is `none`
when an inner retry loop does not end within `fuel` steps. -/
def PANOCSolver.call {Conf : Config} {D CB : Type} (num : Numerics) (env : Surroundings)
    (ops : DirectionOps D) (fuel : Nat) (self : PANOCSolver Conf D CB)
    (problem : TypeErasedProblem) (opts : InnerSolveOptions) (x y Sigma : Vec) :
    Option (SolveResult Conf D CB) :=
  match estimate num self.params problem x with
  | .error e => some (finish num env self problem y Sigma (start_state self x) e.status)
  | .ok (L, γ) =>
    match main_loop num env ops self.params problem opts y Sigma fuel
        (self.params.max_iter - 1) 0 ((start_state self x).with_estimate L γ) with
    | none => none
    | some (st, status) => some (finish num env self problem y Sigma st status)

/-- The templated overload `PANOCSolver::operator()(const P &problem, ...)`: the
problem is adapted by `Problem::make<P>` and passed, with the other arguments
unchanged, to the primary overload. The adaptation `make` and the primary
overload `primary` are arguments. -/
def PANOCSolver.call_template {Conf : Config} {D CB P Problem Opts V R : Type}
    (primary : PANOCSolver Conf D CB → Problem → Opts → V → V → V → V → R)
    (make : P → Problem) (self : PANOCSolver Conf D CB)
    (problem : P) (opts : Opts) (u y Sigma e : V) : R :=
  primary self (make problem) opts u y Sigma e

/-- Step 1 of an iteration from the state `st` fails: the cost or the gradient at
`x` cannot be evaluated, or the retry loop of the step-size controller ends with
a failure. -/
def stepsize_fails {Conf : Config} {D : Type} (params : PANOCParams Conf)
    (problem : TypeErasedProblem) (fuel : Nat) (st : LoopState D) : Prop :=
  (∃ e, problem.cost st.x = .error e) ∨ (∃ e, problem.gradient st.x = .error e) ∨
  ∃ ψx grad_ψ st1 status, problem.cost st.x = .ok ψx ∧ problem.gradient st.x = .ok grad_ψ ∧
    stepsize_loop params problem ψx grad_ψ fuel st = some (st1, .error status)

/-- The state an iteration ends in. -/
def Step.state {σ : Type} : Step σ → σ
  | .finished st _ => st
  | .next st => st

/-- The parameters for which the retry loops of a call end: the invariant of
the spec, a positive `L_min` and, when an initial Lipschitz estimate is
supplied, a positive one. -/
def PANOCParams.valid {Conf : Config} (p : PANOCParams Conf) : Prop :=
  p.invariant ∧ 0 < p.L_min ∧ ∀ L, p.Lipschitz.L_init = some L → 0 < L

/-- A list of pairs `(L, γ)`, most recent first, is a record of growth steps:
every pair has `L ≠ 0` and `γ = (1 − δ) / L`, and every pair but the earliest
results from its predecessor, which had `L < L_max`, by doubling `L` bounded by
`L_max`. -/
def growth_chain {Conf : Config} (params : PANOCParams Conf) : List (ℚ × ℚ) → Prop
  | [] => False
  | [a] => a.1 ≠ 0 ∧ a.2 = (1 - params.Lipschitz.δ) / a.1
  | b :: a :: rest =>
    a.1 < params.L_max ∧ b.1 = min (2 * a.1) params.L_max ∧ b.1 ≠ 0 ∧
    b.2 = (1 - params.Lipschitz.δ) / b.1 ∧ growth_chain params (a :: rest)

/-- The invariant of the loop state: `L_hist` is a record of growth steps whose
earliest pair is the initial estimate `a₀` and whose most recent pair is the
current `(L, γ)`, and the step-size-backtrack counter does not exceed the
number of growth steps. -/
def LoopState.inv {Conf : Config} {D : Type} (params : PANOCParams Conf) (a₀ : ℚ × ℚ)
    (st : LoopState D) : Prop :=
  st.L_hist.head? = some (st.L, st.γ) ∧ growth_chain params st.L_hist ∧
  st.s.stepsize_backtracks + 1 ≤ st.L_hist.length ∧ st.L_hist.getLast? = some a₀

/-! ## Construction of the solver and registration of the progress callback -/

/-- The constructor `PANOCSolver(const Params &params)`, available when the
direction is default-initialisable: `params` is copied, the other members are
default-initialised (the flag not set, the `std::function` empty, the
direction default-constructed). -/
def PANOCSolver.new {Conf : Config} {D CB : Type} [Inhabited D] (params : PANOCParams Conf) :
    PANOCSolver Conf D CB :=
  { params := params, direction := default }

/-- The constructor `PANOCSolver(const Params &params, Direction &&direction)`:
`params` is copied and `direction` moved into the member; the other members are
default-initialised. -/
def PANOCSolver.new_move {Conf : Config} {D CB : Type} (params : PANOCParams Conf)
    (direction : D) : PANOCSolver Conf D CB :=
  { params := params, direction := direction }

/-- The constructor `PANOCSolver(const Params &params, const Direction &direction)`:
`params` and `direction` are copied; the other members are default-initialised. -/
def PANOCSolver.new_copy {Conf : Config} {D CB : Type} (params : PANOCParams Conf)
    (direction : D) : PANOCSolver Conf D CB :=
  { params := params, direction := direction }

/-- The member function `PANOCSolver::set_progress_callback`: the argument, a
`std::function` that may be empty, is assigned to `progress_cb` and the instance
itself is returned; the result is the instance after the assignment. -/
def PANOCSolver.set_progress_callback {Conf : Config} {D CB : Type}
    (self : PANOCSolver Conf D CB) (cb : Option CB) : PANOCSolver Conf D CB :=
  { self with progress_cb := cb }

/-- The member function `PANOCSolver::get_params`. -/
def PANOCSolver.get_params {Conf : Config} {D CB : Type} (self : PANOCSolver Conf D CB) :
    PANOCParams Conf :=
  self.params

/-! ## Concrete inputs used by the examples below -/

/-- An accumulator whose iteration counter is at the top of the `unsigned` range. -/
def acc_full : InnerStatsAccumulator :=
  { iterations := 2 ^ 32 - 1, elapsed_time := 5, sum_τ := real_t.finite (1 / 2),
    final_γ := real_t.finite 7 }

/-- Statistics of a call with three iterations. -/
def stats_three : PANOCStats :=
  { status := SolverStatus.Converged, iterations := 3, elapsed_time := 7,
    sum_τ := real_t.finite (5 / 2), count_τ := 3, final_γ := real_t.finite (1 / 4) }

/-- Statistics of a call with one iteration. -/
def stats_one : PANOCStats :=
  { status := SolverStatus.MaxTime, iterations := 1, elapsed_time := 11,
    sum_τ := real_t.finite 1, count_τ := 1, final_γ := real_t.finite (1 / 8),
    final_ψ := real_t.finite 2 }

/-- The problem `ψ(x) = x²`, `h ≡ 0` in one dimension (spec §8): the gradient is
`2x` and the forward-backward step is the gradient step `x − γ · 2x`. -/
def quadratic_problem : TypeErasedProblem :=
  { n := 1
    cost := fun x => .ok (Vec.dot x x)
    gradient := fun x => .ok (Vec.smul 2 x)
    eval_forward_backward := fun x γ => .ok (Vec.sub x (Vec.smul γ (Vec.smul 2 x)), 0) }

/-- The problem `ψ(x) = 1 / x`, `h ≡ 0` in one dimension, whose cost and gradient
have no finite value at `x = 0`. -/
def reciprocal_problem : TypeErasedProblem :=
  { n := 1
    cost := fun x =>
      match x with
      | [v] => if v = 0 then .error Failure.not_finite else .ok (1 / v)
      | _ => .error Failure.exception
    gradient := fun x =>
      match x with
      | [v] => if v = 0 then .error Failure.not_finite else .ok [-(1 / (v * v))]
      | _ => .error Failure.exception
    eval_forward_backward := fun x γ =>
      match x with
      | [v] => if v = 0 then .error Failure.not_finite else .ok ([v + γ / (v * v)], 0)
      | _ => .error Failure.exception }

/-- The problem `ψ(x) = 1 / x`, `h ≡ 0` on the domain `x > 0` in one dimension,
whose evaluations raise an exception outside the domain. -/
def positive_domain_problem : TypeErasedProblem :=
  { n := 1
    cost := fun x =>
      match x with
      | [v] => if 0 < v then .ok (1 / v) else .error Failure.exception
      | _ => .error Failure.exception
    gradient := fun x =>
      match x with
      | [v] => if 0 < v then .ok [-(1 / (v * v))] else .error Failure.exception
      | _ => .error Failure.exception
    eval_forward_backward := fun x γ =>
      match x with
      | [v] => if 0 < v then .ok ([v + γ / (v * v)], 0) else .error Failure.exception
      | _ => .error Failure.exception }

/-- The largest absolute value of the components of a vector. -/
def Vec.norm_inf (a : Vec) : ℚ := (a.map (fun v => |v|)).foldl max 0

/-- Formulas for the examples: the finite-difference estimate
`‖∇ψ(x + 1) − ∇ψ(x)‖∞` from the two points `x` and `x + 1`, the stopping
measure `‖p‖∞ / γ`, no margin, strict decrease as improvement, and the dual
estimate left as it is, with an empty residual. -/
def demo_numerics : Numerics :=
  { fd_estimate := fun problem x =>
      match problem.gradient x with
      | .error e => .error e
      | .ok g₀ =>
        match problem.gradient (x.map (· + 1)) with
        | .error e => .error e
        | .ok g₁ => .ok (Vec.norm_inf (Vec.sub g₁ g₀))
    evaluate := fun _ _ _ p _ _ γ => Vec.norm_inf p / γ
    margin := fun _ _ _ _ => 0
    improved := fun ε_old ε => decide (ε < ε_old)
    multipliers := fun _ _ y _ => (y, []) }

/-- Surroundings in which iteration `k` reads an elapsed time of `1000 (k + 1)`
nanoseconds and nobody calls `stop()`. -/
def quiet : Surroundings :=
  { elapsed := fun k => 1000 * (k + 1), elapsed_at_return := 5000, stop_called := fun _ => false }

/-- A direction strategy without memory that proposes `q = −∇ψ(x) / 2`, the
Newton step of `quadratic_problem`, and accepts every update. -/
def half_gradient : DirectionOps Unit :=
  { propose := fun _ _ grad_ψ _ => some (Vec.smul (-(1 / 2)) grad_ψ)
    update := fun d _ _ _ => (d, true) }

/-- A direction strategy without memory whose proposals move away from the
minimiser of `quadratic_problem` (`q = 4 ∇ψ(x)`). -/
def uphill : DirectionOps Unit :=
  { propose := fun _ _ grad_ψ _ => some (Vec.smul 4 grad_ψ)
    update := fun d _ _ _ => (d, true) }

/-- Default parameters for double precision, with a probed initial estimate and
safety margin `δ = 1/20`. -/
def demo_params : PANOCParams EigenConfigd := { Lipschitz := { L_init := none, δ := 1 / 20 } }

/-- A solver with the default parameters. -/
def demo_solver : PANOCSolver EigenConfigd Unit Unit := { params := demo_params, direction := () }

/-- A solver with the default parameters but `max_time = 0`. -/
def zero_time_solver : PANOCSolver EigenConfigd Unit Unit :=
  { params := { demo_params with max_time := 0 }, direction := () }

/-- A solver with the default parameters and a supplied initial Lipschitz
estimate of `1/4`, below the constant `2` of `quadratic_problem`. -/
def small_estimate_solver : PANOCSolver EigenConfigd Unit Unit :=
  { params := { demo_params with Lipschitz := { L_init := some (1 / 4), δ := 1 / 20 } },
    direction := () }

/-- A solver with the default parameters but `L_max = 1`, below the constant `2`
of `quadratic_problem`. -/
def capped_solver : PANOCSolver EigenConfigd Unit Unit :=
  { params := { demo_params with L_max := 1 }, direction := () }

/-- Parameters with `β = 1/2` and `τ_min = 1/4`. -/
def coarse_params : PANOCParams EigenConfigd :=
  { demo_params with β := 1 / 2, τ_min := 1 / 4 }

/-- A solver with `β = 1/2`, `τ_min = 1/4` and at most three iterations. -/
def coarse_solver : PANOCSolver EigenConfigd Unit Unit :=
  { params := { coarse_params with max_iter := 3 }, direction := () }

/-- A direction strategy without memory that proposes `q = −x`, the step to the
origin. -/
def to_origin : DirectionOps Unit :=
  { propose := fun _ x _ _ => some (Vec.smul (-1) x)
    update := fun d _ _ _ => (d, true) }

/-- Solve options with tolerance `10⁻⁸`. -/
def demo_opts : InnerSolveOptions := { tolerance := 1 / 10 ^ 8 }

end alpaqa

/-! # Switch nodes (CasADi)

Shallow embedding of `casadi/core/mx/casadi_switch.cpp`. The classes the file
works with (`Function`, `Sparsity`, `MX`, `CodeGenerator`) are declared
elsewhere; what the file uses of them is taken as given: the sparsity patterns
are the values of a type `S` with decidable equality, the symbolic expressions
those of a type `M`, and their operations are the fields of `Collaborators`. -/

namespace casadi

/-- The exceptions by which the member functions fail: a failed `casadi_assert`
(with the asserted condition), a failed `casadi_assert_message` (with its
message), the use of a null `Function`, and an index refused by
`std::vector::at`. -/
inductive CasadiException where
  | assertion (condition : String)
  | message (msg : String)
  | null_function
  | out_of_range
  deriving DecidableEq, Repr

/-- What `casadi_switch.cpp` uses of a non-null `Function`: its name, whether
it is initialised (`assertInit`), the sparsity patterns of its inputs and of
its outputs (`input(i).sparsity()`, `output(i).sparsity()`, their numbers being
`getNumInputs()` and `getNumOutputs()`), and its numerical evaluation. -/
structure FunctionInternal (S : Type) where
  name : String
  is_init : Bool
  input : List S
  output : List S
  evalD : List (List ℚ) → Except CasadiException (List (List ℚ))

/-- A `Function` is a shared reference that may be null. -/
abbrev Function (S : Type) := Option (FunctionInternal S)

/-- The operations of `Sparsity` and `MX` that `casadi_switch.cpp` calls and that
are declared elsewhere: `Sparsity::patternIntersection`, `Sparsity::scalar()`,
`MX::isScalar(bool scalar_and_dense)` and `projectArg(arg, sparsity, i)`. -/
structure Collaborators (S M : Type) where
  patternIntersection : S → S → S
  scalar : S
  isScalar : M → Bool → Bool
  projectArg : M → S → Int → M

/-- The function `Switch::getFunction(int i)`, on the members `f_` and `f_def_`. -/
def getFunction {S : Type} (f_ : List (Function S)) (f_def_ : Function S) (i : Int) :
    Except CasadiException (Function S) :=
  if 0 ≤ i ∧ i ≤ (f_.length : Int) then
    if i < (f_.length : Int) then .ok (f_.getD i.toNat none)
    else .ok f_def_
  else .error (CasadiException.assertion "i>=0 && i<=f_.size()")

/-- The locals `num_in`, `num_out` of the constructor, with the members `sp_in_`
and `sp_out_` it fills. -/
structure Shapes (S : Type) where
  num_in : Int := -1
  num_out : Int := -1
  sp_in_ : List S := []
  sp_out_ : List S := []

/-- The body of the constructor's loop for the function `fk`: a null function is
skipped; the first non-null function sets the numbers of inputs and outputs
and the patterns; every later one must match the numbers, and the patterns are
intersected with its own. -/
def visit {S M : Type} (ops : Collaborators S M) (st : Shapes S) (fk : Function S) :
    Except CasadiException (Shapes S) :=
  match fk with
  | none => .ok st
  | some node =>
    if !node.is_init then .error (CasadiException.assertion "isInit()")
    else if st.num_in < 0 then
      .ok { num_in := node.input.length, num_out := node.output.length,
            sp_out_ := node.output, sp_in_ := node.input }
    else if st.num_in ≠ (node.input.length : Int) then
      .error (CasadiException.assertion "num_in==fk.getNumInputs()")
    else if st.num_out ≠ (node.output.length : Int) then
      .error (CasadiException.assertion "num_out==fk.getNumOutputs()")
    else
      .ok { st with
            sp_out_ := List.zipWith ops.patternIntersection st.sp_out_ node.output
            sp_in_ := List.zipWith ops.patternIntersection st.sp_in_ node.input }

/-- The constructor's loop `for (k = 0; k <= f_.size(); ++k)` over the indices
still to visit. -/
def scan_from {S M : Type} (ops : Collaborators S M) (f_ : List (Function S))
    (f_def_ : Function S) : List Nat → Shapes S → Except CasadiException (Shapes S)
  | [], st => .ok st
  | k :: ks, st =>
    match getFunction f_ f_def_ k with
    | .error e => .error e
    | .ok fk =>
      match visit ops st fk with
      | .error e => .error e
      | .ok st1 => scan_from ops f_ f_def_ ks st1

/-- The members of a `Switch` node: the case functions `f_`, the default
function `f_def_`, the patterns `sp_in_` and `sp_out_`, the dependencies set by
`setDependencies` and the sparsity set by `setSparsity`. -/
structure Switch (S M : Type) where
  f_ : List (Function S)
  f_def_ : Function S
  sp_in_ : List S
  sp_out_ : List S
  dep : List M
  sparsity_ : S

/-- The arguments `arg1[i+1] = projectArg(arg[i], sp_in_[i], i)` of the
constructor, from position `i` on. -/
def project_args {S M : Type} (ops : Collaborators S M) : Int → List M → List S → List M
  | i, a :: as, s :: ss => ops.projectArg a s i :: project_args ops (i + 1) as ss
  | _, _, _ => []

/-- The constructor `Switch::Switch(ind, arg, f, f_def)`. -/
def Switch.new {S M : Type} (ops : Collaborators S M) (ind : M) (arg : List M)
    (f : List (Function S)) (f_def : Function S) : Except CasadiException (Switch S M) :=
  if f.isEmpty then .error (CasadiException.assertion "!f_.empty()")
  else if !ops.isScalar ind true then .error (CasadiException.assertion "ind.isScalar(true)")
  else
    match scan_from ops f f_def (List.range (f.length + 1)) {} with
    | .error e => .error e
    | .ok st =>
      if st.num_in < 0 then .error (CasadiException.message "All functions are null")
      else if (arg.length : Int) ≠ st.num_in then
        .error (CasadiException.message
          ("Argument list length (" ++ toString arg.length
            ++ ") does not match number of inputs (" ++ toString st.num_in ++ ")"))
      else
        .ok { f_ := f, f_def_ := f_def, sp_in_ := st.sp_in_, sp_out_ := st.sp_out_,
              dep := ind :: project_args ops 0 arg st.sp_in_, sparsity_ := ops.scalar }

/-- The function `Switch::create`: the node is constructed and handed to
`MX::createMultipleOutput`, which is declared elsewhere. -/
def Switch.create {S M R : Type} (ops : Collaborators S M)
    (createMultipleOutput : Switch S M → R) (ind : M) (arg : List M)
    (f : List (Function S)) (f_def : Function S) : Except CasadiException R :=
  match Switch.new ops ind arg f f_def with
  | .error e => .error e
  | .ok node => .ok (createMultipleOutput node)

/-- The member function `Switch::getFunction`. -/
def Switch.getFunction {S M : Type} (self : Switch S M) (i : Int) :
    Except CasadiException (Function S) :=
  casadi.getFunction self.f_ self.f_def_ i

/-- The member function `Switch::nout`. -/
def Switch.nout {S M : Type} (self : Switch S M) : Int := self.sp_out_.length

/-- The member function `Switch::sparsity(int oind)`, which reads
`sp_out_.at(oind)`. -/
def Switch.sparsity {S M : Type} (self : Switch S M) (oind : Int) : Except CasadiException S :=
  if 0 ≤ oind then
    match self.sp_out_[oind.toNat]? with
    | some s => .ok s
    | none => .error CasadiException.out_of_range
  else .error CasadiException.out_of_range

/-- The conversion `static_cast<int>` of a `double`, read as an exact rational:
truncation toward zero. The conversion is defined when the result is
representable as an `int`. -/
def static_cast_int (d : ℚ) : Int := if 0 ≤ d then ⌊d⌋ else ⌈d⌉

/-- The integer is representable as an `int` (32 bits). -/
def in_int (k : Int) : Prop := -(2 ^ 31) ≤ k ∧ k < 2 ^ 31

/-- The two loops of `evalD` over the stored patterns: the pattern of the
selected function at each position must equal the stored one
(`"Not implemented"` otherwise); a position the function does not have cannot
be read. -/
def check_buffers {S : Type} [DecidableEq S] : List S → List S → Except CasadiException Unit
  | [], _ => .ok ()
  | _ :: _, [] => .error CasadiException.out_of_range
  | s :: stored, a :: actual =>
    if a = s then check_buffers stored actual
    else .error (CasadiException.message "Not implemented")

/-- The member function `Switch::evalD`: `index` is the value `*arg[0]` and `arg`
are the buffers `arg + 1` passed on to the selected function, whose result is
the result of the evaluation. -/
def Switch.evalD {S M : Type} [DecidableEq S] (self : Switch S M) (index : ℚ)
    (arg : List (List ℚ)) : Except CasadiException (List (List ℚ)) :=
  match self.getFunction (static_cast_int index) with
  | .error e => .error e
  | .ok none => .error CasadiException.null_function
  | .ok (some fk) =>
    match check_buffers self.sp_in_ fk.input with
    | .error e => .error e
    | .ok _ =>
      match check_buffers self.sp_out_ fk.output with
      | .error e => .error e
      | .ok _ => fk.evalD arg

/-! ## Code generation -/

/-- The lines that `Switch::generate` writes to the body of the generated
function, one constructor for each output statement of the source. -/
inductive Line where
  | scope_open
  | io (text : String)
  | cond (if_else : Bool) (workel : String)
  | case_label (k1 : Int)
  | default_label
  | else_branch
  | return_1
  | call (f : Int)
  | break_stmt
  | close
  | scope_close
  deriving DecidableEq, Repr

/-- The text of a line, as written to `g.body`. -/
def Line.render : Line → String
  | .scope_open => "  \x7b"
  | .io text => text
  | .cond if_else workel =>
    "    " ++ (if if_else then "if" else "switch") ++ " ((int)" ++ workel ++ ") \x7b"
  | .case_label k1 => "    case " ++ toString k1 ++ ":"
  | .default_label => "    default:"
  | .else_branch => "    \x7d else \x7b"
  | .return_1 => "      return 1;"
  | .call f => "      if (f" ++ toString f ++ "(arg1, res1, iw, w)) return 1;"
  | .break_stmt => "      break;"
  | .close => "    \x7d"
  | .scope_close => "  \x7d"

/-- The body of the loop of `Switch::generate` for the loop counter `k`:
the label of the branch, then the call of the function `getFunction(k1)`, or
`return 1;` when that function is null. The number of a function in the
generated file is given by `getDependency`, a member of the code generator. -/
def emit_case {S M : Type} (self : Switch S M) (getDependency : FunctionInternal S → Int)
    (if_else : Bool) (k : Int) : Except CasadiException (List Line) :=
  let k1 : Int := if if_else then 1 - k else k
  let label : List Line :=
    if !if_else then
      if k1 < (self.f_.length : Int) then [Line.case_label k1] else [Line.default_label]
    else if k1 = 0 then [Line.else_branch]
    else []
  match self.getFunction k1 with
  | .error e => .error e
  | .ok none => .ok (label ++ [Line.return_1])
  | .ok (some fk) =>
    .ok (label ++ [Line.call (getDependency fk)] ++ (if !if_else then [Line.break_stmt] else []))

/-- The loop `for (k = 0; k <= f_.size(); ++k)` of `Switch::generate` over the
counters still to visit. -/
def emit_cases {S M : Type} (self : Switch S M) (getDependency : FunctionInternal S → Int)
    (if_else : Bool) : List Nat → Except CasadiException (List Line)
  | [] => .ok []
  | k :: ks =>
    match emit_case self getDependency if_else k with
    | .error e => .error e
    | .ok block =>
      match emit_cases self getDependency if_else ks with
      | .error e => .error e
      | .ok rest => .ok (block ++ rest)

/-- The member function `Switch::generate`. The text written by `generateIO` and
the work element `g.workel(arg[0], dep(0).nnz())` come from the code
generator. -/
def Switch.generate {S M : Type} (self : Switch S M) (io workel : String)
    (getDependency : FunctionInternal S → Int) : Except CasadiException (List Line) :=
  let if_else : Bool := decide (self.f_.length = 1)
  match emit_cases self getDependency if_else (List.range (self.f_.length + 1)) with
  | .error e => .error e
  | .ok body =>
    .ok ([Line.scope_open, Line.io io, Line.cond if_else workel] ++ body
          ++ [Line.close, Line.scope_close])

/-! ### Execution of the generated block

The generated lines are C statements; their execution for a value of the
controlling expression is given by the C rules for `switch` and `if`. -/

/-- What the execution of the generated block does: it calls a generated
function, or leaves the enclosing function with `return 1;`. -/
inductive Action where
  | call (f : Int)
  | return_1
  deriving DecidableEq, Repr

/-- Execution of the statements from a position on, until the branch is left.
`fails f` tells whether the call of the generated function number `f` returns
a nonzero flag, in which case `if (f..(..)) return 1;` returns. -/
def run_block (fails : Int → Bool) : List Line → List Action
  | [] => []
  | Line.call f :: rest =>
    if fails f then [Action.call f, Action.return_1] else Action.call f :: run_block fails rest
  | Line.return_1 :: _ => [Action.return_1]
  | Line.break_stmt :: _ => []
  | Line.close :: _ => []
  | Line.else_branch :: _ => []
  | _ :: rest => run_block fails rest

/-- The statements that follow the label `case v:`, when there is one. -/
def after_case (v : Int) : List Line → Option (List Line)
  | [] => none
  | Line.case_label k1 :: rest => if k1 = v then some rest else after_case v rest
  | _ :: rest => after_case v rest

/-- The statements that follow the label `default:`, when there is one. -/
def after_default : List Line → Option (List Line)
  | [] => none
  | Line.default_label :: rest => some rest
  | _ :: rest => after_default rest

/-- The statements that follow `} else {`, when there is one. -/
def after_else : List Line → Option (List Line)
  | [] => none
  | Line.else_branch :: rest => some rest
  | _ :: rest => after_else rest

/-- Execution of the generated block when the controlling expression
`(int)workel` has the value `v`: an `if` takes its first branch for a nonzero
value and its `else` branch for zero; a `switch` jumps to the label of the
value, or to `default:` when no label has that value. -/
def dispatch (fails : Int → Bool) (v : Int) : List Line → List Action
  | [] => []
  | Line.cond true _ :: rest =>
    if v ≠ 0 then run_block fails rest
    else
      match after_else rest with
      | some branch => run_block fails branch
      | none => []
  | Line.cond false _ :: rest =>
    match after_case v rest with
    | some branch => run_block fails branch
    | none =>
      match after_default rest with
      | some branch => run_block fails branch
      | none => []
  | _ :: rest => dispatch fails v rest

/-- What the dispatch of the generated block must do for the function `fk`:
`return 1;` for a null function, else the call of its generated function,
followed by `return 1;` when the call fails. -/
def expected_actions {S : Type} (getDependency : FunctionInternal S → Int)
    (fails : Int → Bool) : Function S → List Action
  | none => [Action.return_1]
  | some fk =>
    if fails (getDependency fk) then [Action.call (getDependency fk), Action.return_1]
    else [Action.call (getDependency fk)]

/-- The statements of one branch of the generated block, as the specification of
the generated code words them: `return 1;` for a null function, else the call
of the generated function, followed by `break;` in a `switch`. -/
def branch_lines {S : Type} (getDependency : FunctionInternal S → Int) (if_else : Bool) :
    Function S → List Line
  | none => [Line.return_1]
  | some fk => Line.call (getDependency fk) :: (if if_else then [] else [Line.break_stmt])

/-- The generated block in the general case, as the specification of the
generated code words it: `case k:` with the branch of `f_[k]` for every `k < n`, then
`default:` with the branch of `f_def_`. -/
def switch_lines {S M : Type} (self : Switch S M) (io workel : String)
    (getDependency : FunctionInternal S → Int) : List Line :=
  [Line.scope_open, Line.io io, Line.cond false workel]
    ++ (List.range self.f_.length).flatMap (fun j =>
        Line.case_label (j : Int) :: branch_lines getDependency false (self.f_.getD j none))
    ++ (Line.default_label :: branch_lines getDependency false self.f_def_)
    ++ [Line.close, Line.scope_close]

/-- The generated block in the case of a single function, as the specification
of the generated code words it: an `if` whose first branch is that of `f_def_` and
whose `else` branch is that of `f_[0]`. -/
def if_else_lines {S M : Type} (self : Switch S M) (io workel : String)
    (getDependency : FunctionInternal S → Int) : List Line :=
  [Line.scope_open, Line.io io, Line.cond true workel]
    ++ branch_lines getDependency true self.f_def_
    ++ [Line.else_branch]
    ++ branch_lines getDependency true (self.f_.getD 0 none)
    ++ [Line.close, Line.scope_close]

/-- The text of one branch of the generated block: `return 1;` for a null
function, else the call of the generated function, followed by `break;` in a
`switch`. -/
def branch_text {S : Type} (getDependency : FunctionInternal S → Int) (if_else : Bool) :
    Function S → List String
  | none => ["      return 1;"]
  | some fk =>
    ("      if (f" ++ toString (getDependency fk) ++ "(arg1, res1, iw, w)) return 1;")
      :: (if if_else then [] else ["      break;"])

/-- The text of the generated block in the general case, line by line: a
`switch` on `(int)workel` with `case k:` and the branch of `f_[k]` for every
`k < n`, then `default:` and the branch of `f_def_`. -/
def switch_text {S M : Type} (self : Switch S M) (io workel : String)
    (getDependency : FunctionInternal S → Int) : List String :=
  ["  \x7b", io, "    switch ((int)" ++ workel ++ ") \x7b"]
    ++ (List.range self.f_.length).flatMap (fun j =>
        ("    case " ++ toString (j : Int) ++ ":")
          :: branch_text getDependency false (self.f_.getD j none))
    ++ ("    default:" :: branch_text getDependency false self.f_def_)
    ++ ["    \x7d", "  \x7d"]

/-- The text of the generated block in the case of a single function, line by
line: an `if` on `(int)workel` whose first branch is that of `f_def_` and whose
`else` branch is that of `f_[0]`. -/
def if_else_text {S M : Type} (self : Switch S M) (io workel : String)
    (getDependency : FunctionInternal S → Int) : List String :=
  ["  \x7b", io, "    if ((int)" ++ workel ++ ") \x7b"]
    ++ branch_text getDependency true self.f_def_
    ++ ["    \x7d else \x7b"]
    ++ branch_text getDependency true (self.f_.getD 0 none)
    ++ ["    \x7d", "  \x7d"]

/-! ## Auxiliary definitions for the statements about the constructor -/

/-- The non-null functions among the case functions and the default function,
in the order in which the constructor visits them. -/
def candidates {S : Type} (f : List (Function S)) (f_def : Function S) :
    List (FunctionInternal S) :=
  (f ++ [f_def]).reduceOption

/-- The constructor's loop body applied to a list of functions in turn. -/
def visit_all {S M : Type} (ops : Collaborators S M) :
    List (Function S) → Shapes S → Except CasadiException (Shapes S)
  | [], st => .ok st
  | fk :: fs, st =>
    match visit ops st fk with
    | .error e => .error e
    | .ok st1 => visit_all ops fs st1

/-- The numbers and patterns held after the non-null functions `cs` have been
visited: those of the first, the patterns intersected with those of the
others in turn. -/
def combine {S M : Type} (ops : Collaborators S M) : List (FunctionInternal S) → Shapes S
  | [] => {}
  | c :: cs =>
    { num_in := c.input.length, num_out := c.output.length,
      sp_out_ := cs.foldl (fun acc d => List.zipWith ops.patternIntersection acc d.output) c.output,
      sp_in_ := cs.foldl (fun acc d => List.zipWith ops.patternIntersection acc d.input) c.input }

/-- The pattern intersection, at position `i`, of the patterns `sel` of the
functions `first :: rest`, taken from the first function on. -/
def intersection_at {S M : Type} (ops : Collaborators S M) (sel : FunctionInternal S → List S)
    (i : Nat) (first : FunctionInternal S) (rest : List (FunctionInternal S)) : S :=
  rest.foldl (fun a d => ops.patternIntersection a ((sel d).getD i ops.scalar))
    ((sel first).getD i ops.scalar)

/-- The exception comes from `casadi_assert` or `casadi_assert_message`. -/
def CasadiException.is_assertion : CasadiException → Bool
  | .assertion _ => true
  | .message _ => true
  | _ => false

/-- The laws of pattern containment `le` and pattern intersection `inter` that
the statements about containment rest on: containment is reflexive and
transitive, and an intersection is contained in both of its arguments. -/
structure IntersectionLaws {S : Type} (le : S → S → Prop) (inter : S → S → S) : Prop where
  refl : ∀ a, le a a
  trans : ∀ a b c, le a b → le b c → le a c
  inter_le_left : ∀ a b, le (inter a b) a
  inter_le_right : ∀ a b, le (inter a b) b

/-! ## Concrete switches used by the examples below

A pattern is the finite set of the positions of its structural nonzeros, and
an expression is represented by its pattern. -/

/-- Patterns as finite sets of positions, with set intersection. -/
def demo_ops : Collaborators (Finset ℕ) (Finset ℕ) where
  patternIntersection := fun a b => a ∩ b
  scalar := {0}
  isScalar := fun m _ => decide (m = {0})
  projectArg := fun a s _ => a ∩ s

/-- A function with one input and one output, both with positions 0, 1, 2. -/
def f_wide : FunctionInternal (Finset ℕ) where
  name := "f_wide"
  is_init := true
  input := [{0, 1, 2}]
  output := [{0, 1, 2}]
  evalD := fun arg => .ok arg

/-- A function with one input and one output, both with positions 1, 2, 3. -/
def f_shifted : FunctionInternal (Finset ℕ) where
  name := "f_shifted"
  is_init := true
  input := [{1, 2, 3}]
  output := [{1, 2, 3}]
  evalD := fun arg => .ok (arg.map (fun col => col.map (fun x => 2 * x)))

/-- A function with two inputs and one output. -/
def f_binary : FunctionInternal (Finset ℕ) where
  name := "f_binary"
  is_init := true
  input := [{0, 1, 2}, {0}]
  output := [{0, 1, 2}]
  evalD := fun arg => .ok arg.tail

/-- A function with one input and one output, both with positions 1, 2. -/
def f_narrow : FunctionInternal (Finset ℕ) where
  name := "f_narrow"
  is_init := true
  input := [{1, 2}]
  output := [{1, 2}]
  evalD := fun arg => .ok arg

/-- The members of a switch over `f_wide`, a null case and `f_shifted`, with the
default `f_narrow`; the stored patterns are those of `f_narrow`. -/
def demo_switch : Switch (Finset ℕ) (Finset ℕ) where
  f_ := [some f_wide, none, some f_shifted]
  f_def_ := some f_narrow
  sp_in_ := [{1, 2}]
  sp_out_ := [{1, 2}]
  dep := [{0}, {1, 2}]
  sparsity_ := {0}

/-- The members of a switch with the single case `f_narrow` and a null default. -/
def single_switch : Switch (Finset ℕ) (Finset ℕ) where
  f_ := [some f_narrow]
  f_def_ := none
  sp_in_ := [{1, 2}]
  sp_out_ := [{1, 2}]
  dep := [{0}, {1, 2}]
  sparsity_ := {0}

/-- The numbering of the generated functions used in the examples. -/
def demo_dependency (fk : FunctionInternal (Finset ℕ)) : Int := fk.name.length

end casadi

namespace alpaqa

/-! # Theorems -/

@[simp]
theorem real_t.finite_add (a b : ℚ) :
    real_t.finite a + real_t.finite b = real_t.finite (a + b) := rfl

theorem wrap_i64_of_in_i64 {z : Int} (h : in_i64 z) : wrap_i64 z = z := by
  unfold in_i64 at h
  unfold wrap_i64
  rw [Int.emod_eq_of_lt (by omega) (by omega)]
  omega

theorem wrap_i64_add_wrap (a b : Int) : wrap_i64 (wrap_i64 a + b) = wrap_i64 (a + b) := by
  unfold wrap_i64
  omega

theorem merge_all_append (l : List PANOCStats) (s : PANOCStats) :
    merge_all (l ++ [s]) = add_assign (merge_all l) s := by
  simp [merge_all, List.foldl_append]

/-- A field that `+=` adds modulo `2 ^ 32` holds, after merging a list into a
fresh accumulator, the sum of the field over the list modulo `2 ^ 32`. -/
theorem merge_all_counter (f : InnerStatsAccumulator → Nat) (g : PANOCStats → Nat)
    (h0 : f {} = 0) (hstep : ∀ acc s, f (add_assign acc s) = (f acc + g s) % 2 ^ 32)
    (l : List PANOCStats) : f (merge_all l) = (l.map g).sum % 2 ^ 32 := by
  induction l using List.reverseRecOn with
  | nil => simpa [merge_all] using h0
  | append_singleton l s ih =>
    rw [merge_all_append, hstep, ih]
    simp [Nat.add_mod]

theorem merge_all_elapsed_time (l : List PANOCStats) :
    (merge_all l).elapsed_time = wrap_i64 ((l.map PANOCStats.elapsed_time).sum) := by
  induction l using List.reverseRecOn with
  | nil => simp [merge_all, wrap_i64]
  | append_singleton l s ih =>
    rw [merge_all_append]
    show ns_add (merge_all l).elapsed_time s.elapsed_time = _
    rw [ih, ns_add, wrap_i64_add_wrap]
    simp

theorem merge_all_sum_τ (l : List PANOCStats) :
    (merge_all l).sum_τ = (l.map PANOCStats.sum_τ).sum := by
  induction l using List.reverseRecOn with
  | nil => rfl
  | append_singleton l s ih =>
    rw [merge_all_append]
    show (merge_all l).sum_τ + s.sum_τ = _
    rw [ih]
    simp

/-- C1: after `acc += s` every counter of `acc` is its previous value plus the
field of `s` modulo `2 ^ 32`, `elapsed_time` is the previous value plus the field
of `s` (as a signed 64-bit sum, exact whenever the sum is representable) and
`sum_τ` is the exact sum; merging a list into a fresh accumulator yields in each
of these fields the sum of the field over the list, and a permutation of the
list yields the same values. -/
theorem add_assign_sums_fields (acc : InnerStatsAccumulator) (s : PANOCStats)
    (l l' : List PANOCStats) (hperm : l.Perm l') :
    ((add_assign acc s).iterations = (acc.iterations + s.iterations) % 2 ^ 32) ∧
    ((add_assign acc s).linesearch_failures = (acc.linesearch_failures + s.linesearch_failures) % 2 ^ 32) ∧
    ((add_assign acc s).linesearch_backtracks = (acc.linesearch_backtracks + s.linesearch_backtracks) % 2 ^ 32) ∧
    ((add_assign acc s).stepsize_backtracks = (acc.stepsize_backtracks + s.stepsize_backtracks) % 2 ^ 32) ∧
    ((add_assign acc s).lbfgs_failures = (acc.lbfgs_failures + s.lbfgs_failures) % 2 ^ 32) ∧
    ((add_assign acc s).lbfgs_rejected = (acc.lbfgs_rejected + s.lbfgs_rejected) % 2 ^ 32) ∧
    ((add_assign acc s).τ_1_accepted = (acc.τ_1_accepted + s.τ_1_accepted) % 2 ^ 32) ∧
    ((add_assign acc s).count_τ = (acc.count_τ + s.count_τ) % 2 ^ 32) ∧
    ((add_assign acc s).elapsed_time = wrap_i64 (acc.elapsed_time + s.elapsed_time)) ∧
    (in_i64 (acc.elapsed_time + s.elapsed_time) →
      (add_assign acc s).elapsed_time = acc.elapsed_time + s.elapsed_time) ∧
    ((add_assign acc s).sum_τ = acc.sum_τ + s.sum_τ) ∧
    (∀ a b : ℚ, acc.sum_τ = real_t.finite a → s.sum_τ = real_t.finite b →
      (add_assign acc s).sum_τ = real_t.finite (a + b)) ∧
    ((merge_all l).iterations = (l.map PANOCStats.iterations).sum % 2 ^ 32) ∧
    ((merge_all l).linesearch_failures = (l.map PANOCStats.linesearch_failures).sum % 2 ^ 32) ∧
    ((merge_all l).linesearch_backtracks = (l.map PANOCStats.linesearch_backtracks).sum % 2 ^ 32) ∧
    ((merge_all l).stepsize_backtracks = (l.map PANOCStats.stepsize_backtracks).sum % 2 ^ 32) ∧
    ((merge_all l).lbfgs_failures = (l.map PANOCStats.lbfgs_failures).sum % 2 ^ 32) ∧
    ((merge_all l).lbfgs_rejected = (l.map PANOCStats.lbfgs_rejected).sum % 2 ^ 32) ∧
    ((merge_all l).τ_1_accepted = (l.map PANOCStats.τ_1_accepted).sum % 2 ^ 32) ∧
    ((merge_all l).count_τ = (l.map PANOCStats.count_τ).sum % 2 ^ 32) ∧
    ((merge_all l).elapsed_time = wrap_i64 ((l.map PANOCStats.elapsed_time).sum)) ∧
    (in_i64 ((l.map PANOCStats.elapsed_time).sum) →
      (merge_all l).elapsed_time = (l.map PANOCStats.elapsed_time).sum) ∧
    ((merge_all l).sum_τ = (l.map PANOCStats.sum_τ).sum) ∧
    ((merge_all l').iterations = (merge_all l).iterations) ∧
    ((merge_all l').linesearch_failures = (merge_all l).linesearch_failures) ∧
    ((merge_all l').linesearch_backtracks = (merge_all l).linesearch_backtracks) ∧
    ((merge_all l').stepsize_backtracks = (merge_all l).stepsize_backtracks) ∧
    ((merge_all l').lbfgs_failures = (merge_all l).lbfgs_failures) ∧
    ((merge_all l').lbfgs_rejected = (merge_all l).lbfgs_rejected) ∧
    ((merge_all l').τ_1_accepted = (merge_all l).τ_1_accepted) ∧
    ((merge_all l').count_τ = (merge_all l).count_τ) ∧
    ((merge_all l').elapsed_time = (merge_all l).elapsed_time) ∧
    ((merge_all l').sum_τ = (merge_all l).sum_τ) := by
  have c0 := merge_all_counter InnerStatsAccumulator.iterations PANOCStats.iterations rfl (fun _ _ => rfl)
  have c1 := merge_all_counter InnerStatsAccumulator.linesearch_failures PANOCStats.linesearch_failures rfl (fun _ _ => rfl)
  have c2 := merge_all_counter InnerStatsAccumulator.linesearch_backtracks PANOCStats.linesearch_backtracks rfl (fun _ _ => rfl)
  have c3 := merge_all_counter InnerStatsAccumulator.stepsize_backtracks PANOCStats.stepsize_backtracks rfl (fun _ _ => rfl)
  have c4 := merge_all_counter InnerStatsAccumulator.lbfgs_failures PANOCStats.lbfgs_failures rfl (fun _ _ => rfl)
  have c5 := merge_all_counter InnerStatsAccumulator.lbfgs_rejected PANOCStats.lbfgs_rejected rfl (fun _ _ => rfl)
  have c6 := merge_all_counter InnerStatsAccumulator.τ_1_accepted PANOCStats.τ_1_accepted rfl (fun _ _ => rfl)
  have c7 := merge_all_counter InnerStatsAccumulator.count_τ PANOCStats.count_τ rfl (fun _ _ => rfl)
  have hp : ∀ g : PANOCStats → Nat, (l'.map g).sum = (l.map g).sum :=
    fun g => ((hperm.map g).sum_eq).symm
  refine ⟨rfl, rfl, rfl, rfl, rfl, rfl, rfl, rfl, rfl, ?_, rfl, ?_,
    c0 l, c1 l, c2 l, c3 l, c4 l, c5 l, c6 l, c7 l, merge_all_elapsed_time l, ?_,
    merge_all_sum_τ l, ?_, ?_, ?_, ?_, ?_, ?_, ?_, ?_, ?_, ?_⟩
  · intro h
    exact wrap_i64_of_in_i64 h
  · intro a b ha hb
    show acc.sum_τ + s.sum_τ = _
    rw [ha, hb, real_t.finite_add]
  · intro h
    rw [merge_all_elapsed_time, wrap_i64_of_in_i64 h]
  · rw [c0, c0, hp]
  · rw [c1, c1, hp]
  · rw [c2, c2, hp]
  · rw [c3, c3, hp]
  · rw [c4, c4, hp]
  · rw [c5, c5, hp]
  · rw [c6, c6, hp]
  · rw [c7, c7, hp]
  · rw [merge_all_elapsed_time, merge_all_elapsed_time, ((hperm.map _).sum_eq)]
  · rw [merge_all_sum_τ, merge_all_sum_τ, ((hperm.map _).sum_eq)]

theorem add_assign_sums_fields_witness :
    [stats_three, stats_one].Perm [stats_one, stats_three] ∧
    (add_assign acc_full stats_three).iterations = 2 ∧
    (add_assign acc_full stats_three).elapsed_time = 12 ∧
    (add_assign acc_full stats_three).sum_τ = real_t.finite 3 ∧
    (merge_all [stats_one, stats_three]).sum_τ = (merge_all [stats_three, stats_one]).sum_τ :=
  have h := add_assign_sums_fields acc_full stats_three [stats_three, stats_one]
    [stats_one, stats_three] (List.Perm.swap _ _ _)
  ⟨List.Perm.swap _ _ _, h.1,
    h.2.2.2.2.2.2.2.2.2.1 (by decide),
    by rw [h.2.2.2.2.2.2.2.2.2.2.2.1 (1 / 2) (5 / 2) rfl rfl]; norm_num,
    h.2.2.2.2.2.2.2.2.2.2.2.2.2.2.2.2.2.2.2.2.2.2.2.2.2.2.2.2.2.2.2.2⟩

/-- C2: after `acc += s` the fields `final_γ`, `final_ψ`, `final_h`, `final_φγ` of
`acc` are those of `s`, whatever `acc` held; after merging a non-empty list they
are those of the last element of the list, and for a fresh accumulator with
nothing merged they are all `0`. -/
theorem add_assign_final_last_write (acc : InnerStatsAccumulator) (s : PANOCStats)
    (l : List PANOCStats) (hne : l ≠ []) :
    ((add_assign acc s).final_γ = s.final_γ ∧ (add_assign acc s).final_ψ = s.final_ψ ∧
      (add_assign acc s).final_h = s.final_h ∧ (add_assign acc s).final_φγ = s.final_φγ) ∧
    ((merge_all l).final_γ = (l.getLast hne).final_γ ∧
      (merge_all l).final_ψ = (l.getLast hne).final_ψ ∧
      (merge_all l).final_h = (l.getLast hne).final_h ∧
      (merge_all l).final_φγ = (l.getLast hne).final_φγ) ∧
    ((merge_all []).final_γ = real_t.finite 0 ∧ (merge_all []).final_ψ = real_t.finite 0 ∧
      (merge_all []).final_h = real_t.finite 0 ∧ (merge_all []).final_φγ = real_t.finite 0) := by
  refine ⟨⟨rfl, rfl, rfl, rfl⟩, ?_, ⟨rfl, rfl, rfl, rfl⟩⟩
  induction l using List.reverseRecOn with
  | nil => exact absurd rfl hne
  | append_singleton l s' _ =>
    rw [merge_all_append]
    simp only [List.getLast_append_singleton]
    exact ⟨rfl, rfl, rfl, rfl⟩

theorem add_assign_final_last_write_witness :
    [stats_three, stats_one] ≠ [] ∧
    (add_assign acc_full stats_three).final_γ = real_t.finite (1 / 4) ∧
    (merge_all [stats_three, stats_one]).final_γ = real_t.finite (1 / 8) ∧
    (merge_all [stats_three, stats_one]).final_ψ = real_t.finite 2 :=
  have h := add_assign_final_last_write acc_full stats_three [stats_three, stats_one]
    (List.cons_ne_nil _ _)
  ⟨List.cons_ne_nil _ _, h.1.1, h.2.1.1, h.2.1.2.1⟩

/-- C8: a default-constructed `PANOCStats` has status `Busy`, iteration counter
`0`, every other counter, `sum_τ`, `elapsed_time` and the `final_*` snapshots `0`
and `ε = +∞`; merging it into an accumulator whose fields hold values of their
types leaves every counter and duration field of the accumulator unchanged. -/
theorem default_stats_initial_state (acc : InnerStatsAccumulator) (hwf : acc.well_formed) :
    (({} : PANOCStats).status = SolverStatus.Busy ∧ ({} : PANOCStats).iterations = 0 ∧
      ({} : PANOCStats).linesearch_failures = 0 ∧ ({} : PANOCStats).linesearch_backtracks = 0 ∧
      ({} : PANOCStats).stepsize_backtracks = 0 ∧ ({} : PANOCStats).lbfgs_failures = 0 ∧
      ({} : PANOCStats).lbfgs_rejected = 0 ∧ ({} : PANOCStats).τ_1_accepted = 0 ∧
      ({} : PANOCStats).count_τ = 0 ∧ ({} : PANOCStats).sum_τ = real_t.finite 0 ∧
      ({} : PANOCStats).elapsed_time = 0 ∧ ({} : PANOCStats).final_γ = real_t.finite 0 ∧
      ({} : PANOCStats).final_ψ = real_t.finite 0 ∧ ({} : PANOCStats).final_h = real_t.finite 0 ∧
      ({} : PANOCStats).final_φγ = real_t.finite 0 ∧ ({} : PANOCStats).ε = real_t.inf) ∧
    ((add_assign acc {}).iterations = acc.iterations ∧
      (add_assign acc {}).elapsed_time = acc.elapsed_time ∧
      (add_assign acc {}).linesearch_failures = acc.linesearch_failures ∧
      (add_assign acc {}).linesearch_backtracks = acc.linesearch_backtracks ∧
      (add_assign acc {}).stepsize_backtracks = acc.stepsize_backtracks ∧
      (add_assign acc {}).lbfgs_failures = acc.lbfgs_failures ∧
      (add_assign acc {}).lbfgs_rejected = acc.lbfgs_rejected ∧
      (add_assign acc {}).τ_1_accepted = acc.τ_1_accepted ∧
      (add_assign acc {}).count_τ = acc.count_τ ∧
      (add_assign acc {}).sum_τ = acc.sum_τ) := by
  obtain ⟨h0, h1, h2, h3, h4, h5, h6, h7, h8⟩ := hwf
  refine ⟨⟨rfl, rfl, rfl, rfl, rfl, rfl, rfl, rfl, rfl, rfl, rfl, rfl, rfl, rfl, rfl, rfl⟩,
    ?_, ?_, ?_, ?_, ?_, ?_, ?_, ?_, ?_, ?_⟩
  · exact Nat.mod_eq_of_lt h1
  · show wrap_i64 (acc.elapsed_time + 0) = _
    rw [Int.add_zero]
    exact wrap_i64_of_in_i64 h0
  · exact Nat.mod_eq_of_lt h2
  · exact Nat.mod_eq_of_lt h3
  · exact Nat.mod_eq_of_lt h4
  · exact Nat.mod_eq_of_lt h5
  · exact Nat.mod_eq_of_lt h6
  · exact Nat.mod_eq_of_lt h7
  · exact Nat.mod_eq_of_lt h8
  · show acc.sum_τ + 0 = acc.sum_τ
    exact add_zero _

theorem acc_full_well_formed : acc_full.well_formed := by
  unfold InnerStatsAccumulator.well_formed in_i64 acc_full
  norm_num

theorem default_stats_initial_state_witness :
    acc_full.well_formed ∧ (add_assign acc_full {}).iterations = 2 ^ 32 - 1 ∧
    (add_assign acc_full {}).elapsed_time = 5 :=
  ⟨acc_full_well_formed, (default_stats_initial_state acc_full acc_full_well_formed).2.1,
    (default_stats_initial_state acc_full acc_full_well_formed).2.2.1⟩

/-- C9: the default-constructed `PANOCParams` (for any configuration and any
`Lipschitz` member) has `τ_min = 1/256`, `β = 0.95`, `L_min = 1e-5`, `L_max = 1e20`
as exact rationals and satisfies `0 < τ_min < 1`, `0 < β < 1`, `L_min ≤ L_max`. -/
theorem default_params_invariant (Conf : Config) (lip : LipschitzEstimateParams) :
    ({ Lipschitz := lip } : PANOCParams Conf).τ_min = 1 / 256 ∧
    ({ Lipschitz := lip } : PANOCParams Conf).β = 95 / 100 ∧
    ({ Lipschitz := lip } : PANOCParams Conf).L_min = 1 / 10 ^ 5 ∧
    ({ Lipschitz := lip } : PANOCParams Conf).L_max = 10 ^ 20 ∧
    ({ Lipschitz := lip } : PANOCParams Conf).invariant := by
  refine ⟨rfl, rfl, ?_, ?_, ?_⟩
  · norm_num
  · norm_num
  · unfold PANOCParams.invariant
    norm_num

/-! ## Line search -/

/-- The line search started at the candidate `β ^ j` after `j` backtracks, with
enough fuel to reach a weight below `τ_min`, ends at some candidate `β ^ n`:
accepted, abandoned, or cut short by a failed evaluation. -/
theorem linesearch_loop_ends {Conf : Config} (params : PANOCParams Conf)
    (accept : ℚ → Except Failure Bool) :
    ∀ (fuel j : Nat) (s : PANOCStats), params.β ^ (j + fuel) < params.τ_min →
    ∃ n, j ≤ n ∧ n ≤ j + fuel ∧
      (∀ m, j ≤ m → m < n → params.τ_min ≤ params.β ^ m ∧
        (if params.force_linesearch && m == 0 then .ok true else accept (params.β ^ m))
          = .ok false) ∧
      ((params.τ_min ≤ params.β ^ n ∧
        (if params.force_linesearch && n == 0 then .ok true else accept (params.β ^ n))
          = .ok true ∧
        linesearch_loop params accept (fuel + 1) (params.β ^ j) j s = some
          ({ s with
              linesearch_backtracks := (fun c => uadd c 1)^[n - j] s.linesearch_backtracks
              τ_1_accepted := if n = 0 then uadd s.τ_1_accepted 1 else s.τ_1_accepted },
            .ok (params.β ^ n))) ∨
      (params.β ^ n < params.τ_min ∧
        linesearch_loop params accept (fuel + 1) (params.β ^ j) j s = some
          ({ s with
              linesearch_backtracks := (fun c => uadd c 1)^[n - j] s.linesearch_backtracks
              linesearch_failures := uadd s.linesearch_failures 1 },
            .ok (0))) ∨
      (∃ e, params.τ_min ≤ params.β ^ n ∧
        (if params.force_linesearch && n == 0 then .ok true else accept (params.β ^ n))
          = .error e ∧
        linesearch_loop params accept (fuel + 1) (params.β ^ j) j s = some
          ({ s with
              linesearch_backtracks := (fun c => uadd c 1)^[n - j] s.linesearch_backtracks },
            .error e))) := by
  intro fuel
  induction fuel with
  | zero =>
    intro j s h
    refine ⟨j, le_refl _, le_refl _, fun m h1 h2 => absurd h2 (by omega), Or.inr (Or.inl ?_)⟩
    simp only [Nat.add_zero] at h
    simp [linesearch_loop, h]
  | succ fuel ih =>
    intro j s h
    by_cases hlt : params.β ^ j < params.τ_min
    · refine ⟨j, le_refl _, by omega, fun m h1 h2 => absurd h2 (by omega), Or.inr (Or.inl ?_)⟩
      rw [linesearch_loop]
      simp [hlt]
    · have hge : params.τ_min ≤ params.β ^ j := not_lt.mp hlt
      cases hacc : (if params.force_linesearch && j == 0 then (.ok true : Except Failure Bool)
          else accept (params.β ^ j)) with
      | error e =>
        refine ⟨j, le_refl _, by omega, fun m h1 h2 => absurd h2 (by omega),
          Or.inr (Or.inr ⟨e, hge, hacc, ?_⟩)⟩
        rw [linesearch_loop, if_neg hlt, hacc]
        simp
      | ok b =>
        cases b with
        | true =>
          refine ⟨j, le_refl _, by omega, fun m h1 h2 => absurd h2 (by omega),
            Or.inl ⟨hge, hacc, ?_⟩⟩
          rw [linesearch_loop, if_neg hlt, hacc]
          simp
        | false =>
          have h' : params.β ^ (j + 1 + fuel) < params.τ_min := by
            have : j + 1 + fuel = j + (fuel + 1) := by omega
            rw [this]; exact h
          obtain ⟨n, hn1, hn2, hrej, hres⟩ :=
            ih (j + 1) { s with linesearch_backtracks := uadd s.linesearch_backtracks 1 } h'
          have hstep : linesearch_loop params accept (fuel + 1 + 1) (params.β ^ j) j s
              = linesearch_loop params accept (fuel + 1) (params.β ^ (j + 1)) (j + 1)
                { s with linesearch_backtracks := uadd s.linesearch_backtracks 1 } := by
            rw [linesearch_loop, if_neg hlt, hacc, pow_succ']
          have hit : (fun c => uadd c 1)^[n - (j + 1)] (uadd s.linesearch_backtracks 1)
              = (fun c => uadd c 1)^[n - j] s.linesearch_backtracks := by
            have : n - j = (n - (j + 1)) + 1 := by omega
            rw [this, Function.iterate_succ_apply]
          have hn0 : n ≠ 0 := by omega
          refine ⟨n, by omega, by omega, ?_, ?_⟩
          · intro m h1 h2
            by_cases hm : m = j
            · subst hm
              exact ⟨hge, hacc⟩
            · exact hrej m (by omega) h2
          · rw [hstep]
            rcases hres with ⟨a1, a2, a3⟩ | ⟨a1, a3⟩ | ⟨e, a1, a2, a3⟩
            · refine Or.inl ⟨a1, a2, ?_⟩
              rw [a3]
              simp [hit, hn0]
            · refine Or.inr (Or.inl ⟨a1, ?_⟩)
              rw [a3]
              simp [hit]
            · refine Or.inr (Or.inr ⟨e, a1, a2, ?_⟩)
              rw [a3]
              simp [hit]

theorem iterate_uadd_one (n c : Nat) (hc : c < 2 ^ 32) :
    (fun c => uadd c 1)^[n] c = (c + n) % 2 ^ 32 := by
  induction n with
  | zero =>
    rw [Function.iterate_zero_apply, Nat.add_zero, Nat.mod_eq_of_lt hc]
  | succ n ih =>
    rw [Function.iterate_succ_apply', ih]
    simp only [uadd, UNSIGNED_MOD]
    omega

/-- For `0 < τ_min < 1` and `0 < β < 1` the line search started at `τ = 1` with
fuel beyond a bound ends after at most that many backtracks, in one of three
ways. -/
theorem linesearch_ends_bounded {Conf : Config} (params : PANOCParams Conf)
    (hτ : 0 < params.τ_min ∧ params.τ_min < 1) (hβ : 0 < params.β ∧ params.β < 1)
    (accept : ℚ → Except Failure Bool) (s : PANOCStats)
    (hs : s.linesearch_backtracks < 2 ^ 32) :
    ∃ N, ∀ fuel, N < fuel → ∃ n, n ≤ N ∧
      (∀ m, m < n → params.τ_min ≤ params.β ^ m ∧
        (if params.force_linesearch && m == 0 then .ok true else accept (params.β ^ m))
          = .ok false) ∧
      ((params.τ_min ≤ params.β ^ n ∧ params.β ^ n ≤ 1 ∧
        (if params.force_linesearch && n == 0 then .ok true else accept (params.β ^ n))
          = .ok true ∧
        linesearch_loop params accept fuel 1 0 s = some
          ({ s with
              linesearch_backtracks := (s.linesearch_backtracks + n) % 2 ^ 32
              τ_1_accepted := if n = 0 then uadd s.τ_1_accepted 1 else s.τ_1_accepted },
            .ok (params.β ^ n))) ∨
      (params.β ^ n < params.τ_min ∧ 0 < n ∧
        linesearch_loop params accept fuel 1 0 s = some
          ({ s with
              linesearch_backtracks := (s.linesearch_backtracks + n) % 2 ^ 32
              linesearch_failures := uadd s.linesearch_failures 1 },
            .ok (0))) ∨
      (∃ e, params.τ_min ≤ params.β ^ n ∧
        (if params.force_linesearch && n == 0 then .ok true else accept (params.β ^ n))
          = .error e ∧
        linesearch_loop params accept fuel 1 0 s = some
          ({ s with linesearch_backtracks := (s.linesearch_backtracks + n) % 2 ^ 32 },
            .error e))) := by
  obtain ⟨N, hN⟩ := exists_pow_lt_of_lt_one hτ.1 hβ.2
  refine ⟨N, fun fuel hfuel => ?_⟩
  obtain ⟨f, rfl⟩ : ∃ f, fuel = f + 1 := ⟨fuel - 1, by omega⟩
  have hf : params.β ^ (0 + f) < params.τ_min := by
    rw [Nat.zero_add]
    exact lt_of_le_of_lt (pow_le_pow_of_le_one hβ.1.le hβ.2.le (by omega)) hN
  obtain ⟨n, -, -, hrej, hres⟩ := linesearch_loop_ends params accept f 0 s hf
  have hnN : n ≤ N := by
    by_contra hcon
    have := (hrej N (Nat.zero_le _) (by omega)).1
    exact absurd hN (not_lt.mpr this)
  rw [pow_zero, Nat.sub_zero, iterate_uadd_one n _ hs] at hres
  refine ⟨n, hnN, fun m hm => hrej m (Nat.zero_le _) hm, ?_⟩
  rcases hres with ⟨a1, a2, a3⟩ | ⟨a1, a3⟩ | ⟨e, a1, a2, a3⟩
  · exact Or.inl ⟨a1, pow_le_one₀ hβ.1.le hβ.2.le, a2, a3⟩
  · refine Or.inr (Or.inl ⟨a1, ?_, a3⟩)
    rcases Nat.eq_zero_or_pos n with h0 | h0
    · rw [h0, pow_zero] at a1
      exact absurd hτ.2 (not_lt.mpr a1.le)
    · exact h0
  · exact Or.inr (Or.inr ⟨e, a1, a2, a3⟩)

/-! ## Step-size controller -/

theorem Failure.status_terminal (e : Failure) : e.status.terminal = true := by
  cases e <;> rfl

theorem Failure.status_cases (e : Failure) :
    e.status = SolverStatus.NotFinite ∨ e.status = SolverStatus.Exception := by
  cases e
  · exact Or.inl rfl
  · exact Or.inr rfl

theorem step_size_ok {δ L γ : ℚ} (h : step_size δ L = .ok γ) : L ≠ 0 ∧ γ = (1 - δ) / L := by
  unfold step_size at h
  by_cases hL : L = 0
  · simp [hL] at h
  · simp only [if_neg hL, Except.ok.injEq] at h
    exact ⟨hL, h.symm⟩

theorem grow_ok {Conf : Config} {params : PANOCParams Conf} {L L' γ' : ℚ}
    (h : grow params L = .ok (L', γ')) :
    L' = min (2 * L) params.L_max ∧ L' ≠ 0 ∧ γ' = (1 - params.Lipschitz.δ) / L' := by
  unfold grow at h
  cases hs : step_size params.Lipschitz.δ (min (2 * L) params.L_max) with
  | error e => simp [hs] at h
  | ok γ =>
    simp only [hs, Except.ok.injEq, Prod.mk.injEq] at h
    obtain ⟨h1, h2⟩ := h
    have := step_size_ok hs
    subst h1 h2
    exact ⟨rfl, this.1, this.2⟩

/-- The retry loop of the step-size controller changes nothing of the state
but `L`, `γ`, their record and the step-size-backtrack counter; it keeps the
invariant, never decreases a positive `L`, and fails only with a terminal
status. -/
theorem stepsize_loop_spec {Conf : Config} {D : Type} (params : PANOCParams Conf)
    (problem : TypeErasedProblem) (ψx : ℚ) (grad_ψ : Vec) :
    ∀ (fuel : Nat) (st st' : LoopState D) (out : Except SolverStatus ForwardBackward),
    stepsize_loop params problem ψx grad_ψ fuel st = some (st', out) →
    st' = { st with L := st'.L, γ := st'.γ, L_hist := st'.L_hist,
                    s := { st.s with stepsize_backtracks := st'.s.stepsize_backtracks } } ∧
    (∀ a₀, st.inv params a₀ → st'.inv params a₀) ∧
    (0 < st.L → st.L ≤ st'.L) ∧
    (∀ status, out = .error status →
      status = SolverStatus.NotFinite ∨ status = SolverStatus.Exception) := by
  intro fuel
  induction fuel with
  | zero => intro st st' out h; simp [stepsize_loop] at h
  | succ fuel ih =>
    intro st st' out h
    rw [stepsize_loop] at h
    cases hfb : forward_backward problem st.x st.γ with
    | error e =>
      simp only [hfb, Option.some.injEq, Prod.mk.injEq] at h
      obtain ⟨rfl, rfl⟩ := h
      refine ⟨rfl, fun _ => id, fun _ => le_refl _, fun status hst => ?_⟩
      simp only [Except.error.injEq] at hst
      subst hst; exact Failure.status_cases e
    | ok fb =>
      simp only [hfb] at h
      by_cases hq : quadratic_upperbound_holds params ψx grad_ψ st.γ fb = true
      · simp only [hq, if_true, Option.some.injEq, Prod.mk.injEq] at h
        obtain ⟨rfl, rfl⟩ := h
        exact ⟨rfl, fun _ => id, fun _ => le_refl _, fun status hst => by simp at hst⟩
      · simp only [hq] at h
        by_cases hL : params.L_max ≤ st.L
        · simp only [hL, if_true, Bool.false_eq_true, if_false, Option.some.injEq,
            Prod.mk.injEq] at h
          obtain ⟨rfl, rfl⟩ := h
          refine ⟨rfl, fun _ => id, fun _ => le_refl _, fun status hst => ?_⟩
          simp only [Except.error.injEq] at hst
          subst hst; exact Or.inl rfl
        · simp only [hL, if_false, Bool.false_eq_true] at h
          cases hg : grow params st.L with
          | error e =>
            simp only [hg, Option.some.injEq, Prod.mk.injEq] at h
            obtain ⟨rfl, rfl⟩ := h
            refine ⟨rfl, fun _ => id, fun _ => le_refl _, fun status hst => ?_⟩
            simp only [Except.error.injEq] at hst
            subst hst; exact Failure.status_cases e
          | ok g =>
            obtain ⟨L1, γ1⟩ := g
            simp only [hg] at h
            obtain ⟨h1, h2, h3, h4⟩ := ih _ st' out h
            obtain ⟨g1, g2, g3⟩ := grow_ok hg
            refine ⟨?_, ?_, ?_, h4⟩
            · rw [h1]
            · intro a₀ hinv
              apply h2
              obtain ⟨i1, i2, i3, i4⟩ := hinv
              refine ⟨rfl, ?_, ?_, ?_⟩
              · cases hh : st.L_hist with
                | nil => rw [hh] at i2; exact i2.elim
                | cons a rest =>
                  rw [hh] at i1 i2
                  simp only [List.head?_cons, Option.some.injEq] at i1
                  subst i1
                  exact ⟨not_le.mp hL, g1, g2, g3, i2⟩
              · simp only [List.length_cons, uadd, UNSIGNED_MOD]
                have := Nat.mod_le (st.s.stepsize_backtracks + 1) (2 ^ 32)
                omega
              · cases hh : st.L_hist with
                | nil => rw [hh] at i2; exact i2.elim
                | cons a rest =>
                  rw [hh] at i4
                  show ((L1, γ1) :: a :: rest).getLast? = some a₀
                  rw [List.getLast?_cons_cons]
                  exact i4
            · intro hpos
              have hle : st.L ≤ L1 := by
                rw [g1]
                exact le_min (by linarith) (not_le.mp hL).le
              exact le_trans hle (h3 (lt_of_lt_of_le hpos hle))

/-- With a positive `L` and fuel for the doublings that bring `L` to `L_max`,
the retry loop of the step-size controller ends. -/
theorem stepsize_loop_returns {Conf : Config} {D : Type} (params : PANOCParams Conf)
    (problem : TypeErasedProblem) (ψx : ℚ) (grad_ψ : Vec) :
    ∀ (n fuel : Nat) (st : LoopState D), 0 < st.L → params.L_max ≤ 2 ^ n * st.L → n < fuel →
    ∃ res, stepsize_loop params problem ψx grad_ψ fuel st = some res := by
  intro n
  induction n with
  | zero =>
    intro fuel st hpos hn hfuel
    obtain ⟨f, rfl⟩ : ∃ f, fuel = f + 1 := ⟨fuel - 1, by omega⟩
    rw [pow_zero, one_mul] at hn
    rw [stepsize_loop]
    cases forward_backward problem st.x st.γ with
    | error e => exact ⟨_, rfl⟩
    | ok fb =>
      by_cases hq : quadratic_upperbound_holds params ψx grad_ψ st.γ fb = true
      · simp only [hq, if_true]
        exact ⟨_, rfl⟩
      · simp only [hq, hn, if_true, Bool.false_eq_true, if_false]
        exact ⟨_, rfl⟩
  | succ n ih =>
    intro fuel st hpos hn hfuel
    obtain ⟨f, rfl⟩ : ∃ f, fuel = f + 1 := ⟨fuel - 1, by omega⟩
    rw [stepsize_loop]
    cases forward_backward problem st.x st.γ with
    | error e => exact ⟨_, rfl⟩
    | ok fb =>
      by_cases hq : quadratic_upperbound_holds params ψx grad_ψ st.γ fb = true
      · simp only [hq, if_true]
        exact ⟨_, rfl⟩
      · by_cases hL : params.L_max ≤ st.L
        · simp only [hq, hL, if_true, Bool.false_eq_true, if_false]
          exact ⟨_, rfl⟩
        · simp only [hq, hL, if_false, Bool.false_eq_true]
          cases hg : grow params st.L with
          | error e => exact ⟨_, rfl⟩
          | ok g =>
            obtain ⟨L1, γ1⟩ := g
            obtain ⟨g1, -, -⟩ := grow_ok hg
            have hLmax : st.L < params.L_max := not_le.mp hL
            have hpos1 : 0 < L1 := by
              rw [g1]; exact lt_min (by linarith) (lt_trans hpos hLmax)
            have hn1 : params.L_max ≤ 2 ^ n * L1 := by
              rw [g1]
              rcases min_choice (2 * st.L) params.L_max with hm | hm
              · rw [hm]
                calc params.L_max ≤ 2 ^ (n + 1) * st.L := hn
                  _ = 2 ^ n * (2 * st.L) := by ring
              · rw [hm]
                have h1 : (1 : ℚ) ≤ 2 ^ n := one_le_pow₀ (by norm_num)
                nlinarith [lt_trans hpos hLmax]
            exact ih f _ hpos1 hn1 (by omega)

/-- The line search changes no statistics but its own three counters. -/
theorem linesearch_loop_frame {Conf : Config} (params : PANOCParams Conf)
    (accept : ℚ → Except Failure Bool) :
    ∀ (fuel : Nat) (τ : ℚ) (b : Nat) (s s' : PANOCStats) (out : Except Failure ℚ),
    linesearch_loop params accept fuel τ b s = some (s', out) →
    s' = { s with linesearch_failures := s'.linesearch_failures,
                  linesearch_backtracks := s'.linesearch_backtracks,
                  τ_1_accepted := s'.τ_1_accepted } := by
  intro fuel
  induction fuel with
  | zero => intro τ b s s' out h; simp [linesearch_loop] at h
  | succ fuel ih =>
    intro τ b s s' out h
    rw [linesearch_loop] at h
    split at h
    · simp only [Option.some.injEq, Prod.mk.injEq] at h
      rw [← h.1]
    · split at h
      · simp only [Option.some.injEq, Prod.mk.injEq] at h
        rw [← h.1]
      · simp only [Option.some.injEq, Prod.mk.injEq] at h
        rw [← h.1]
      · have := ih _ _ _ _ _ h
        rw [this]

/-- With fuel beyond the first power of `β` below `τ_min`, the line search ends. -/
theorem linesearch_loop_returns {Conf : Config} (params : PANOCParams Conf)
    (accept : ℚ → Except Failure Bool) (N : Nat) (hN : params.β ^ N < params.τ_min)
    (hβ : 0 < params.β ∧ params.β < 1) (fuel : Nat) (hfuel : N < fuel) (s : PANOCStats) :
    ∃ res, linesearch_loop params accept fuel 1 0 s = some res := by
  obtain ⟨f, rfl⟩ : ∃ f, fuel = f + 1 := ⟨fuel - 1, by omega⟩
  have hf : params.β ^ (0 + f) < params.τ_min := by
    rw [Nat.zero_add]
    exact lt_of_le_of_lt (pow_le_pow_of_le_one hβ.1.le hβ.2.le (by omega)) hN
  obtain ⟨n, -, -, -, hres⟩ := linesearch_loop_ends params accept f 0 s hf
  rw [pow_zero] at hres
  rcases hres with ⟨-, -, a3⟩ | ⟨-, a3⟩ | ⟨e, -, -, a3⟩ <;> exact ⟨_, a3⟩

/-! ## One iteration -/

theorem LoopState.inv_of_eq {Conf : Config} {D : Type} {params : PANOCParams Conf}
    {a₀ : ℚ × ℚ}
    {st st' : LoopState D} (h : st.inv params a₀) (hL : st'.L = st.L) (hγ : st'.γ = st.γ)
    (hh : st'.L_hist = st.L_hist)
    (hs : st'.s.stepsize_backtracks = st.s.stepsize_backtracks) : st'.inv params a₀ := by
  unfold LoopState.inv at *
  rw [hL, hγ, hh, hs]
  exact h

/-- Step 6 leaves `L`, `γ`, their record, the cancellation flag and the
step-size-backtrack counter as they are; it advances the iteration counter by
one when the iteration goes on, and ends the call only with `NotFinite` or
`Exception`, then leaving `x` and the iteration counter as they are. -/
theorem advance_spec {Conf : Config} {D : Type} (num : Numerics) (ops : DirectionOps D)
    (params : PANOCParams Conf) (problem : TypeErasedProblem) (fuel : Nat)
    (st : LoopState D) (grad_ψ : Vec) (fb : ForwardBackward) (φγ ε : ℚ) (np : Nat)
    (step : Step (LoopState D))
    (h : advance num ops params problem fuel st grad_ψ fb φγ ε np = some step) :
    step.state.L = st.L ∧ step.state.γ = st.γ ∧ step.state.L_hist = st.L_hist ∧
    step.state.stop_signal = st.stop_signal ∧
    step.state.s.stepsize_backtracks = st.s.stepsize_backtracks ∧
    (∀ st' status, step = .finished st' status →
      (status = SolverStatus.NotFinite ∨ status = SolverStatus.Exception) ∧
      st'.x = st.x ∧ st'.s.iterations = st.s.iterations) ∧
    (∀ st', step = .next st' → st'.s.iterations = uadd st.s.iterations 1) := by
  unfold advance at h
  cases hp : ops.propose st.direction st.x grad_ψ st.prev with
  | none =>
    simp only [hp, Option.some.injEq] at h
    subst h
    exact ⟨rfl, rfl, rfl, rfl, rfl, fun _ _ hst => by simp at hst,
      fun st' hst => by simp only [Step.next.injEq] at hst; subst hst; rfl⟩
  | some q =>
    simp only [hp] at h
    cases hls : linesearch_loop params
        (sufficient_decrease num params problem st.x fb.p q st.γ φγ) fuel 1 0 st.s with
    | none => simp [hls] at h
    | some r =>
      obtain ⟨s1, out⟩ := r
      have hfr := linesearch_loop_frame params _ _ _ _ _ _ _ hls
      cases out with
      | error e =>
        simp only [hls, Option.some.injEq] at h
        subst h
        refine ⟨rfl, rfl, rfl, rfl, ?_, fun st' status hst => ?_, fun _ hst => by simp at hst⟩
        · show s1.stepsize_backtracks = _
          rw [hfr]
        · simp only [Step.finished.injEq] at hst
          obtain ⟨rfl, rfl⟩ := hst
          refine ⟨Failure.status_cases e, rfl, ?_⟩
          show s1.iterations = _
          rw [hfr]
      | ok τ =>
        simp only [hls, Option.some.injEq] at h
        subst h
        refine ⟨rfl, rfl, rfl, rfl, ?_, fun _ _ hst => by simp at hst, fun st' hst => ?_⟩
        · show s1.stepsize_backtracks = _
          rw [hfr]
        · simp only [Step.next.injEq] at hst
          subst hst
          show uadd s1.iterations 1 = _
          rw [hfr]

/-- With fuel beyond the first power of `β` below `τ_min`, step 6 ends. -/
theorem advance_returns {Conf : Config} {D : Type} (num : Numerics) (ops : DirectionOps D)
    (params : PANOCParams Conf) (problem : TypeErasedProblem) (N : Nat)
    (hN : params.β ^ N < params.τ_min) (hβ : 0 < params.β ∧ params.β < 1)
    (fuel : Nat) (hfuel : N < fuel)
    (st : LoopState D) (grad_ψ : Vec) (fb : ForwardBackward) (φγ ε : ℚ) (np : Nat) :
    ∃ step, advance num ops params problem fuel st grad_ψ fb φγ ε np = some step := by
  unfold advance
  cases hp : ops.propose st.direction st.x grad_ψ st.prev with
  | none => exact ⟨_, rfl⟩
  | some q =>
    obtain ⟨⟨s1, out⟩, hls⟩ := linesearch_loop_returns params
      (sufficient_decrease num params problem st.x fb.p q st.γ φγ) N hN hβ fuel hfuel st.s
    simp only [hls]
    cases out with
    | error e => exact ⟨_, rfl⟩
    | ok τ => exact ⟨_, rfl⟩

/-- What one iteration of the loop controller does to the state, and how it
ends: the invariant is kept, a positive `L` does not decrease, a set
cancellation flag stays set; an iteration that ends the call leaves `x` and the
iteration counter as they are and ends with `Converged` (`ε ≤ tolerance`), with
`MaxTime` (`ε > tolerance` and the time is up), with `Interrupted`
(`ε > tolerance`, time left, flag set), with `NoProgress`, or with a failure
status, either of step 1 or, with time left and no flag set, of step 6; an
iteration that goes on had time left and no flag set, and advances
the iteration counter by one. -/
theorem iteration_spec {Conf : Config} {D : Type} (num : Numerics) (env : Surroundings)
    (ops : DirectionOps D) (params : PANOCParams Conf) (problem : TypeErasedProblem)
    (opts : InnerSolveOptions) (y Sigma : Vec) (fuel k : Nat) (st : LoopState D)
    (step : Step (LoopState D))
    (h : iteration num env ops params problem opts y Sigma fuel k st = some step) :
    (∀ a₀, st.inv params a₀ → step.state.inv params a₀) ∧
    (0 < st.L → st.L ≤ step.state.L) ∧
    (st.stop_signal.flag = true → step.state.stop_signal.flag = true) ∧
    (∀ st' status, step = .finished st' status →
      st'.x = st.x ∧ st'.s.iterations = st.s.iterations ∧
      ((status = SolverStatus.Converged ∧ ∃ e, st'.s.ε = real_t.finite e ∧ e ≤ opts.tolerance) ∨
       (status = SolverStatus.MaxTime ∧ params.max_time ≤ (env.elapsed k : Int) ∧
          ∃ e, st'.s.ε = real_t.finite e ∧ opts.tolerance < e) ∨
       (status = SolverStatus.Interrupted ∧ (env.elapsed k : Int) < params.max_time ∧
          (st.stop_signal.flag || env.stop_called k) = true ∧
          st'.stop_signal.flag = true ∧
          ∃ e, st'.s.ε = real_t.finite e ∧ opts.tolerance < e) ∨
       (status = SolverStatus.NoProgress ∧ (env.elapsed k : Int) < params.max_time ∧
          (st.stop_signal.flag || env.stop_called k) = false) ∨
       ((status = SolverStatus.NotFinite ∨ status = SolverStatus.Exception) ∧
          (stepsize_fails params problem fuel st ∨
            ((env.elapsed k : Int) < params.max_time ∧
              (st.stop_signal.flag || env.stop_called k) = false))))) ∧
    (∀ st', step = .next st' →
      (env.elapsed k : Int) < params.max_time ∧
      (st.stop_signal.flag || env.stop_called k) = false ∧
      st'.s.iterations = uadd st.s.iterations 1) := by
  unfold iteration at h
  cases hc : problem.cost st.x with
  | error e =>
    simp only [hc, Option.some.injEq] at h
    subst h
    refine ⟨fun _ => id, fun _ => le_refl _, id, fun st' status hst => ?_, fun _ hst => by simp at hst⟩
    simp only [Step.finished.injEq] at hst
    obtain ⟨rfl, rfl⟩ := hst
    exact ⟨rfl, rfl, Or.inr (Or.inr (Or.inr (Or.inr
      ⟨Failure.status_cases e, Or.inl (Or.inl ⟨e, hc⟩)⟩)))⟩
  | ok ψx =>
    simp only [hc] at h
    cases hg : problem.gradient st.x with
    | error e =>
      simp only [hg, Option.some.injEq] at h
      subst h
      refine ⟨fun _ => id, fun _ => le_refl _, id, fun st' status hst => ?_, fun _ hst => by simp at hst⟩
      simp only [Step.finished.injEq] at hst
      obtain ⟨rfl, rfl⟩ := hst
      exact ⟨rfl, rfl, Or.inr (Or.inr (Or.inr (Or.inr
        ⟨Failure.status_cases e, Or.inl (Or.inr (Or.inl ⟨e, hg⟩))⟩)))⟩
    | ok grad_ψ =>
      simp only [hg] at h
      cases hsl : stepsize_loop params problem ψx grad_ψ fuel st with
      | none => simp [hsl] at h
      | some r =>
        obtain ⟨st1, out⟩ := r
        obtain ⟨f1, f2, f3, f4⟩ := stepsize_loop_spec params problem ψx grad_ψ fuel st st1 out hsl
        have hx1 : st1.x = st.x := by rw [f1]
        have hflag1 : st1.stop_signal = st.stop_signal := by rw [f1]
        have hit1 : st1.s.iterations = st.s.iterations := by rw [f1]
        cases out with
        | error status1 =>
          simp only [hsl, Option.some.injEq] at h
          subst h
          refine ⟨f2, f3, fun hf => by show st1.stop_signal.flag = true; rw [hflag1]; exact hf,
            fun st' status hst => ?_, fun _ hst => by simp at hst⟩
          simp only [Step.finished.injEq] at hst
          obtain ⟨rfl, rfl⟩ := hst
          exact ⟨hx1, hit1, Or.inr (Or.inr (Or.inr (Or.inr
            ⟨f4 _ rfl, Or.inl (Or.inr (Or.inr ⟨ψx, grad_ψ, st1, status1, hc, hg, hsl⟩))⟩)))⟩
        | ok fb =>
          simp only [hsl] at h
          have hflagb : (st1.stop_signal.flag || env.stop_called k)
              = (st.stop_signal.flag || env.stop_called k) := by
            rw [hflag1]
          by_cases hconv : num.evaluate params.stop_crit st1.x fb.x_hat fb.p y Sigma st1.γ
              ≤ opts.tolerance
          · simp only [hconv, if_true, Option.some.injEq] at h
            subst h
            refine ⟨fun a₀ hi => LoopState.inv_of_eq (f2 a₀ hi) rfl rfl rfl rfl, f3, fun hf => ?_,
              fun st' status hst => ?_, fun _ hst => by simp at hst⟩
            · show (st1.stop_signal.flag || env.stop_called k) = true
              rw [hflagb, hf]; rfl
            · simp only [Step.finished.injEq] at hst
              obtain ⟨rfl, rfl⟩ := hst
              exact ⟨hx1, hit1, Or.inl ⟨rfl, _, rfl, hconv⟩⟩
          · have hconv2 := not_le.mp hconv
            by_cases htime : params.max_time ≤ (env.elapsed k : Int)
            · simp only [hconv, htime, if_true, if_false, Option.some.injEq] at h
              subst h
              refine ⟨fun a₀ hi => LoopState.inv_of_eq (f2 a₀ hi) rfl rfl rfl rfl, f3, fun hf => ?_,
                fun st' status hst => ?_, fun _ hst => by simp at hst⟩
              · show (st1.stop_signal.flag || env.stop_called k) = true
                rw [hflagb, hf]; rfl
              · simp only [Step.finished.injEq] at hst
                obtain ⟨rfl, rfl⟩ := hst
                exact ⟨hx1, hit1, Or.inr (Or.inl ⟨rfl, htime, _, rfl, hconv2⟩)⟩
            · have htime2 := not_le.mp htime
              by_cases hflag : (st1.stop_signal.flag || env.stop_called k) = true
              · simp only [hconv, htime, AtomicStopSignal.stop_requested, hflag, if_true, if_false,
                  Option.some.injEq] at h
                subst h
                refine ⟨fun a₀ hi => LoopState.inv_of_eq (f2 a₀ hi) rfl rfl rfl rfl, f3, fun _ => rfl,
                  fun st' status hst => ?_, fun _ hst => by simp at hst⟩
                simp only [Step.finished.injEq] at hst
                obtain ⟨rfl, rfl⟩ := hst
                exact ⟨hx1, hit1, Or.inr (Or.inr (Or.inl
                  ⟨rfl, htime2, hflagb ▸ hflag, rfl, _, rfl, hconv2⟩))⟩
              · have hflag2 : (st1.stop_signal.flag || env.stop_called k) = false := by
                  simpa using hflag
                have hflag3 : (st.stop_signal.flag || env.stop_called k) = false := hflagb ▸ hflag2
                have hstf : st.stop_signal.flag = false := by
                  cases hh : st.stop_signal.flag
                  · rfl
                  · rw [hh] at hflag3; simp at hflag3
                simp only [hconv, htime, AtomicStopSignal.stop_requested, hflag2, if_false,
                  Bool.false_eq_true] at h
                by_cases hnp : (stalled num st1.ε_prev
                    (num.evaluate params.stop_crit st1.x fb.x_hat fb.p y Sigma st1.γ) &&
                    decide (params.max_no_progress ≤
                      if stalled num st1.ε_prev
                        (num.evaluate params.stop_crit st1.x fb.x_hat fb.p y Sigma st1.γ) = true
                      then st1.no_progress + 1 else 0)) = true
                · rw [if_pos hnp] at h
                  simp only [Option.some.injEq] at h
                  subst h
                  refine ⟨fun a₀ hi => LoopState.inv_of_eq (f2 a₀ hi) rfl rfl rfl rfl, f3,
                    fun hf => by rw [hstf] at hf; exact absurd hf (by simp),
                    fun st' status hst => ?_, fun _ hst => by simp at hst⟩
                  simp only [Step.finished.injEq] at hst
                  obtain ⟨rfl, rfl⟩ := hst
                  exact ⟨hx1, hit1, Or.inr (Or.inr (Or.inr (Or.inl ⟨rfl, htime2, hflag3⟩)))⟩
                · rw [if_neg hnp] at h
                  obtain ⟨a1, a2, a3, a4, a5, a6, a7⟩ := advance_spec _ _ _ _ _ _ _ _ _ _ _ _ h
                  refine ⟨fun a₀ hi => LoopState.inv_of_eq (f2 a₀ hi) a1 a2 a3 a5, ?_,
                    fun hf => by rw [hstf] at hf; exact absurd hf (by simp),
                    fun st' status hst => ?_, fun st' hst => ?_⟩
                  · intro hpos
                    rw [a1]
                    exact f3 hpos
                  · obtain ⟨b1, b2, b3⟩ := a6 st' status hst
                    refine ⟨b2.trans hx1, b3.trans hit1, ?_⟩
                    exact Or.inr (Or.inr (Or.inr (Or.inr ⟨b1, Or.inr ⟨htime2, hflag3⟩⟩)))
                  · refine ⟨htime2, hflag3, ?_⟩
                    rw [a7 st' hst]
                    show uadd st1.s.iterations 1 = _
                    rw [hit1]

theorem exists_some_ite {α : Type} {c : Prop} [Decidable c] {a b : Option α}
    (ha : ∃ r, a = some r) (hb : ∃ r, b = some r) : ∃ r, (if c then a else b) = some r := by
  split <;> assumption

/-- With a positive `L` and fuel for both retry loops, an iteration ends. -/
theorem iteration_returns {Conf : Config} {D : Type} (num : Numerics) (env : Surroundings)
    (ops : DirectionOps D) (params : PANOCParams Conf) (problem : TypeErasedProblem)
    (opts : InnerSolveOptions) (y Sigma : Vec) (fuel k : Nat) (st : LoopState D)
    (n N : Nat) (hpos : 0 < st.L) (hn : params.L_max ≤ 2 ^ n * st.L) (hnf : n < fuel)
    (hN : params.β ^ N < params.τ_min) (hβ : 0 < params.β ∧ params.β < 1) (hNf : N < fuel) :
    ∃ step, iteration num env ops params problem opts y Sigma fuel k st = some step := by
  unfold iteration
  cases problem.cost st.x with
  | error e => exact ⟨_, rfl⟩
  | ok ψx =>
    cases problem.gradient st.x with
    | error e => exact ⟨_, rfl⟩
    | ok grad_ψ =>
      obtain ⟨⟨st1, out⟩, hsl⟩ :=
        stepsize_loop_returns params problem ψx grad_ψ n fuel st hpos hn hnf
      simp only [hsl]
      cases out with
      | error status => exact ⟨_, rfl⟩
      | ok fb =>
        exact exists_some_ite ⟨_, rfl⟩ (exists_some_ite ⟨_, rfl⟩ (exists_some_ite ⟨_, rfl⟩
          (exists_some_ite ⟨_, rfl⟩
            (advance_returns num ops params problem N hN hβ fuel hNf _ _ _ _ _ _))))

/-! ## The loop -/

/-- The loop ends only with a terminal status; it keeps the invariant and a set
cancellation flag. -/
theorem main_loop_spec {Conf : Config} {D : Type} (num : Numerics) (env : Surroundings)
    (ops : DirectionOps D) (params : PANOCParams Conf) (problem : TypeErasedProblem)
    (opts : InnerSolveOptions) (y Sigma : Vec) (fuel : Nat) :
    ∀ (remaining k : Nat) (st st' : LoopState D) (status : SolverStatus),
    main_loop num env ops params problem opts y Sigma fuel remaining k st = some (st', status) →
    status.terminal = true ∧ (∀ a₀, st.inv params a₀ → st'.inv params a₀) ∧
    (st.stop_signal.flag = true → st'.stop_signal.flag = true) := by
  intro remaining
  induction remaining with
  | zero =>
    intro k st st' status h
    rw [main_loop] at h
    cases hit : iteration num env ops params problem opts y Sigma fuel k st with
    | none => simp [hit] at h
    | some step =>
      obtain ⟨i1, -, i3, i4, -⟩ := iteration_spec _ _ _ _ _ _ _ _ _ _ _ _ hit
      cases step with
      | finished st1 status1 =>
        simp only [hit, Option.some.injEq, Prod.mk.injEq] at h
        obtain ⟨rfl, rfl⟩ := h
        refine ⟨?_, i1, i3⟩
        obtain ⟨-, -, hs⟩ := i4 _ _ rfl
        rcases hs with ⟨rfl, -⟩ | ⟨rfl, -⟩ | ⟨rfl, -⟩ | ⟨rfl, -⟩ | ⟨rfl | rfl, -⟩ <;> rfl
      | next st1 =>
        simp only [hit, Option.some.injEq, Prod.mk.injEq] at h
        obtain ⟨rfl, rfl⟩ := h
        exact ⟨rfl, i1, i3⟩
  | succ r ih =>
    intro k st st' status h
    rw [main_loop] at h
    cases hit : iteration num env ops params problem opts y Sigma fuel k st with
    | none => simp [hit] at h
    | some step =>
      obtain ⟨i1, -, i3, i4, -⟩ := iteration_spec _ _ _ _ _ _ _ _ _ _ _ _ hit
      cases step with
      | finished st1 status1 =>
        simp only [hit, Option.some.injEq, Prod.mk.injEq] at h
        obtain ⟨rfl, rfl⟩ := h
        refine ⟨?_, i1, i3⟩
        obtain ⟨-, -, hs⟩ := i4 _ _ rfl
        rcases hs with ⟨rfl, -⟩ | ⟨rfl, -⟩ | ⟨rfl, -⟩ | ⟨rfl, -⟩ | ⟨rfl | rfl, -⟩ <;> rfl
      | next st1 =>
        simp only [hit] at h
        obtain ⟨j1, j2, j3⟩ := ih _ _ _ _ h
        exact ⟨j1, fun a₀ hi => j2 a₀ (i1 a₀ hi), fun hf => j3 (i3 hf)⟩

/-- When the first iteration of the loop cannot go on (the time is up, or the
cancellation flag is set), the loop ends as that iteration ends. -/
theorem main_loop_first {Conf : Config} {D : Type} (num : Numerics) (env : Surroundings)
    (ops : DirectionOps D) (params : PANOCParams Conf) (problem : TypeErasedProblem)
    (opts : InnerSolveOptions) (y Sigma : Vec) (fuel remaining k : Nat)
    (st st' : LoopState D) (status : SolverStatus)
    (hstop : params.max_time ≤ (env.elapsed k : Int) ∨
      (st.stop_signal.flag || env.stop_called k) = true)
    (h : main_loop num env ops params problem opts y Sigma fuel remaining k st
      = some (st', status)) :
    iteration num env ops params problem opts y Sigma fuel k st
      = some (.finished st' status) := by
  cases hit : iteration num env ops params problem opts y Sigma fuel k st with
  | none =>
    cases remaining <;> (rw [main_loop] at h; simp [hit] at h)
  | some step =>
    cases step with
    | finished st1 status1 =>
      cases remaining <;>
        (rw [main_loop] at h
         simp only [hit, Option.some.injEq, Prod.mk.injEq] at h
         obtain ⟨rfl, rfl⟩ := h
         rfl)
    | next st1 =>
      obtain ⟨-, -, -, -, i5⟩ := iteration_spec _ _ _ _ _ _ _ _ _ _ _ _ hit
      obtain ⟨t1, t2, -⟩ := i5 _ rfl
      rcases hstop with hs | hs
      · exact absurd hs (not_le.mpr t1)
      · rw [t2] at hs; exact absurd hs (by simp)

/-- With a positive `L` and fuel for both retry loops, the loop ends. -/
theorem main_loop_returns {Conf : Config} {D : Type} (num : Numerics) (env : Surroundings)
    (ops : DirectionOps D) (params : PANOCParams Conf) (problem : TypeErasedProblem)
    (opts : InnerSolveOptions) (y Sigma : Vec) (fuel : Nat) (n N : Nat) (hnf : n < fuel)
    (hN : params.β ^ N < params.τ_min) (hβ : 0 < params.β ∧ params.β < 1) (hNf : N < fuel) :
    ∀ (remaining k : Nat) (st : LoopState D), 0 < st.L → params.L_max ≤ 2 ^ n * st.L →
    ∃ res, main_loop num env ops params problem opts y Sigma fuel remaining k st = some res := by
  intro remaining
  induction remaining with
  | zero =>
    intro k st hpos hn
    obtain ⟨step, hit⟩ := iteration_returns num env ops params problem opts y Sigma fuel k st
      n N hpos hn hnf hN hβ hNf
    rw [main_loop, hit]
    cases step <;> exact ⟨_, rfl⟩
  | succ r ih =>
    intro k st hpos hn
    obtain ⟨step, hit⟩ := iteration_returns num env ops params problem opts y Sigma fuel k st
      n N hpos hn hnf hN hβ hNf
    obtain ⟨-, i2, -, -, -⟩ := iteration_spec _ _ _ _ _ _ _ _ _ _ _ _ hit
    rw [main_loop, hit]
    cases step with
    | finished st1 status1 => exact ⟨_, rfl⟩
    | next st1 =>
      have hle : st.L ≤ st1.L := i2 hpos
      have hpos1 : 0 < st1.L := lt_of_lt_of_le hpos hle
      have hn1 : params.L_max ≤ 2 ^ n * st1.L :=
        le_trans hn (mul_le_mul_of_nonneg_left hle (by positivity))
      exact ih (k + 1) st1 hpos1 hn1

/-! ## Growth of the Lipschitz estimate -/

theorem clip_bounds (v lo hi : ℚ) (h : lo ≤ hi) : lo ≤ clip v lo hi ∧ clip v lo hi ≤ hi := by
  unfold clip
  split
  · exact ⟨le_refl _, h⟩
  · split
    · exact ⟨h, le_refl _⟩
    · constructor <;> linarith

/-- A successful initial estimate is non-zero, comes with `γ = (1 − δ) / L`, and is
the supplied estimate or a value clipped to `[L_min, L_max]`. -/
theorem estimate_ok {Conf : Config} {num : Numerics} {params : PANOCParams Conf}
    {problem : TypeErasedProblem} {x : Vec} {L γ : ℚ}
    (h : estimate num params problem x = .ok (L, γ)) :
    L ≠ 0 ∧ γ = (1 - params.Lipschitz.δ) / L ∧
    (params.Lipschitz.L_init = some L ∨
      (params.Lipschitz.L_init = none ∧ ∃ v, L = clip v params.L_min params.L_max)) := by
  unfold estimate at h
  cases hi : params.Lipschitz.L_init with
  | some L0 =>
    simp only [hi] at h
    cases hs : step_size params.Lipschitz.δ L0 with
    | error e => simp [hs] at h
    | ok γ0 =>
      simp only [hs, Except.ok.injEq, Prod.mk.injEq] at h
      obtain ⟨rfl, rfl⟩ := h
      exact ⟨(step_size_ok hs).1, (step_size_ok hs).2, Or.inl rfl⟩
  | none =>
    simp only [hi] at h
    cases hf : num.fd_estimate problem x with
    | error e => simp [hf] at h
    | ok v =>
      simp only [hf] at h
      cases hs : step_size params.Lipschitz.δ (clip v params.L_min params.L_max) with
      | error e => simp [hs] at h
      | ok γ0 =>
        simp only [hs, Except.ok.injEq, Prod.mk.injEq] at h
        obtain ⟨rfl, rfl⟩ := h
        exact ⟨(step_size_ok hs).1, (step_size_ok hs).2, Or.inr ⟨rfl, v, rfl⟩⟩

/-- For valid parameters a successful initial estimate is positive. -/
theorem estimate_pos {Conf : Config} {num : Numerics} {params : PANOCParams Conf}
    {problem : TypeErasedProblem} {x : Vec} {L γ : ℚ} (hv : params.valid)
    (h : estimate num params problem x = .ok (L, γ)) : 0 < L := by
  obtain ⟨-, -, h3⟩ := estimate_ok h
  obtain ⟨⟨-, -, hle⟩, hmin, hinit⟩ := hv
  rcases h3 with h3 | ⟨-, v, rfl⟩
  · exact hinit L h3
  · exact lt_of_lt_of_le hmin (clip_bounds v _ _ hle).1

/-- How a call that returns has run: the initial estimate failed, or the loop
ran from the state with the estimate recorded and ended. -/
theorem call_cases {Conf : Config} {D CB : Type} {num : Numerics} {env : Surroundings}
    {ops : DirectionOps D} {fuel : Nat} {self : PANOCSolver Conf D CB}
    {problem : TypeErasedProblem} {opts : InnerSolveOptions} {x y Sigma : Vec}
    {r : SolveResult Conf D CB}
    (h : self.call num env ops fuel problem opts x y Sigma = some r) :
    (∃ e, estimate num self.params problem x = .error e ∧
      r = finish num env self problem y Sigma (start_state self x) e.status) ∨
    (∃ L γ st status, estimate num self.params problem x = .ok (L, γ) ∧
      main_loop num env ops self.params problem opts y Sigma fuel (self.params.max_iter - 1) 0
        ((start_state self x).with_estimate L γ) = some (st, status) ∧
      r = finish num env self problem y Sigma st status) := by
  unfold PANOCSolver.call at h
  cases he : estimate num self.params problem x with
  | error e =>
    simp only [he, Option.some.injEq] at h
    exact Or.inl ⟨e, rfl, h.symm⟩
  | ok a =>
    obtain ⟨L, γ⟩ := a
    simp only [he] at h
    cases hm : main_loop num env ops self.params problem opts y Sigma fuel
        (self.params.max_iter - 1) 0 ((start_state self x).with_estimate L γ) with
    | none => simp [hm] at h
    | some res =>
      obtain ⟨st, status⟩ := res
      simp only [hm, Option.some.injEq] at h
      exact Or.inr ⟨L, γ, st, status, rfl, hm, h.symm⟩

/-- For valid parameters the call returns, whatever the problem, once the fuel
exceeds a bound. -/
theorem call_returns {Conf : Config} {D CB : Type} (num : Numerics) (env : Surroundings)
    (ops : DirectionOps D) (self : PANOCSolver Conf D CB)
    (problem : TypeErasedProblem) (opts : InnerSolveOptions) (x y Sigma : Vec)
    (hv : self.params.valid) :
    ∃ N, ∀ fuel, N < fuel → ∃ r, self.call num env ops fuel problem opts x y Sigma = some r := by
  cases he : estimate num self.params problem x with
  | error e =>
    refine ⟨0, fun fuel _ => ?_⟩
    unfold PANOCSolver.call
    rw [he]
    exact ⟨_, rfl⟩
  | ok a =>
    obtain ⟨L, γ⟩ := a
    have hpos : 0 < L := estimate_pos hv he
    obtain ⟨⟨⟨hτ, -⟩, hβ, -⟩, -, -⟩ := hv
    obtain ⟨N, hN⟩ := exists_pow_lt_of_lt_one hτ hβ.2
    obtain ⟨n, hn⟩ := pow_unbounded_of_one_lt (self.params.L_max / L) (by norm_num : (1 : ℚ) < 2)
    have hn' : self.params.L_max ≤ 2 ^ n * L := by
      have := (div_lt_iff₀ hpos).mp hn
      exact this.le
    refine ⟨max n N, fun fuel hfuel => ?_⟩
    obtain ⟨⟨st, status⟩, hm⟩ := main_loop_returns num env ops self.params problem opts y Sigma
      fuel n N (lt_of_le_of_lt (le_max_left _ _) hfuel) hN hβ
      (lt_of_le_of_lt (le_max_right _ _) hfuel) (self.params.max_iter - 1) 0
      ((start_state self x).with_estimate L γ) hpos hn'
    unfold PANOCSolver.call
    rw [he]
    simp only [hm]
    exact ⟨_, rfl⟩

/-! ## More fuel does not change a result -/

theorem ite_some_of_else {α : Type} {c : Prop} [Decidable c] {a b b' : Option α} {r : α}
    (hb : b = some r → b' = some r) (h : (if c then a else b) = some r) :
    (if c then a else b') = some r := by
  by_cases hc : c
  · rw [if_pos hc] at h ⊢; exact h
  · rw [if_neg hc] at h ⊢; exact hb h

theorem stepsize_loop_fuel {Conf : Config} {D : Type} (params : PANOCParams Conf)
    (problem : TypeErasedProblem) (ψx : ℚ) (grad_ψ : Vec) :
    ∀ (fuel : Nat) (st : LoopState D) (res : LoopState D × Except SolverStatus ForwardBackward),
    stepsize_loop params problem ψx grad_ψ fuel st = some res →
    stepsize_loop params problem ψx grad_ψ (fuel + 1) st = some res := by
  intro fuel
  induction fuel with
  | zero => intro st res h; simp [stepsize_loop] at h
  | succ fuel ih =>
    intro st res h
    rw [stepsize_loop] at h ⊢
    cases hfb : forward_backward problem st.x st.γ with
    | error e => simpa only [hfb] using h
    | ok fb =>
      simp only [hfb] at h ⊢
      by_cases hq : quadratic_upperbound_holds params ψx grad_ψ st.γ fb = true
      · simpa only [hq, if_true] using h
      · by_cases hL : params.L_max ≤ st.L
        · simpa only [hq, hL, if_true, if_false, Bool.false_eq_true] using h
        · simp only [hq, hL, if_false, Bool.false_eq_true] at h ⊢
          cases hg : grow params st.L with
          | error e => simpa only [hg] using h
          | ok g =>
            obtain ⟨L1, γ1⟩ := g
            simp only [hg] at h ⊢
            exact ih _ _ h

theorem linesearch_loop_fuel {Conf : Config} (params : PANOCParams Conf)
    (accept : ℚ → Except Failure Bool) :
    ∀ (fuel : Nat) (τ : ℚ) (b : Nat) (s : PANOCStats) (res : PANOCStats × Except Failure ℚ),
    linesearch_loop params accept fuel τ b s = some res →
    linesearch_loop params accept (fuel + 1) τ b s = some res := by
  intro fuel
  induction fuel with
  | zero => intro τ b s res h; simp [linesearch_loop] at h
  | succ fuel ih =>
    intro τ b s res h
    rw [linesearch_loop] at h ⊢
    by_cases hlt : τ < params.τ_min
    · simpa only [hlt, if_true] using h
    · simp only [hlt, if_false] at h ⊢
      cases hacc : (if params.force_linesearch && b == 0 then (.ok true : Except Failure Bool)
          else accept τ) with
      | error e => simpa only [hacc] using h
      | ok v =>
        cases v with
        | true => simpa only [hacc] using h
        | false =>
          simp only [hacc] at h ⊢
          exact ih _ _ _ _ h

theorem advance_fuel {Conf : Config} {D : Type} (num : Numerics) (ops : DirectionOps D)
    (params : PANOCParams Conf) (problem : TypeErasedProblem) (fuel : Nat)
    (st : LoopState D) (grad_ψ : Vec) (fb : ForwardBackward) (φγ ε : ℚ) (np : Nat)
    (step : Step (LoopState D))
    (h : advance num ops params problem fuel st grad_ψ fb φγ ε np = some step) :
    advance num ops params problem (fuel + 1) st grad_ψ fb φγ ε np = some step := by
  unfold advance at h ⊢
  cases hp : ops.propose st.direction st.x grad_ψ st.prev with
  | none => simpa only [hp] using h
  | some q =>
    simp only [hp] at h ⊢
    cases hls : linesearch_loop params
        (sufficient_decrease num params problem st.x fb.p q st.γ φγ) fuel 1 0 st.s with
    | none => simp [hls] at h
    | some r =>
      rw [linesearch_loop_fuel params _ _ _ _ _ _ hls]
      simpa only [hls] using h

theorem iteration_fuel {Conf : Config} {D : Type} (num : Numerics) (env : Surroundings)
    (ops : DirectionOps D) (params : PANOCParams Conf) (problem : TypeErasedProblem)
    (opts : InnerSolveOptions) (y Sigma : Vec) (fuel k : Nat) (st : LoopState D)
    (step : Step (LoopState D))
    (h : iteration num env ops params problem opts y Sigma fuel k st = some step) :
    iteration num env ops params problem opts y Sigma (fuel + 1) k st = some step := by
  unfold iteration at h ⊢
  cases hc : problem.cost st.x with
  | error e => simpa only [hc] using h
  | ok ψx =>
    simp only [hc] at h ⊢
    cases hg : problem.gradient st.x with
    | error e => simpa only [hg] using h
    | ok grad_ψ =>
      simp only [hg] at h ⊢
      cases hsl : stepsize_loop params problem ψx grad_ψ fuel st with
      | none => simp [hsl] at h
      | some r =>
        rw [stepsize_loop_fuel params problem ψx grad_ψ _ _ _ hsl]
        obtain ⟨st1, out⟩ := r
        cases out with
        | error status => simpa only [hsl] using h
        | ok fb =>
          simp only [hsl] at h ⊢
          refine ite_some_of_else (fun h1 => ?_) h
          refine ite_some_of_else (fun h2 => ?_) h1
          refine ite_some_of_else (fun h3 => ?_) h2
          refine ite_some_of_else (fun h4 => ?_) h3
          exact advance_fuel _ _ _ _ _ _ _ _ _ _ _ _ h4

theorem main_loop_fuel {Conf : Config} {D : Type} (num : Numerics) (env : Surroundings)
    (ops : DirectionOps D) (params : PANOCParams Conf) (problem : TypeErasedProblem)
    (opts : InnerSolveOptions) (y Sigma : Vec) (fuel : Nat) :
    ∀ (remaining k : Nat) (st : LoopState D) (res : LoopState D × SolverStatus),
    main_loop num env ops params problem opts y Sigma fuel remaining k st = some res →
    main_loop num env ops params problem opts y Sigma (fuel + 1) remaining k st = some res := by
  intro remaining
  induction remaining with
  | zero =>
    intro k st res h
    rw [main_loop] at h ⊢
    cases hit : iteration num env ops params problem opts y Sigma fuel k st with
    | none => simp [hit] at h
    | some step =>
      rw [iteration_fuel _ _ _ _ _ _ _ _ _ _ _ _ hit]
      simpa only [hit] using h
  | succ r ih =>
    intro k st res h
    rw [main_loop] at h ⊢
    cases hit : iteration num env ops params problem opts y Sigma fuel k st with
    | none => simp [hit] at h
    | some step =>
      rw [iteration_fuel _ _ _ _ _ _ _ _ _ _ _ _ hit]
      cases step with
      | finished st1 status => simpa only [hit] using h
      | next st1 =>
        simp only [hit] at h ⊢
        exact ih _ _ _ h

/-- A call that returns with some fuel returns the same with any more fuel. -/
theorem call_fuel {Conf : Config} {D CB : Type} (num : Numerics) (env : Surroundings)
    (ops : DirectionOps D) (self : PANOCSolver Conf D CB)
    (problem : TypeErasedProblem) (opts : InnerSolveOptions) (x y Sigma : Vec)
    (fuel fuel' : Nat) (hle : fuel ≤ fuel') (r : SolveResult Conf D CB)
    (h : self.call num env ops fuel problem opts x y Sigma = some r) :
    self.call num env ops fuel' problem opts x y Sigma = some r := by
  induction fuel', hle using Nat.le_induction with
  | base => exact h
  | succ n _ ih =>
    unfold PANOCSolver.call at ih ⊢
    cases he : estimate num self.params problem x with
    | error e => simpa only [he] using ih
    | ok a =>
      obtain ⟨L, γ⟩ := a
      simp only [he] at ih ⊢
      cases hm : main_loop num env ops self.params problem opts y Sigma n
          (self.params.max_iter - 1) 0 ((start_state self x).with_estimate L γ) with
      | none => simp [hm] at ih
      | some res =>
        rw [main_loop_fuel _ _ _ _ _ _ _ _ _ _ _ _ _ hm]
        simpa only [hm] using ih

/-- For valid parameters the result of a call is determined: there is one
result that the call returns with every fuel beyond a bound. -/
theorem call_result {Conf : Config} {D CB : Type} (num : Numerics) (env : Surroundings)
    (ops : DirectionOps D) (self : PANOCSolver Conf D CB)
    (problem : TypeErasedProblem) (opts : InnerSolveOptions) (x y Sigma : Vec)
    (hv : self.params.valid) :
    ∃ N r, ∀ fuel, N < fuel → self.call num env ops fuel problem opts x y Sigma = some r := by
  obtain ⟨N, hN⟩ := call_returns num env ops self problem opts x y Sigma hv
  obtain ⟨r, hr⟩ := hN (N + 1) (Nat.lt_succ_self N)
  exact ⟨N, r, fun fuel hfuel =>
    call_fuel num env ops self problem opts x y Sigma (N + 1) fuel hfuel r hr⟩

theorem linesearch_loop_fuel_le {Conf : Config} (params : PANOCParams Conf)
    (accept : ℚ → Except Failure Bool) (fuel fuel' : Nat) (hle : fuel ≤ fuel') (τ : ℚ) (b : Nat)
    (s : PANOCStats) (res : PANOCStats × Except Failure ℚ)
    (h : linesearch_loop params accept fuel τ b s = some res) :
    linesearch_loop params accept fuel' τ b s = some res := by
  induction fuel', hle using Nat.le_induction with
  | base => exact h
  | succ n _ ih => exact linesearch_loop_fuel params accept n τ b s res ih

/-- C6, as amended: for `0 < τ_min < 1` and `0 < β < 1` the line search of one
iteration, started at `τ = 1`, ends after a bounded number `n` of backtracks,
each of which multiplied `τ` by `β` after a rejected candidate `τ ≥ τ_min` and
incremented `linesearch_backtracks` by one (modulo `2 ^ 32`): either `τ = β ^ n`
in `[τ_min, 1]` is accepted, `τ_1_accepted` being incremented exactly when
`n = 0`; or `β ^ n` is the first weight below `τ_min`, `τ` is forced to `0` and
exactly one line-search failure is recorded; or the evaluation of the candidate
`β ^ n` fails, which ends the whole call. -/
theorem linesearch_terminates {Conf : Config} (params : PANOCParams Conf)
    (hτ : 0 < params.τ_min ∧ params.τ_min < 1) (hβ : 0 < params.β ∧ params.β < 1)
    (accept : ℚ → Except Failure Bool) (s : PANOCStats)
    (hs : s.linesearch_backtracks < 2 ^ 32) :
    ∃ N n, n ≤ N ∧
      (∀ m, m < n → params.τ_min ≤ params.β ^ m ∧
        (if params.force_linesearch && m == 0 then .ok true else accept (params.β ^ m))
          = .ok false) ∧
      ((params.τ_min ≤ params.β ^ n ∧ params.β ^ n ≤ 1 ∧
        (if params.force_linesearch && n == 0 then .ok true else accept (params.β ^ n))
          = .ok true ∧
        ∀ fuel, N < fuel → linesearch_loop params accept fuel 1 0 s = some
          ({ s with
              linesearch_backtracks := (s.linesearch_backtracks + n) % 2 ^ 32
              τ_1_accepted := if n = 0 then uadd s.τ_1_accepted 1 else s.τ_1_accepted },
            .ok (params.β ^ n))) ∨
      (params.β ^ n < params.τ_min ∧ 0 < n ∧
        ∀ fuel, N < fuel → linesearch_loop params accept fuel 1 0 s = some
          ({ s with
              linesearch_backtracks := (s.linesearch_backtracks + n) % 2 ^ 32
              linesearch_failures := uadd s.linesearch_failures 1 },
            .ok 0)) ∨
      (∃ e, params.τ_min ≤ params.β ^ n ∧
        (if params.force_linesearch && n == 0 then .ok true else accept (params.β ^ n))
          = .error e ∧
        ∀ fuel, N < fuel → linesearch_loop params accept fuel 1 0 s = some
          ({ s with linesearch_backtracks := (s.linesearch_backtracks + n) % 2 ^ 32 },
            .error e))) := by
  obtain ⟨N, hN⟩ := linesearch_ends_bounded params hτ hβ accept s hs
  obtain ⟨n, hn, hrej, hres⟩ := hN (N + 1) (Nat.lt_succ_self N)
  refine ⟨N, n, hn, hrej, ?_⟩
  rcases hres with ⟨a1, a2, a3, a4⟩ | ⟨a1, a2, a4⟩ | ⟨e, a1, a2, a4⟩
  · exact Or.inl ⟨a1, a2, a3, fun fuel hf =>
      linesearch_loop_fuel_le params accept (N + 1) fuel hf 1 0 s _ a4⟩
  · exact Or.inr (Or.inl ⟨a1, a2, fun fuel hf =>
      linesearch_loop_fuel_le params accept (N + 1) fuel hf 1 0 s _ a4⟩)
  · exact Or.inr (Or.inr ⟨e, a1, a2, fun fuel hf =>
      linesearch_loop_fuel_le params accept (N + 1) fuel hf 1 0 s _ a4⟩)

/-- C3: every call of the solve entry point that returns, returns a `Stats`
whose status is one of the seven terminal statuses and not `Busy`, the status
of a default-constructed `Stats`; and for valid parameters the call does return,
with one and the same result once the fuel of the inner retry loops exceeds a
bound. -/
theorem call_status_terminal {Conf : Config} {D CB : Type} (num : Numerics)
    (env : Surroundings) (ops : DirectionOps D) (self : PANOCSolver Conf D CB)
    (problem : TypeErasedProblem) (opts : InnerSolveOptions) (x y Sigma : Vec) :
    (self.params.valid → ∃ N r, ∀ fuel, N < fuel →
      self.call num env ops fuel problem opts x y Sigma = some r) ∧
    (∀ fuel r, self.call num env ops fuel problem opts x y Sigma = some r →
      r.stats.status ≠ SolverStatus.Busy ∧
      ({} : PANOCStats).status = SolverStatus.Busy ∧
      (r.stats.status = SolverStatus.Converged ∨ r.stats.status = SolverStatus.MaxTime ∨
        r.stats.status = SolverStatus.MaxIterations ∨ r.stats.status = SolverStatus.NoProgress ∨
        r.stats.status = SolverStatus.Interrupted ∨ r.stats.status = SolverStatus.NotFinite ∨
        r.stats.status = SolverStatus.Exception)) := by
  refine ⟨call_result num env ops self problem opts x y Sigma, fun fuel r h => ?_⟩
  have hterm : r.stats.status.terminal = true := by
    rcases call_cases h with ⟨e, -, rfl⟩ | ⟨L, γ, st, status, -, hm, rfl⟩
    · exact Failure.status_terminal e
    · exact (main_loop_spec _ _ _ _ _ _ _ _ _ _ _ _ _ _ hm).1
  refine ⟨fun hb => ?_, rfl, ?_⟩
  · rw [hb] at hterm; exact absurd hterm (by decide)
  · cases hs : r.stats.status <;> rw [hs] at hterm <;> simp_all [SolverStatus.terminal]

/-- C4, as amended: a call with `max_time = 0` that returns has performed no
iteration and has not advanced `x`, and its status is `Converged` with
`ε ≤ tolerance`, or `MaxTime` with `ε > tolerance`, or `NotFinite` or `Exception`,
and these only when the initial estimate or step 1 of the first iteration (the
evaluation of the problem or of the step size at the initial point) fails; for
valid parameters the call does return. -/
theorem call_max_time_zero {Conf : Config} {D CB : Type} (num : Numerics)
    (env : Surroundings) (ops : DirectionOps D) (self : PANOCSolver Conf D CB)
    (problem : TypeErasedProblem) (opts : InnerSolveOptions) (x y Sigma : Vec)
    (hmt : self.params.max_time = 0) :
    (self.params.valid → ∃ N r, ∀ fuel, N < fuel →
      self.call num env ops fuel problem opts x y Sigma = some r) ∧
    (∀ fuel r, self.call num env ops fuel problem opts x y Sigma = some r →
      r.stats.iterations = 0 ∧ r.x = x ∧
      ((r.stats.status = SolverStatus.Converged ∧
          ∃ e, r.stats.ε = real_t.finite e ∧ e ≤ opts.tolerance) ∨
       (r.stats.status = SolverStatus.MaxTime ∧
          ∃ e, r.stats.ε = real_t.finite e ∧ opts.tolerance < e) ∨
       ((r.stats.status = SolverStatus.NotFinite ∨ r.stats.status = SolverStatus.Exception) ∧
          ((∃ e, estimate num self.params problem x = .error e) ∨
           ∃ L γ, estimate num self.params problem x = .ok (L, γ) ∧
             stepsize_fails self.params problem fuel
               ((start_state self x).with_estimate L γ))))) := by
  refine ⟨call_result num env ops self problem opts x y Sigma, fun fuel r h => ?_⟩
  rcases call_cases h with ⟨e, he, rfl⟩ | ⟨L, γ, st, status, he, hm, rfl⟩
  · exact ⟨rfl, rfl, Or.inr (Or.inr ⟨Failure.status_cases e, Or.inl ⟨e, he⟩⟩)⟩
  · have htime : self.params.max_time ≤ (env.elapsed 0 : Int) := by
      rw [hmt]; exact Int.natCast_nonneg _
    have hit := main_loop_first _ _ _ _ _ _ _ _ _ _ _ _ _ _ (Or.inl htime) hm
    obtain ⟨-, -, -, i4, -⟩ := iteration_spec _ _ _ _ _ _ _ _ _ _ _ _ hit
    obtain ⟨hx, hiter, hs⟩ := i4 _ _ rfl
    refine ⟨hiter, hx, ?_⟩
    rcases hs with ⟨rfl, hε⟩ | ⟨rfl, -, hε⟩ | ⟨-, hlt, -⟩ | ⟨-, hlt, -⟩ | ⟨hs, hcause⟩
    · exact Or.inl ⟨rfl, hε⟩
    · exact Or.inr (Or.inl ⟨rfl, hε⟩)
    · exact absurd htime (not_le.mpr hlt)
    · exact absurd htime (not_le.mpr hlt)
    · refine Or.inr (Or.inr ⟨hs, Or.inr ⟨L, γ, he, ?_⟩⟩)
      rcases hcause with hc | ⟨hlt, -⟩
      · exact hc
      · exact absurd htime (not_le.mpr hlt)

/-- C10: the templated overload of the solve entry point returns, for every
problem object `p` and all other arguments, exactly what the primary overload
returns (the `Stats` and the updates of `x`, `y` and `err_z`) when called on the
same solver with the adaptation `make p` and the same other arguments: for
every primary overload, and in particular for the loop controller above. -/
theorem call_template_eq_primary {Conf : Config} {D CB P Problem Opts V R : Type}
    (primary : PANOCSolver Conf D CB → Problem → Opts → V → V → V → V → R)
    (make : P → Problem) (self : PANOCSolver Conf D CB)
    (p : P) (opts : Opts) (u y Sigma e : V)
    (num : Numerics) (env : Surroundings) (ops : DirectionOps D) (fuel : Nat)
    (make_erased : P → TypeErasedProblem) (solve_opts : InnerSolveOptions) (x z S err : Vec) :
    PANOCSolver.call_template primary make self p opts u y Sigma e
      = primary self (make p) opts u y Sigma e ∧
    PANOCSolver.call_template
        (fun s problem o a b c (_ : Vec) => PANOCSolver.call num env ops fuel s problem o a b c)
        make_erased self p solve_opts x z S err
      = self.call num env ops fuel (make_erased p) solve_opts x z S :=
  ⟨rfl, rfl⟩

/-! ## The model on concrete inputs -/

theorem demo_params_valid : demo_solver.params.valid := by
  refine ⟨?_, ?_, fun L hL => ?_⟩
  · simp only [PANOCParams.invariant, demo_solver, demo_params]
    norm_num
  · simp only [demo_solver, demo_params]
    norm_num
  · simp [demo_solver, demo_params] at hL

theorem option_map_eq_some {α β : Type} {f : α → β} {o : Option α} {v : β}
    (h : o.map f = some v) : ∃ r, o = some r ∧ f r = v := by
  cases o with
  | none => simp at h
  | some r => exact ⟨r, rfl, by simpa using h⟩

/-- From `x₀ = [10]` the quadratic problem converges to `x = [0]` in one
iteration with the Newton-like direction. -/
theorem quadratic_converges :
    (demo_solver.call demo_numerics quiet half_gradient 10 quadratic_problem demo_opts
      [10] [] []).map (fun r => (r.stats.status, r.stats.iterations, r.x, r.L_trace))
    = some (SolverStatus.Converged, 1, [0], [(2, 19 / 40)]) := by
  with_unfolding_all decide

/-- An initial estimate `1/4` of the Lipschitz constant `2` is grown three times. -/
theorem small_estimate_grows :
    (small_estimate_solver.call demo_numerics quiet half_gradient 10 quadratic_problem
      demo_opts [10] [] []).map
        (fun r => (r.stats.status, r.stats.stepsize_backtracks, r.L_trace.map Prod.fst))
    = some (SolverStatus.Converged, 3, [1 / 4, 1 / 2, 1, 2]) := by
  with_unfolding_all decide

/-- With `β = 1/2`, `τ_min = 1/4` and every candidate rejected, the line search
backtracks three times and is abandoned at `τ = 1/8`. -/
theorem linesearch_abandoned :
    (linesearch_loop coarse_params (fun _ => .ok false) 10 1 0 {}).map
      (fun r => (r.1.linesearch_backtracks, r.1.linesearch_failures, r.1.τ_1_accepted, r.2))
    = some (3, 1, 0, .ok 0) := by
  with_unfolding_all decide

/-- With `β = 1/2` and the candidates `τ ≤ 1/2` acceptable, the line search
accepts `τ = 1/2` after one backtrack. -/
theorem linesearch_accepts_half :
    (linesearch_loop coarse_params (fun τ => .ok (decide (τ ≤ 1 / 2))) 10 1 0 {}).map
      (fun r => (r.1.linesearch_backtracks, r.1.linesearch_failures, r.1.τ_1_accepted, r.2))
    = some (1, 0, 0, .ok (1 / 2)) := by
  with_unfolding_all decide

/-- With `max_time = 0` the quadratic problem from `[10]` ends with `MaxTime`. -/
theorem zero_time_max_time :
    (zero_time_solver.call demo_numerics quiet half_gradient 10 quadratic_problem
      demo_opts [10] [] []).map (fun r => (r.stats.status, r.stats.iterations, r.x))
    = some (SolverStatus.MaxTime, 0, [10]) := by
  with_unfolding_all decide

/-- With `max_time = 0` the quadratic problem from its minimiser ends with
`Converged`. -/
theorem zero_time_converged :
    (zero_time_solver.call demo_numerics quiet half_gradient 10 quadratic_problem
      demo_opts [0] [] []).map (fun r => (r.stats.status, r.stats.iterations, r.x))
    = some (SolverStatus.Converged, 0, [0]) := by
  with_unfolding_all decide

/-- A call on an instance on which `stop()` has been called ends with
`Interrupted` in its first iteration. -/
theorem stopped_solver_interrupted :
    (demo_solver.stop.call demo_numerics quiet half_gradient 10 quadratic_problem
      demo_opts [10] [] []).map
        (fun r => (r.stats.status, r.stats.iterations, r.x, r.solver.stop_signal.flag))
    = some (SolverStatus.Interrupted, 0, [10], true) := by
  with_unfolding_all decide

/-- A call whose first line-search candidate lands outside the domain of the
problem ends with `Exception`, with no weight accepted and no line-search
failure recorded. -/
theorem candidate_exception_ends_call :
    (demo_solver.call demo_numerics quiet to_origin 10 positive_domain_problem
      demo_opts [1] [] []).map
        (fun r => (r.stats.status, [r.stats.iterations, r.stats.linesearch_failures,
          r.stats.τ_1_accepted, r.stats.count_τ], r.L_trace))
    = some (SolverStatus.Exception, [0, 0, 0, 0], [(3 / 4, 19 / 15), (3 / 2, 19 / 30)]) := by
  with_unfolding_all decide

set_option maxRecDepth 8000 in
/-- With proposals that no weight makes acceptable, each of three iterations
backtracks three times, records a line-search failure and takes the proximal
step. -/
theorem uphill_three_iterations :
    (coarse_solver.call demo_numerics quiet uphill 10 quadratic_problem
      demo_opts [10] [] []).map
        (fun r => (r.stats.status, [r.stats.iterations, r.stats.linesearch_failures,
          r.stats.linesearch_backtracks, r.stats.count_τ], r.x))
    = some (SolverStatus.MaxIterations, [3, 3, 9, 3], [1 / 800]) := by
  with_unfolding_all decide

/-! ## Witnesses and counterexamples -/

theorem call_status_terminal_witness :
    demo_solver.params.valid ∧
    ∃ N r, ∀ fuel, N < fuel → demo_solver.call demo_numerics quiet half_gradient fuel
      quadratic_problem demo_opts [10] [] [] = some r :=
  ⟨demo_params_valid,
    (call_status_terminal demo_numerics quiet half_gradient demo_solver quadratic_problem
      demo_opts [10] [] []).1 demo_params_valid⟩

/-- With `max_time = 0` and the cost `1 / x` at `x₀ = [0]`, the call returns with
status `NotFinite`, neither `MaxTime` nor `Converged`. -/
theorem max_time_zero_not_finite :
    zero_time_solver.params.max_time = 0 ∧
    ∃ r, zero_time_solver.call demo_numerics quiet half_gradient 10 reciprocal_problem
        demo_opts [0] [] [] = some r ∧
      r.stats.status = SolverStatus.NotFinite ∧ r.stats.status ≠ SolverStatus.MaxTime ∧
      r.stats.status ≠ SolverStatus.Converged := by
  refine ⟨rfl, ?_⟩
  have h : (zero_time_solver.call demo_numerics quiet half_gradient 10 reciprocal_problem
      demo_opts [0] [] []).map (fun r => r.stats.status) = some SolverStatus.NotFinite := by
    with_unfolding_all decide
  obtain ⟨r, hr, hs⟩ := option_map_eq_some h
  refine ⟨r, hr, hs, ?_, ?_⟩ <;> (rw [hs]; decide)

theorem call_max_time_zero_witness :
    zero_time_solver.params.max_time = 0 ∧
    ∀ fuel r, zero_time_solver.call demo_numerics quiet half_gradient fuel quadratic_problem
        demo_opts [10] [] [] = some r →
      r.stats.iterations = 0 ∧ r.x = [10] :=
  ⟨rfl, fun fuel r h =>
    ⟨((call_max_time_zero demo_numerics quiet half_gradient zero_time_solver
        quadratic_problem demo_opts [10] [] [] rfl).2 fuel r h).1,
      ((call_max_time_zero demo_numerics quiet half_gradient zero_time_solver
        quadratic_problem demo_opts [10] [] [] rfl).2 fuel r h).2.1⟩⟩

/-- With `0 < τ_min < 1` and `0 < β < 1`, a line search from `x = [1]` with
`q = [−1]`, whose first candidate `x(1) = [0]` lies outside the domain of the
problem, ends with the exception of the evaluation: no weight is accepted, `τ`
is not forced to `0` and no failure is recorded. -/
theorem linesearch_cut_short :
    ((0 < demo_params.τ_min ∧ demo_params.τ_min < 1) ∧
      (0 < demo_params.β ∧ demo_params.β < 1)) ∧
    linesearch_loop demo_params
      (sufficient_decrease demo_numerics demo_params positive_domain_problem [1] [19 / 30] [-1]
        (19 / 30) (41 / 60)) 200 1 0 {} = some ({}, .error Failure.exception) := by
  constructor
  · simp only [demo_params]
    norm_num
  · with_unfolding_all decide

theorem linesearch_terminates_witness :
    ((0 < coarse_params.τ_min ∧ coarse_params.τ_min < 1) ∧
      (0 < coarse_params.β ∧ coarse_params.β < 1) ∧
      ({} : PANOCStats).linesearch_backtracks < 2 ^ 32) ∧
    ∃ N, ∀ fuel, N < fuel →
      ∃ res, linesearch_loop coarse_params (fun _ => .ok false) fuel 1 0 {} = some res := by
  have h1 : 0 < coarse_params.τ_min ∧ coarse_params.τ_min < 1 := by
    simp only [coarse_params, demo_params]; norm_num
  have h2 : 0 < coarse_params.β ∧ coarse_params.β < 1 := by
    simp only [coarse_params, demo_params]; norm_num
  have h3 : ({} : PANOCStats).linesearch_backtracks < 2 ^ 32 := by decide
  refine ⟨⟨h1, h2, h3⟩, ?_⟩
  obtain ⟨N, n, -, -, hres⟩ :=
    linesearch_terminates coarse_params h1 h2 (fun _ => .ok false) {} h3
  refine ⟨N, fun fuel hfuel => ?_⟩
  rcases hres with ⟨-, -, -, a⟩ | ⟨-, -, a⟩ | ⟨e, -, -, a⟩ <;> exact ⟨_, a fuel hfuel⟩

/-- On an instance on which `stop()` has been called, with time left: with
`L_max = 1` the quadratic problem from `x₀ = [10]`, where the stopping measure is
`20`, violates the quadratic upper bound at `L = L_max`, and the call returns
`NotFinite`; with the cost `1 / x` on `x > 0` and `x₀ = [0]` the evaluation of the
cost raises, and the call returns `Exception`. Neither call returns
`Interrupted`. -/
theorem stopped_call_not_interrupted :
    (capped_solver.stop.stop_signal.flag = true ∧
      (quiet.elapsed 0 : Int) < capped_solver.params.max_time ∧
      (∃ fb, forward_backward quadratic_problem [10] (19 / 20) = .ok fb ∧
        demo_opts.tolerance
          < demo_numerics.evaluate capped_solver.params.stop_crit [10] fb.x_hat fb.p [] []
              (19 / 20)) ∧
      ∃ r, capped_solver.stop.call demo_numerics quiet half_gradient 10 quadratic_problem
          demo_opts [10] [] [] = some r ∧
        r.L_trace = [(1, 19 / 20)] ∧
        r.stats.status = SolverStatus.NotFinite ∧
        r.stats.status ≠ SolverStatus.Interrupted) ∧
    (small_estimate_solver.stop.stop_signal.flag = true ∧
      (quiet.elapsed 0 : Int) < small_estimate_solver.params.max_time ∧
      ∃ r, small_estimate_solver.stop.call demo_numerics quiet half_gradient 10
          positive_domain_problem demo_opts [0] [] [] = some r ∧
        r.stats.status = SolverStatus.Exception ∧
        r.stats.status ≠ SolverStatus.Interrupted) := by
  refine ⟨⟨rfl, by decide,
    ⟨{ x_hat := [-9], h := 0, p := [-19], ψ_hat := 81 }, by with_unfolding_all rfl,
      by with_unfolding_all decide⟩, ?_⟩, rfl, by decide, ?_⟩
  · have h : (capped_solver.stop.call demo_numerics quiet half_gradient 10 quadratic_problem
        demo_opts [10] [] []).map (fun r => (r.L_trace, r.stats.status))
        = some ([(1, 19 / 20)], SolverStatus.NotFinite) := by
      with_unfolding_all decide
    obtain ⟨r, hr, hs⟩ := option_map_eq_some h
    simp only [Prod.mk.injEq] at hs
    refine ⟨r, hr, hs.1, hs.2, ?_⟩
    rw [hs.2]
    decide
  · have h : (small_estimate_solver.stop.call demo_numerics quiet half_gradient 10
        positive_domain_problem demo_opts [0] [] []).map (fun r => r.stats.status)
        = some SolverStatus.Exception := by
      with_unfolding_all decide
    obtain ⟨r, hr, hs⟩ := option_map_eq_some h
    refine ⟨r, hr, hs, ?_⟩
    rw [hs]
    decide

/-- C11: a solver constructed by any of the three constructors has no progress
callback registered and `get_params` returns the `params` given at construction
(the two constructors that take a direction hold that direction);
`set_progress_callback(cb)` makes `cb` the registered callback, whatever was
registered before, and the instance it returns differs from the one before the
call in `progress_cb` only: `params`, as returned by `get_params`, `direction`
and the cancellation flag are unchanged. -/
theorem set_progress_callback_frame {Conf : Config} {D CB : Type} [Inhabited D]
    (params : PANOCParams Conf) (direction : D) (self : PANOCSolver Conf D CB)
    (cb cb' : Option CB) :
    ((PANOCSolver.new params : PANOCSolver Conf D CB).progress_cb = none ∧
      (PANOCSolver.new_move params direction : PANOCSolver Conf D CB).progress_cb = none ∧
      (PANOCSolver.new_copy params direction : PANOCSolver Conf D CB).progress_cb = none) ∧
    ((PANOCSolver.new params : PANOCSolver Conf D CB).get_params = params ∧
      (PANOCSolver.new_move params direction : PANOCSolver Conf D CB).get_params = params ∧
      (PANOCSolver.new_copy params direction : PANOCSolver Conf D CB).get_params = params) ∧
    ((PANOCSolver.new_move params direction : PANOCSolver Conf D CB).direction = direction ∧
      (PANOCSolver.new_copy params direction : PANOCSolver Conf D CB).direction = direction) ∧
    ((self.set_progress_callback cb).progress_cb = cb ∧
      ((self.set_progress_callback cb').set_progress_callback cb).progress_cb = cb ∧
      (self.set_progress_callback cb).get_params = self.get_params ∧
      (self.set_progress_callback cb).params = self.params ∧
      (self.set_progress_callback cb).direction = self.direction ∧
      (self.set_progress_callback cb).stop_signal = self.stop_signal ∧
      self.set_progress_callback cb = { self with progress_cb := cb }) ∧
    (((PANOCSolver.new params : PANOCSolver Conf D CB).set_progress_callback cb).get_params
        = params ∧
      ((PANOCSolver.new_move params direction : PANOCSolver Conf D CB).set_progress_callback
        cb).get_params = params ∧
      ((PANOCSolver.new_copy params direction : PANOCSolver Conf D CB).set_progress_callback
        cb).get_params = params) :=
  ⟨⟨rfl, rfl, rfl⟩, ⟨rfl, rfl, rfl⟩, ⟨rfl, rfl⟩, ⟨rfl, rfl, rfl, rfl, rfl, rfl, rfl⟩,
    ⟨rfl, rfl, rfl⟩⟩

end alpaqa

/-! # Switch nodes: statements -/

namespace casadi

/-! ## Selection of the function -/

theorem getFunction_case {S : Type} (f_ : List (Function S)) (f_def_ : Function S) (i : Nat)
    (h : i < f_.length) : getFunction f_ f_def_ (i : Int) = .ok (f_.get ⟨i, h⟩) := by
  have h1 : (0 : Int) ≤ (i : Int) ∧ (i : Int) ≤ (f_.length : Int) := by omega
  have h2 : (i : Int) < (f_.length : Int) := by omega
  rw [getFunction, if_pos h1, if_pos h2]
  simp [List.getD_eq_getElem?_getD, List.getElem?_eq_getElem h]

theorem getFunction_default {S : Type} (f_ : List (Function S)) (f_def_ : Function S) :
    getFunction f_ f_def_ (f_.length : Int) = .ok f_def_ := by
  have h1 : (0 : Int) ≤ (f_.length : Int) ∧ (f_.length : Int) ≤ (f_.length : Int) := by omega
  rw [getFunction, if_pos h1, if_neg (lt_irrefl _)]

theorem getFunction_outside {S : Type} (f_ : List (Function S)) (f_def_ : Function S) (i : Int)
    (h : i < 0 ∨ (f_.length : Int) < i) :
    getFunction f_ f_def_ i = .error (CasadiException.assertion "i>=0 && i<=f_.size()") := by
  have h1 : ¬ ((0 : Int) ≤ i ∧ i ≤ (f_.length : Int)) := by omega
  rw [getFunction, if_neg h1]

theorem getFunction_inside {S : Type} (f_ : List (Function S)) (f_def_ : Function S) (i : Int)
    (h : 0 ≤ i ∧ i ≤ (f_.length : Int)) : ∃ fk, getFunction f_ f_def_ i = .ok fk := by
  rw [getFunction, if_pos h]
  by_cases h2 : i < (f_.length : Int)
  · rw [if_pos h2]; exact ⟨_, rfl⟩
  · rw [if_neg h2]; exact ⟨_, rfl⟩

theorem getFunction_nat {S : Type} (f_ : List (Function S)) (f_def_ : Function S) (k : Nat)
    (h : k ≤ f_.length) : getFunction f_ f_def_ (k : Int) = .ok ((f_ ++ [f_def_]).getD k none) := by
  rcases Nat.lt_or_eq_of_le h with h1 | h1
  · rw [getFunction_case f_ f_def_ k h1]
    simp [List.getD_eq_getElem?_getD, List.getElem?_append_left h1, List.getElem?_eq_getElem h1]
  · subst h1
    rw [getFunction_default]
    simp [List.getD_eq_getElem?_getD]

theorem static_cast_int_outside (index : ℚ) (n : Nat) :
    (static_cast_int index < 0 ∨ (n : Int) < static_cast_int index) ↔
      (index ≤ -1 ∨ (n : ℚ) + 1 ≤ index) := by
  unfold static_cast_int
  by_cases h : 0 ≤ index
  · rw [if_pos h]
    have h0 : (0 : Int) ≤ ⌊index⌋ := Int.floor_nonneg.mpr h
    have h1 : (n : Int) < ⌊index⌋ ↔ (n : ℚ) + 1 ≤ index := by
      rw [← Int.add_one_le_iff, Int.le_floor]
      push_cast
      exact Iff.rfl
    constructor
    · rintro (h2 | h2)
      · omega
      · exact Or.inr (h1.mp h2)
    · rintro (h2 | h2)
      · linarith
      · exact Or.inr (h1.mpr h2)
  · rw [if_neg h]
    have hneg : index < 0 := not_le.mp h
    have h0 : ⌈index⌉ ≤ 0 := Int.ceil_le.mpr (by exact_mod_cast hneg.le)
    have h1 : ⌈index⌉ < 0 ↔ index ≤ -1 := by
      have : ⌈index⌉ ≤ -1 ↔ index ≤ ((-1 : Int) : ℚ) := Int.ceil_le
      constructor
      · intro h2
        have := this.mp (by omega)
        simpa using this
      · intro h2
        have := this.mpr (by simpa using h2)
        omega
    constructor
    · rintro (h2 | h2)
      · exact Or.inl (h1.mp h2)
      · omega
    · rintro (h2 | h2)
      · exact Or.inl (h1.mpr h2)
      · have : (0 : ℚ) ≤ (n : ℚ) := Nat.cast_nonneg n
        linarith

/-- C13: for a switch with `n = f_.size()` case functions, `getFunction(i)` returns
`f_[i]` for every `0 ≤ i < n` and the default function `f_def_` for `i = n`, and it
fails, with its assertion, if and only if `i < 0` or `i > n`. Numerical evaluation
`evalD`, which selects `getFunction(k)` with `k` the index argument truncated
toward zero (a value representable as an `int`), therefore fails with that
assertion for every `k` outside `[0, n]`, the default function not being
evaluated; in terms of the index argument itself these are the values `≤ -1`
and the values `≥ n + 1`. -/
theorem getFunction_domain {S M : Type} [DecidableEq S] (self : Switch S M) :
    (∀ (i : Nat) (h : i < self.f_.length),
        self.getFunction (i : Int) = .ok (self.f_.get ⟨i, h⟩)) ∧
    self.getFunction (self.f_.length : Int) = .ok self.f_def_ ∧
    (∀ i : Int, (∃ e, self.getFunction i = .error e) ↔ (i < 0 ∨ (self.f_.length : Int) < i)) ∧
    (∀ i : Int, (i < 0 ∨ (self.f_.length : Int) < i) →
        self.getFunction i = .error (CasadiException.assertion "i>=0 && i<=f_.size()")) ∧
    (∀ (index : ℚ) (arg : List (List ℚ)), in_int (static_cast_int index) →
        (static_cast_int index < 0 ∨ (self.f_.length : Int) < static_cast_int index) →
        self.evalD index arg = .error (CasadiException.assertion "i>=0 && i<=f_.size()")) ∧
    (∀ index : ℚ,
        (static_cast_int index < 0 ∨ (self.f_.length : Int) < static_cast_int index) ↔
          (index ≤ -1 ∨ (self.f_.length : ℚ) + 1 ≤ index)) := by
  refine ⟨fun i h => getFunction_case _ _ i h, getFunction_default _ _, ?_,
    fun i h => getFunction_outside _ _ i h, ?_, fun index => static_cast_int_outside index _⟩
  · intro i
    constructor
    · rintro ⟨e, he⟩
      by_contra hin
      obtain ⟨fk, hfk⟩ := getFunction_inside self.f_ self.f_def_ i (by omega)
      rw [Switch.getFunction, hfk] at he
      cases he
    · intro h
      exact ⟨_, getFunction_outside _ _ i h⟩
  · intro index arg _ h
    rw [Switch.evalD, Switch.getFunction, getFunction_outside _ _ _ h]

/-- C13 at `demo_switch` (three case functions): the index `-3/2` truncates to
`-1` and the index `9/2` to `4`, and the evaluation fails for both. -/
theorem getFunction_domain_witness :
    demo_switch.getFunction 3 = .ok (some f_narrow) ∧
    demo_switch.evalD (-3 / 2) [[1, 2]]
      = .error (CasadiException.assertion "i>=0 && i<=f_.size()") ∧
    demo_switch.evalD (9 / 2) [[1, 2]]
      = .error (CasadiException.assertion "i>=0 && i<=f_.size()") :=
  ⟨(getFunction_domain demo_switch).2.1,
   (getFunction_domain demo_switch).2.2.2.2.1 (-3 / 2) [[1, 2]]
     (by unfold in_int; with_unfolding_all decide) (by with_unfolding_all decide),
   (getFunction_domain demo_switch).2.2.2.2.1 (9 / 2) [[1, 2]]
     (by unfold in_int; with_unfolding_all decide) (by with_unfolding_all decide)⟩


/-! ## The constructor's loop -/

theorem scan_from_eq_visit_all {S M : Type} (ops : Collaborators S M) (f : List (Function S))
    (f_def : Function S) (ks : List Nat) (hks : ∀ k ∈ ks, k ≤ f.length) (st : Shapes S) :
    scan_from ops f f_def ks st
      = visit_all ops (ks.map (fun k => (f ++ [f_def]).getD k none)) st := by
  induction ks generalizing st with
  | nil => rfl
  | cons k ks ih =>
    have hk : k ≤ f.length := hks k (List.mem_cons_self _ _)
    have hrest : ∀ j ∈ ks, j ≤ f.length := fun j hj => hks j (List.mem_cons_of_mem _ hj)
    rw [scan_from, getFunction_nat f f_def k hk]
    simp only [List.map_cons, visit_all]
    cases hv : visit ops st ((f ++ [f_def]).getD k none) with
    | error e => rfl
    | ok st1 => exact ih hrest st1

theorem map_getD_range {α : Type} (l : List α) (d : α) :
    (List.range l.length).map (fun k => l.getD k d) = l := by
  apply List.ext_getElem
  · simp
  · intro i h1 h2
    simp [List.getD_eq_getElem?_getD, List.getElem?_eq_getElem h2]

theorem scan_eq_visit_all {S M : Type} (ops : Collaborators S M) (f : List (Function S))
    (f_def : Function S) (st : Shapes S) :
    scan_from ops f f_def (List.range (f.length + 1)) st = visit_all ops (f ++ [f_def]) st := by
  rw [scan_from_eq_visit_all ops f f_def _ (fun k hk => by
    have := List.mem_range.mp hk; omega)]
  have h := map_getD_range (f ++ [f_def]) none
  rw [List.length_append, List.length_singleton] at h
  rw [h]

/-- The functions of the list agree in their numbers of inputs and outputs. -/
theorem combine_num_in_nonneg {S M : Type} (ops : Collaborators S M)
    (seen : List (FunctionInternal S)) : (combine ops seen).num_in < 0 ↔ seen = [] := by
  cases seen with
  | nil => simp [combine]
  | cons c cs => simp [combine]

theorem combine_snoc {S M : Type} (ops : Collaborators S M) (c : FunctionInternal S)
    (cs : List (FunctionInternal S)) (d : FunctionInternal S) :
    combine ops ((c :: cs) ++ [d])
      = { combine ops (c :: cs) with
          sp_out_ := List.zipWith ops.patternIntersection (combine ops (c :: cs)).sp_out_ d.output
          sp_in_ := List.zipWith ops.patternIntersection (combine ops (c :: cs)).sp_in_ d.input } := by
  simp [combine, List.foldl_append]

theorem visit_all_spec {S M : Type} (ops : Collaborators S M) (fs : List (Function S)) :
    ∀ (seen : List (FunctionInternal S)) (st1 : Shapes S),
      (∀ c ∈ seen, ∀ d ∈ seen,
        c.input.length = d.input.length ∧ c.output.length = d.output.length) →
      visit_all ops fs (combine ops seen) = .ok st1 →
      st1 = combine ops (seen ++ fs.reduceOption) ∧
      (∀ c ∈ fs.reduceOption, c.is_init = true) ∧
      (∀ c ∈ seen ++ fs.reduceOption, ∀ d ∈ seen ++ fs.reduceOption,
        c.input.length = d.input.length ∧ c.output.length = d.output.length) := by
  induction fs with
  | nil =>
    intro seen st1 hseen h
    simp only [visit_all] at h
    cases h
    refine ⟨by simp, by simp, by simpa using hseen⟩
  | cons fk fs ih =>
    intro seen st1 hseen h
    cases fk with
    | none =>
      simp only [visit_all, visit] at h
      rw [List.reduceOption_cons_of_none]
      exact ih seen st1 hseen h
    | some node =>
      rw [List.reduceOption_cons_of_some]
      have happ : seen ++ node :: fs.reduceOption = (seen ++ [node]) ++ fs.reduceOption := by
        simp
      rw [happ]
      simp only [visit_all, visit] at h
      by_cases hinit : node.is_init = true
      · simp only [hinit, Bool.not_true, Bool.false_eq_true, if_false] at h
        cases seen with
        | nil =>
          have hneg : (combine ops ([] : List (FunctionInternal S))).num_in < 0 := by
            simp [combine]
          rw [if_pos hneg] at h
          have hone : ∀ c ∈ [node], ∀ d ∈ [node],
              c.input.length = d.input.length ∧ c.output.length = d.output.length := by
            intro c hc d hd
            rw [List.mem_singleton] at hc hd
            subst hc; subst hd
            exact ⟨rfl, rfl⟩
          obtain ⟨h1, h2, h3⟩ := ih [node] st1 hone h
          refine ⟨h1, ?_, h3⟩
          intro c hc
          rcases List.mem_cons.mp hc with hc | hc
          · rw [hc]; exact hinit
          · exact h2 c hc
        | cons s ss =>
          have hnn : ¬ (combine ops (s :: ss)).num_in < 0 := by
            simp [combine]
          rw [if_neg hnn] at h
          by_cases hin : (combine ops (s :: ss)).num_in ≠ (node.input.length : Int)
          · rw [if_pos hin] at h; cases h
          · rw [if_neg hin] at h
            by_cases hout : (combine ops (s :: ss)).num_out ≠ (node.output.length : Int)
            · rw [if_pos hout] at h; cases h
            · rw [if_neg hout] at h
              rw [← combine_snoc] at h
              have hin1 : s.input.length = node.input.length := by
                have := not_not.mp hin
                simp only [combine] at this
                exact_mod_cast this
              have hout1 : s.output.length = node.output.length := by
                have := not_not.mp hout
                simp only [combine] at this
                exact_mod_cast this
              have hs : s ∈ s :: ss := List.mem_cons_self _ _
              have hagree : ∀ c ∈ (s :: ss) ++ [node], ∀ d ∈ (s :: ss) ++ [node],
                  c.input.length = d.input.length ∧ c.output.length = d.output.length := by
                have key : ∀ c ∈ (s :: ss) ++ [node],
                    c.input.length = s.input.length ∧ c.output.length = s.output.length := by
                  intro c hc
                  rcases List.mem_append.mp hc with hc | hc
                  · exact hseen c hc s hs
                  · rw [List.mem_singleton] at hc
                    subst hc
                    exact ⟨hin1.symm, hout1.symm⟩
                intro c hc d hd
                exact ⟨(key c hc).1.trans (key d hd).1.symm, (key c hc).2.trans (key d hd).2.symm⟩
              obtain ⟨h1, h2, h3⟩ := ih ((s :: ss) ++ [node]) st1 hagree h
              refine ⟨h1, ?_, h3⟩
              intro c hc
              rcases List.mem_cons.mp hc with hc | hc
              · rw [hc]; exact hinit
              · exact h2 c hc
      · simp only [hinit, Bool.not_false, if_true] at h
        cases h

theorem visit_error_is_assertion {S M : Type} (ops : Collaborators S M) (st : Shapes S)
    (fk : Function S) (e : CasadiException) (h : visit ops st fk = .error e) :
    e.is_assertion = true := by
  cases fk with
  | none => simp [visit] at h
  | some node =>
    simp only [visit] at h
    split_ifs at h <;> cases h <;> rfl

theorem visit_all_error_is_assertion {S M : Type} (ops : Collaborators S M)
    (fs : List (Function S)) : ∀ (st : Shapes S) (e : CasadiException),
    visit_all ops fs st = .error e → e.is_assertion = true := by
  induction fs with
  | nil => intro st e h; simp [visit_all] at h
  | cons fk fs ih =>
    intro st e h
    rw [visit_all] at h
    cases hv : visit ops st fk with
    | error e1 =>
      rw [hv] at h
      cases h
      exact visit_error_is_assertion ops st fk _ hv
    | ok st1 =>
      rw [hv] at h
      exact ih st1 e h

theorem visit_all_null {S M : Type} (ops : Collaborators S M) (fs : List (Function S))
    (hnull : ∀ fk ∈ fs, fk = none) (st : Shapes S) : visit_all ops fs st = .ok st := by
  induction fs with
  | nil => rfl
  | cons fk fs ih =>
    have h1 : fk = none := hnull fk (List.mem_cons_self _ _)
    subst h1
    rw [visit_all]
    simp only [visit]
    exact ih (fun g hg => hnull g (List.mem_cons_of_mem _ hg))


/-! ## The constructor -/

theorem foldl_zipWith_length {S : Type} (inter : S → S → S) (sel : FunctionInternal S → List S)
    (cs : List (FunctionInternal S)) : ∀ (acc : List S),
    (∀ c ∈ cs, (sel c).length = acc.length) →
    (cs.foldl (fun a d => List.zipWith inter a (sel d)) acc).length = acc.length := by
  induction cs with
  | nil => intro acc _; rfl
  | cons c cs ih =>
    intro acc h
    have hc : (sel c).length = acc.length := h c (List.mem_cons_self _ _)
    have hz : (List.zipWith inter acc (sel c)).length = acc.length := by
      simp [List.length_zipWith, hc]
    rw [List.foldl_cons, ih (List.zipWith inter acc (sel c)) (fun d hd => by
      rw [hz]; exact h d (List.mem_cons_of_mem _ hd)), hz]

theorem new_ok_spec {S M : Type} (ops : Collaborators S M) (ind : M) (arg : List M)
    (f : List (Function S)) (f_def : Function S) (node : Switch S M)
    (h : Switch.new ops ind arg f f_def = .ok node) :
    f ≠ [] ∧ ops.isScalar ind true = true ∧ node.f_ = f ∧ node.f_def_ = f_def ∧
    ∃ first rest, candidates f f_def = first :: rest ∧
      node.sp_in_ = (combine ops (first :: rest)).sp_in_ ∧
      node.sp_out_ = (combine ops (first :: rest)).sp_out_ ∧
      (∀ c ∈ first :: rest, c.is_init = true) ∧
      (∀ c ∈ first :: rest, c.input.length = first.input.length ∧
        c.output.length = first.output.length) ∧
      arg.length = first.input.length ∧
      node.sp_in_.length = first.input.length ∧
      node.sp_out_.length = first.output.length := by
  unfold Switch.new at h
  by_cases hf : f.isEmpty = true
  · rw [if_pos hf] at h; cases h
  rw [if_neg hf] at h
  by_cases hs : (!ops.isScalar ind true) = true
  · rw [if_pos hs] at h; cases h
  rw [if_neg hs, scan_eq_visit_all] at h
  have hs1 : ops.isScalar ind true = true := by
    cases hb : ops.isScalar ind true with
    | true => rfl
    | false => rw [hb] at hs; exact absurd rfl hs
  have hf1 : f ≠ [] := by
    intro hnil
    rw [hnil] at hf
    exact hf rfl
  cases hv : visit_all ops (f ++ [f_def]) {} with
  | error e => rw [hv] at h; cases h
  | ok st =>
    rw [hv] at h
    simp only at h
    have hspec := visit_all_spec ops (f ++ [f_def]) [] st (fun c hc => by cases hc) hv
    simp only [List.nil_append] at hspec
    obtain ⟨hst, hinit, hagree⟩ := hspec
    by_cases hneg : st.num_in < 0
    · rw [if_pos hneg] at h; cases h
    rw [if_neg hneg] at h
    by_cases hlen : (arg.length : Int) ≠ st.num_in
    · rw [if_pos hlen] at h; cases h
    rw [if_neg hlen] at h
    cases h
    refine ⟨hf1, hs1, rfl, rfl, ?_⟩
    cases hc : (f ++ [f_def]).reduceOption with
    | nil =>
      rw [hc] at hst
      rw [hst] at hneg
      exact absurd (by simp [combine]) hneg
    | cons first rest =>
      rw [hc] at hst hinit hagree
      have hfirst : first ∈ first :: rest := List.mem_cons_self _ _
      have hlen1 : arg.length = first.input.length := by
        have := not_not.mp hlen
        rw [hst] at this
        simp only [combine] at this
        exact_mod_cast this
      refine ⟨first, rest, hc, by rw [hst], by rw [hst], hinit,
        fun c hcm => hagree c hcm first hfirst, hlen1, ?_, ?_⟩
      · rw [hst]
        simp only [combine]
        exact foldl_zipWith_length ops.patternIntersection (fun d => d.input) rest first.input
          (fun d hd => (hagree d (List.mem_cons_of_mem _ hd) first hfirst).1)
      · rw [hst]
        simp only [combine]
        exact foldl_zipWith_length ops.patternIntersection (fun d => d.output) rest first.output
          (fun d hd => (hagree d (List.mem_cons_of_mem _ hd) first hfirst).2)

theorem new_error_is_assertion {S M : Type} (ops : Collaborators S M) (ind : M) (arg : List M)
    (f : List (Function S)) (f_def : Function S) (e : CasadiException)
    (h : Switch.new ops ind arg f f_def = .error e) : e.is_assertion = true := by
  unfold Switch.new at h
  by_cases hf : f.isEmpty = true
  · rw [if_pos hf] at h; cases h; rfl
  rw [if_neg hf] at h
  by_cases hs : (!ops.isScalar ind true) = true
  · rw [if_pos hs] at h; cases h; rfl
  rw [if_neg hs, scan_eq_visit_all] at h
  cases hv : visit_all ops (f ++ [f_def]) {} with
  | error e1 =>
    rw [hv] at h
    cases h
    exact visit_all_error_is_assertion ops _ _ _ hv
  | ok st =>
    rw [hv] at h
    simp only at h
    by_cases hneg : st.num_in < 0
    · rw [if_pos hneg] at h; cases h; rfl
    rw [if_neg hneg] at h
    by_cases hlen : (arg.length : Int) ≠ st.num_in
    · rw [if_pos hlen] at h; cases h; rfl
    rw [if_neg hlen] at h
    cases h

theorem new_rejects {S M : Type} (ops : Collaborators S M) (ind : M) (arg : List M)
    (f : List (Function S)) (f_def : Function S)
    (hno : ∀ node, Switch.new ops ind arg f f_def ≠ .ok node) :
    ∃ e, Switch.new ops ind arg f f_def = .error e := by
  cases h : Switch.new ops ind arg f f_def with
  | error e => exact ⟨e, rfl⟩
  | ok node => exact absurd h (hno node)

/-- C12: the construction of a switch node, by `Switch::Switch` and so by
`Switch::create`, fails with an assertion (every failure of the constructor is
one) whenever the list `f` of case functions is empty, or the index `ind` is
not a dense scalar, or every candidate function (all of `f` and the default
`f_def`) is null (the message then being "All functions are null" when the two
earlier checks pass), or two non-null candidates differ in their number of
inputs or of outputs, or the length of `arg` differs from the number of inputs
of a non-null candidate. When the construction succeeds there is a non-null
candidate and `nout()` is the number of outputs of every non-null candidate. -/
theorem switch_construction_rejected {S M R : Type} (ops : Collaborators S M)
    (createMultipleOutput : Switch S M → R) (ind : M) (arg : List M)
    (f : List (Function S)) (f_def : Function S) :
    (∀ e, Switch.new ops ind arg f f_def = .error e →
      e.is_assertion = true ∧
      Switch.create ops createMultipleOutput ind arg f f_def = .error e) ∧
    (f = [] →
      Switch.new ops ind arg f f_def = .error (CasadiException.assertion "!f_.empty()")) ∧
    (ops.isScalar ind true = false → ∃ e, Switch.new ops ind arg f f_def = .error e) ∧
    (f ≠ [] → ops.isScalar ind true = false →
      Switch.new ops ind arg f f_def = .error (CasadiException.assertion "ind.isScalar(true)")) ∧
    ((∀ fk ∈ f ++ [f_def], fk = none) → ∃ e, Switch.new ops ind arg f f_def = .error e) ∧
    (f ≠ [] → ops.isScalar ind true = true → (∀ fk ∈ f ++ [f_def], fk = none) →
      Switch.new ops ind arg f f_def
        = .error (CasadiException.message "All functions are null")) ∧
    (∀ c ∈ candidates f f_def, ∀ d ∈ candidates f f_def,
      (c.input.length ≠ d.input.length ∨ c.output.length ≠ d.output.length) →
      ∃ e, Switch.new ops ind arg f f_def = .error e) ∧
    (∀ c ∈ candidates f f_def, arg.length ≠ c.input.length →
      ∃ e, Switch.new ops ind arg f f_def = .error e) ∧
    (∀ node, Switch.new ops ind arg f f_def = .ok node →
      Switch.create ops createMultipleOutput ind arg f f_def = .ok (createMultipleOutput node) ∧
      candidates f f_def ≠ [] ∧
      ∀ c ∈ candidates f f_def, node.nout = (c.output.length : Int)) := by
  refine ⟨?_, ?_, ?_, ?_, ?_, ?_, ?_, ?_, ?_⟩
  · intro e he
    refine ⟨new_error_is_assertion ops ind arg f f_def e he, ?_⟩
    rw [Switch.create, he]
  · intro hf
    subst hf
    rfl
  · intro hs
    apply new_rejects
    intro node hnode
    have := (new_ok_spec ops ind arg f f_def node hnode).2.1
    rw [hs] at this
    cases this
  · intro hf hs
    have hf1 : ¬ f.isEmpty = true := by
      intro hemp
      exact hf (List.isEmpty_iff.mp hemp)
    rw [Switch.new, if_neg hf1, hs]
    rfl
  · intro hnull
    apply new_rejects
    intro node hnode
    obtain ⟨_, _, _, _, first, rest, hc, _⟩ := new_ok_spec ops ind arg f f_def node hnode
    have hmem : some first ∈ f ++ [f_def] := by
      have : first ∈ (f ++ [f_def]).reduceOption := by
        rw [← candidates, hc]; exact List.mem_cons_self _ _
      exact List.reduceOption_mem_iff.mp this
    have := hnull _ hmem
    cases this
  · intro hf hs hnull
    have hf1 : ¬ f.isEmpty = true := by
      intro hemp
      exact hf (List.isEmpty_iff.mp hemp)
    rw [Switch.new, if_neg hf1, hs, scan_eq_visit_all, visit_all_null ops _ hnull]
    rfl
  · intro c hc d hd hdiff
    apply new_rejects
    intro node hnode
    obtain ⟨_, _, _, _, first, rest, hcand, _, _, _, hagree, _⟩ :=
      new_ok_spec ops ind arg f f_def node hnode
    rw [hcand] at hc hd
    have h1 := hagree c hc
    have h2 := hagree d hd
    rcases hdiff with hdiff | hdiff
    · exact hdiff (h1.1.trans h2.1.symm)
    · exact hdiff (h1.2.trans h2.2.symm)
  · intro c hc hlen
    apply new_rejects
    intro node hnode
    obtain ⟨_, _, _, _, first, rest, hcand, _, _, _, hagree, harg, _⟩ :=
      new_ok_spec ops ind arg f f_def node hnode
    rw [hcand] at hc
    exact hlen (harg.trans (hagree c hc).1.symm)
  · intro node hnode
    obtain ⟨_, _, _, _, first, rest, hcand, _, _, _, hagree, _, _, hout⟩ :=
      new_ok_spec ops ind arg f f_def node hnode
    refine ⟨by rw [Switch.create, hnode], by rw [hcand]; exact List.cons_ne_nil _ _, ?_⟩
    intro c hc
    rw [hcand] at hc
    rw [Switch.nout, hout, (hagree c hc).2]

/-- C12 at concrete inputs: an empty list of case functions, an index that is
not a dense scalar, null functions only, candidates with one and with two
inputs, and two arguments for functions of one input are all refused; the
construction of `demo_switch` succeeds and its `nout()` is 1. -/
theorem switch_construction_rejected_witness :
    Switch.new demo_ops {0} [{1, 2}] [] (some f_narrow)
      = .error (CasadiException.assertion "!f_.empty()") ∧
    Switch.new demo_ops {0, 1} [{1, 2}] [some f_wide] (some f_narrow)
      = .error (CasadiException.assertion "ind.isScalar(true)") ∧
    Switch.new demo_ops {0} [{1, 2}] [none, none] none
      = .error (CasadiException.message "All functions are null") ∧
    (∃ e, Switch.new demo_ops {0} [{1, 2}] [some f_wide, some f_binary] none = .error e) ∧
    (∃ e, Switch.new demo_ops {0} [{1, 2}, {0}] [some f_wide] (some f_narrow) = .error e) ∧
    demo_switch.nout = 1 :=
  ⟨(switch_construction_rejected demo_ops id {0} [{1, 2}] [] (some f_narrow)).2.1 rfl,
   (switch_construction_rejected demo_ops id {0, 1} [{1, 2}] [some f_wide]
      (some f_narrow)).2.2.2.1 (by simp) (by decide),
   (switch_construction_rejected demo_ops id {0} [{1, 2}] [none, none] none).2.2.2.2.2.1
      (by simp) (by decide) (by simp),
   (switch_construction_rejected demo_ops id {0} [{1, 2}] [some f_wide, some f_binary]
      none).2.2.2.2.2.2.1 f_wide (by simp [candidates]) f_binary (by simp [candidates])
      (Or.inl (by decide)),
   (switch_construction_rejected demo_ops id {0} [{1, 2}, {0}] [some f_wide]
      (some f_narrow)).2.2.2.2.2.2.2.1 f_wide (by simp [candidates]) (by decide),
   ((switch_construction_rejected demo_ops id {0} [{1, 2, 5}]
      [some f_wide, none, some f_shifted] (some f_narrow)).2.2.2.2.2.2.2.2
      demo_switch (by rfl)).2.2 f_narrow (by simp [candidates])⟩


/-! ## The stored patterns -/

theorem foldl_zipWith_getD {S : Type} (inter : S → S → S) (sel : FunctionInternal S → List S)
    (i : Nat) (dflt : S) (cs : List (FunctionInternal S)) : ∀ (acc : List S),
    (∀ c ∈ cs, (sel c).length = acc.length) → i < acc.length →
    (cs.foldl (fun a d => List.zipWith inter a (sel d)) acc).getD i dflt
      = cs.foldl (fun a d => inter a ((sel d).getD i dflt)) (acc.getD i dflt) := by
  induction cs with
  | nil => intro acc _ _; rfl
  | cons c cs ih =>
    intro acc h hi
    have hc : (sel c).length = acc.length := h c (List.mem_cons_self _ _)
    have hz : (List.zipWith inter acc (sel c)).length = acc.length := by
      simp [List.length_zipWith, hc]
    have hi2 : i < (sel c).length := by omega
    have hget : (List.zipWith inter acc (sel c)).getD i dflt
        = inter (acc.getD i dflt) ((sel c).getD i dflt) := by
      simp [List.getD_eq_getElem?_getD, List.getElem?_eq_getElem, hi, hi2, hz]
    rw [List.foldl_cons, ih (List.zipWith inter acc (sel c)) (fun d hd => by
      rw [hz]; exact h d (List.mem_cons_of_mem _ hd)) (by rw [hz]; exact hi), hget, List.foldl_cons]

theorem foldl_inter_le {S A : Type} (le : S → S → Prop) (inter : S → S → S)
    (laws : IntersectionLaws le inter) (g : A → S) (cs : List A) : ∀ (a0 : S),
    le (cs.foldl (fun a d => inter a (g d)) a0) a0 ∧
    ∀ d ∈ cs, le (cs.foldl (fun a d => inter a (g d)) a0) (g d) := by
  induction cs with
  | nil => intro a0; exact ⟨laws.refl _, fun d hd => by cases hd⟩
  | cons c cs ih =>
    intro a0
    obtain ⟨h1, h2⟩ := ih (inter a0 (g c))
    rw [List.foldl_cons]
    refine ⟨laws.trans _ _ _ h1 (laws.inter_le_left _ _), ?_⟩
    intro d hd
    rcases List.mem_cons.mp hd with hd | hd
    · rw [hd]; exact laws.trans _ _ _ h1 (laws.inter_le_right _ _)
    · exact h2 d hd

theorem check_buffers_spec {S : Type} [DecidableEq S] (stored : List S) : ∀ (actual : List S),
    actual.length = stored.length →
    (actual = stored → check_buffers stored actual = .ok ()) ∧
    (actual ≠ stored →
      check_buffers stored actual = .error (CasadiException.message "Not implemented")) := by
  induction stored with
  | nil =>
    intro actual hlen
    have : actual = [] := List.length_eq_zero.mp hlen
    subst this
    exact ⟨fun _ => rfl, fun h => absurd rfl h⟩
  | cons s stored ih =>
    intro actual hlen
    cases actual with
    | nil => cases hlen
    | cons a actual =>
      have hlen1 : actual.length = stored.length := by simpa using hlen
      obtain ⟨h1, h2⟩ := ih actual hlen1
      by_cases ha : a = s
      · subst ha
        refine ⟨fun h => ?_, fun h => ?_⟩
        · rw [check_buffers, if_pos rfl]
          exact h1 (List.cons.inj h).2
        · rw [check_buffers, if_pos rfl]
          exact h2 (fun heq => h (by rw [heq]))
      · refine ⟨fun h => absurd (List.cons.inj h).1 ha, fun _ => ?_⟩
        rw [check_buffers, if_neg ha]

theorem getFunction_mem {S : Type} (f_ : List (Function S)) (f_def_ : Function S) (i : Int)
    (fk : FunctionInternal S) (h : getFunction f_ f_def_ i = .ok (some fk)) :
    fk ∈ candidates f_ f_def_ := by
  unfold candidates
  rw [List.reduceOption_mem_iff]
  unfold getFunction at h
  by_cases h1 : 0 ≤ i ∧ i ≤ (f_.length : Int)
  · rw [if_pos h1] at h
    by_cases h2 : i < (f_.length : Int)
    · rw [if_pos h2] at h
      have hlt : i.toNat < f_.length := by omega
      have hget : f_.getD i.toNat none = f_.get ⟨i.toNat, hlt⟩ := by
        simp [List.getD_eq_getElem?_getD, List.getElem?_eq_getElem hlt]
      rw [hget] at h
      have hmem : f_.get ⟨i.toNat, hlt⟩ ∈ f_ := List.get_mem _ _ _
      have heq : f_.get ⟨i.toNat, hlt⟩ = some fk := by
        injection h
      rw [heq] at hmem
      exact List.mem_append_left _ hmem
    · rw [if_neg h2] at h
      have heq : f_def_ = some fk := by injection h
      rw [heq]
      exact List.mem_append_right _ (List.mem_singleton_self _)
  · rw [if_neg h1] at h
    cases h

/-- C15: after a successful construction of a switch there is a first non-null
candidate (the candidates being the non-null functions among `f_[0..n-1]` and
`f_def_`), every candidate has as many inputs and outputs as there are stored
patterns, and for every output index `i < nout()` the stored `sparsity(i)` is
the pattern intersection of the `i`-th output patterns of all candidates,
likewise each stored input pattern for the input patterns. Hence, for a
containment `le` for which intersections are lower bounds, each stored pattern
is contained in the corresponding pattern of every candidate. `evalD` on an
index that selects the non-null function `fk` passes its sparsity checks, and
returns what `fk` evaluates to, if the input and output patterns of `fk` equal
the stored ones, and fails with "Not implemented" if they do not. -/
theorem stored_sparsity_is_intersection {S M : Type} [DecidableEq S] (ops : Collaborators S M)
    (le : S → S → Prop) (ind : M) (arg : List M) (f : List (Function S)) (f_def : Function S)
    (node : Switch S M) (hnew : Switch.new ops ind arg f f_def = .ok node)
    (laws : IntersectionLaws le ops.patternIntersection) :
    (∃ first rest, candidates f f_def = first :: rest ∧
      (∀ c ∈ candidates f f_def,
        c.input.length = node.sp_in_.length ∧ (c.output.length : Int) = node.nout) ∧
      (∀ i : Nat, (i : Int) < node.nout →
        node.sparsity (i : Int)
          = .ok (intersection_at ops (fun c => c.output) i first rest)) ∧
      (∀ i : Nat, i < node.sp_in_.length →
        node.sp_in_[i]? = some (intersection_at ops (fun c => c.input) i first rest))) ∧
    (∀ c ∈ candidates f f_def, ∀ (i : Nat) (s : S), node.sparsity (i : Int) = .ok s →
      le s (c.output.getD i ops.scalar)) ∧
    (∀ c ∈ candidates f f_def, ∀ (i : Nat) (s : S), node.sp_in_[i]? = some s →
      le s (c.input.getD i ops.scalar)) ∧
    (∀ (index : ℚ) (buffers : List (List ℚ)) (fk : FunctionInternal S),
      node.getFunction (static_cast_int index) = .ok (some fk) →
      (fk.input = node.sp_in_ ∧ fk.output = node.sp_out_ →
        node.evalD index buffers = fk.evalD buffers) ∧
      (¬ (fk.input = node.sp_in_ ∧ fk.output = node.sp_out_) →
        node.evalD index buffers = .error (CasadiException.message "Not implemented"))) := by
  obtain ⟨_, _, hf, hfd, first, rest, hcand, hspin, hspout, _, hagree, _, hlin, hlout⟩ :=
    new_ok_spec ops ind arg f f_def node hnew
  have hlens : ∀ c ∈ candidates f f_def,
      c.input.length = node.sp_in_.length ∧ c.output.length = node.sp_out_.length := by
    intro c hc
    rw [hcand] at hc
    exact ⟨(hagree c hc).1.trans hlin.symm, (hagree c hc).2.trans hlout.symm⟩
  have hout_at : ∀ i : Nat, i < node.sp_out_.length →
      node.sp_out_[i]? = some (intersection_at ops (fun c => c.output) i first rest) := by
    intro i hi
    have h1 := foldl_zipWith_getD ops.patternIntersection (fun c => c.output) i ops.scalar rest
      first.output (fun d hd => (hagree d (List.mem_cons_of_mem _ hd)).2) (by omega)
    have h2 : node.sp_out_.getD i ops.scalar
        = intersection_at ops (fun c => c.output) i first rest := by
      rw [hspout]; exact h1
    rw [List.getD_eq_getElem?_getD, List.getElem?_eq_getElem hi, Option.getD_some] at h2
    rw [List.getElem?_eq_getElem hi, h2]
  have hin_at : ∀ i : Nat, i < node.sp_in_.length →
      node.sp_in_[i]? = some (intersection_at ops (fun c => c.input) i first rest) := by
    intro i hi
    have h1 := foldl_zipWith_getD ops.patternIntersection (fun c => c.input) i ops.scalar rest
      first.input (fun d hd => (hagree d (List.mem_cons_of_mem _ hd)).1) (by omega)
    have h2 : node.sp_in_.getD i ops.scalar
        = intersection_at ops (fun c => c.input) i first rest := by
      rw [hspin]; exact h1
    rw [List.getD_eq_getElem?_getD, List.getElem?_eq_getElem hi, Option.getD_some] at h2
    rw [List.getElem?_eq_getElem hi, h2]
  have hsparsity : ∀ (i : Nat) (s : S), node.sparsity (i : Int) = .ok s →
      node.sp_out_[i]? = some s := by
    intro i s hs
    have h0 : (0 : Int) ≤ (i : Int) := Int.ofNat_nonneg i
    rw [Switch.sparsity, if_pos h0, Int.toNat_ofNat] at hs
    cases hget : node.sp_out_[i]? with
    | none => rw [hget] at hs; cases hs
    | some t => rw [hget] at hs; cases hs; rfl
  have hle : ∀ (sel : FunctionInternal S → List S) (i : Nat), ∀ c ∈ first :: rest,
      le (intersection_at ops sel i first rest) ((sel c).getD i ops.scalar) := by
    intro sel i c hc
    have := foldl_inter_le le ops.patternIntersection laws
      (fun d : FunctionInternal S => (sel d).getD i ops.scalar) rest ((sel first).getD i ops.scalar)
    rcases List.mem_cons.mp hc with hc | hc
    · rw [hc]; exact this.1
    · exact this.2 c hc
  refine ⟨⟨first, rest, hcand, ?_, ?_, hin_at⟩, ?_, ?_, ?_⟩
  · intro c hc
    refine ⟨(hlens c hc).1, ?_⟩
    rw [Switch.nout, (hlens c hc).2]
  · intro i hi
    have hi1 : i < node.sp_out_.length := by
      rw [Switch.nout] at hi; exact_mod_cast hi
    have h0 : (0 : Int) ≤ (i : Int) := Int.ofNat_nonneg i
    rw [Switch.sparsity, if_pos h0, Int.toNat_ofNat, hout_at i hi1]
  · intro c hc i s hs
    have hs1 := hsparsity i s hs
    have hi : i < node.sp_out_.length := by
      by_contra hge
      rw [List.getElem?_eq_none (by omega)] at hs1
      cases hs1
    rw [hout_at i hi] at hs1
    cases hs1
    rw [hcand] at hc
    exact hle (fun c => c.output) i c hc
  · intro c hc i s hs1
    have hi : i < node.sp_in_.length := by
      by_contra hge
      rw [List.getElem?_eq_none (by omega)] at hs1
      cases hs1
    rw [hin_at i hi] at hs1
    cases hs1
    rw [hcand] at hc
    exact hle (fun c => c.input) i c hc
  · intro index buffers fk hfk
    have hmem : fk ∈ candidates f f_def := by
      rw [Switch.getFunction, hf, hfd] at hfk
      exact getFunction_mem f f_def _ fk hfk
    obtain ⟨hinl, houtl⟩ := hlens fk hmem
    obtain ⟨hin1, hin2⟩ := check_buffers_spec node.sp_in_ fk.input hinl
    obtain ⟨hout1, hout2⟩ := check_buffers_spec node.sp_out_ fk.output houtl
    constructor
    · rintro ⟨h1, h2⟩
      rw [Switch.evalD, hfk]
      simp only [hin1 h1, hout1 h2]
    · intro hne
      rw [Switch.evalD, hfk]
      by_cases h1 : fk.input = node.sp_in_
      · have h2 : fk.output ≠ node.sp_out_ := fun h2 => hne ⟨h1, h2⟩
        simp only [hin1 h1, hout2 h2]
      · simp only [hin2 h1]

/-- Finite sets of positions with inclusion and intersection satisfy the laws of
containment. -/
theorem demo_ops_laws :
    IntersectionLaws (fun a b : Finset ℕ => a ⊆ b) demo_ops.patternIntersection :=
  ⟨fun a => Finset.Subset.refl a, fun _ _ _ h1 h2 => Finset.Subset.trans h1 h2,
   fun _ _ => Finset.inter_subset_left, fun _ _ => Finset.inter_subset_right⟩

/-- C15 at `demo_switch`: its stored output pattern is contained in the output
pattern of `f_shifted`; the index `7/2` selects `f_narrow`, whose patterns are
the stored ones, and the index `5/2` selects `f_shifted`, whose patterns are
not. -/
theorem stored_sparsity_is_intersection_witness :
    Switch.new demo_ops {0} [{1, 2, 5}] [some f_wide, none, some f_shifted] (some f_narrow)
      = .ok demo_switch ∧
    ({1, 2} : Finset ℕ) ⊆ {1, 2, 3} ∧
    demo_switch.evalD (7 / 2) [[1, 2]] = .ok [[1, 2]] ∧
    demo_switch.evalD (5 / 2) [[1, 2]]
      = .error (CasadiException.message "Not implemented") :=
  ⟨by rfl,
   (stored_sparsity_is_intersection demo_ops (fun a b => a ⊆ b) {0} [{1, 2, 5}]
      [some f_wide, none, some f_shifted] (some f_narrow) demo_switch (by rfl)
      demo_ops_laws).2.1 f_shifted (by simp [candidates]) 0 {1, 2} (by rfl),
   ((stored_sparsity_is_intersection demo_ops (fun a b => a ⊆ b) {0} [{1, 2, 5}]
      [some f_wide, none, some f_shifted] (some f_narrow) demo_switch (by rfl)
      demo_ops_laws).2.2.2 (7 / 2) [[1, 2]] f_narrow (by with_unfolding_all rfl)).1
      ⟨by rfl, by rfl⟩,
   ((stored_sparsity_is_intersection demo_ops (fun a b => a ⊆ b) {0} [{1, 2, 5}]
      [some f_wide, none, some f_shifted] (some f_narrow) demo_switch (by rfl)
      demo_ops_laws).2.2.2 (5 / 2) [[1, 2]] f_shifted (by with_unfolding_all rfl)).2
      (by simp [f_shifted, demo_switch]; decide)⟩


/-! ## The generated code -/

theorem emit_case_switch {S M : Type} (self : Switch S M)
    (getDependency : FunctionInternal S → Int) (k : Nat) (hk : k ≤ self.f_.length) :
    emit_case self getDependency false (k : Int)
      = .ok ((if k < self.f_.length then Line.case_label (k : Int) else Line.default_label)
          :: branch_lines getDependency false ((self.f_ ++ [self.f_def_]).getD k none)) := by
  unfold emit_case
  simp only [Bool.false_eq_true, if_false, Bool.not_false, if_true, Switch.getFunction]
  rw [getFunction_nat self.f_ self.f_def_ k hk]
  by_cases hlt : k < self.f_.length
  · have hlt1 : (k : Int) < (self.f_.length : Int) := by exact_mod_cast hlt
    rw [if_pos hlt, if_pos hlt1]
    cases (self.f_ ++ [self.f_def_]).getD k none <;> simp [branch_lines]
  · have hlt1 : ¬ (k : Int) < (self.f_.length : Int) := by exact_mod_cast hlt
    rw [if_neg hlt, if_neg hlt1]
    cases (self.f_ ++ [self.f_def_]).getD k none <;> simp [branch_lines]

theorem emit_cases_switch {S M : Type} (self : Switch S M)
    (getDependency : FunctionInternal S → Int) (ks : List Nat)
    (hks : ∀ k ∈ ks, k ≤ self.f_.length) :
    emit_cases self getDependency false ks
      = .ok (ks.flatMap (fun k =>
          (if k < self.f_.length then Line.case_label (k : Int) else Line.default_label)
            :: branch_lines getDependency false ((self.f_ ++ [self.f_def_]).getD k none))) := by
  induction ks with
  | nil => rfl
  | cons k ks ih =>
    rw [emit_cases, emit_case_switch self getDependency k (hks k (List.mem_cons_self _ _)),
      ih (fun j hj => hks j (List.mem_cons_of_mem _ hj))]
    simp [List.flatMap_cons]

theorem generate_switch {S M : Type} (self : Switch S M) (io workel : String)
    (getDependency : FunctionInternal S → Int) (hn : self.f_.length ≠ 1) :
    self.generate io workel getDependency = .ok (switch_lines self io workel getDependency) := by
  unfold Switch.generate switch_lines
  have hdec : decide (self.f_.length = 1) = false := decide_eq_false hn
  rw [hdec]
  dsimp only
  rw [emit_cases_switch self getDependency _ (fun k hk => by
    have := List.mem_range.mp hk; omega)]
  simp only [List.range_succ, List.flatMap_append, List.flatMap_cons, List.flatMap_nil,
    List.append_nil, lt_irrefl, if_false]
  have hbody : (List.range self.f_.length).flatMap (fun k =>
          (if k < self.f_.length then Line.case_label (k : Int) else Line.default_label)
            :: branch_lines getDependency false ((self.f_ ++ [self.f_def_]).getD k none))
      = (List.range self.f_.length).flatMap (fun j =>
          Line.case_label (j : Int) :: branch_lines getDependency false (self.f_.getD j none)) := by
    apply List.flatMap_congr
    intro j hj
    have hlt : j < self.f_.length := List.mem_range.mp hj
    rw [if_pos hlt]
    simp [List.getD_eq_getElem?_getD, List.getElem?_append_left hlt]
  have hdef : (self.f_ ++ [self.f_def_]).getD self.f_.length none = self.f_def_ := by
    simp [List.getD_eq_getElem?_getD]
  rw [hbody, hdef]
  simp

theorem generate_if_else {S M : Type} (self : Switch S M) (io workel : String)
    (getDependency : FunctionInternal S → Int) (hn : self.f_.length = 1) :
    self.generate io workel getDependency = .ok (if_else_lines self io workel getDependency) := by
  obtain ⟨f_, f_def_, sp_in_, sp_out_, dep, sparsity_⟩ := self
  cases f_ with
  | nil => cases hn
  | cons g0 rest =>
    cases rest with
    | cons g1 rest => simp at hn
    | nil =>
      cases g0 <;> cases f_def_ <;>
        simp [Switch.generate, if_else_lines, emit_cases, emit_case, List.range_succ,
          Switch.getFunction, getFunction, branch_lines]

theorem after_case_label (v k : Int) (rest : List Line) :
    after_case v (Line.case_label k :: rest)
      = if k = v then some rest else after_case v rest := rfl

theorem after_case_default (v : Int) (rest : List Line) :
    after_case v (Line.default_label :: rest) = after_case v rest := rfl

theorem flatMap_cases_cons {S : Type} (getDependency : FunctionInternal S → Int)
    (fn : Nat → Function S) (j : Nat) (ks : List Nat) (tail : List Line) :
    (j :: ks).flatMap (fun j =>
        Line.case_label (j : Int) :: branch_lines getDependency false (fn j)) ++ tail
      = Line.case_label (j : Int) :: (branch_lines getDependency false (fn j)
          ++ (ks.flatMap (fun j =>
              Line.case_label (j : Int) :: branch_lines getDependency false (fn j)) ++ tail)) := by
  simp [List.flatMap_cons]

theorem after_case_branch {S : Type} (getDependency : FunctionInternal S → Int) (v : Int)
    (fk : Function S) (rest : List Line) :
    after_case v (branch_lines getDependency false fk ++ rest) = after_case v rest := by
  cases fk <;> simp [branch_lines, after_case]

theorem after_default_branch {S : Type} (getDependency : FunctionInternal S → Int)
    (fk : Function S) (rest : List Line) :
    after_default (branch_lines getDependency false fk ++ rest) = after_default rest := by
  cases fk <;> simp [branch_lines, after_default]

theorem run_block_branch {S : Type} (getDependency : FunctionInternal S → Int)
    (fails : Int → Bool) (fk : Function S) (rest : List Line) :
    run_block fails (branch_lines getDependency false fk ++ rest)
      = expected_actions getDependency fails fk := by
  cases fk with
  | none => simp [branch_lines, run_block, expected_actions]
  | some g =>
    by_cases hf : fails (getDependency g) = true
    · simp [branch_lines, run_block, expected_actions, hf]
    · simp [branch_lines, run_block, expected_actions, hf]

theorem after_case_cases_found {S : Type} (getDependency : FunctionInternal S → Int)
    (fn : Nat → Function S) (v : Nat) (tail : List Line) (ks : List Nat) (hv : v ∈ ks) :
    ∃ rest, after_case (v : Int)
        (ks.flatMap (fun j => Line.case_label (j : Int) :: branch_lines getDependency false (fn j))
          ++ tail)
      = some (branch_lines getDependency false (fn v) ++ rest) := by
  induction ks with
  | nil => cases hv
  | cons j ks ih =>
    rw [flatMap_cases_cons, after_case_label]
    by_cases hj : (j : Int) = (v : Int)
    · rw [if_pos hj]
      have : j = v := by exact_mod_cast hj
      subst this
      exact ⟨_, rfl⟩
    · rw [if_neg hj, after_case_branch]
      have hne : v ≠ j := fun h => hj (by rw [h])
      rcases List.mem_cons.mp hv with h | h
      · exact absurd h hne
      · exact ih h

theorem after_case_cases_missing {S : Type} (getDependency : FunctionInternal S → Int)
    (fn : Nat → Function S) (v : Nat) (tail : List Line) (ks : List Nat) (hv : v ∉ ks) :
    after_case (v : Int)
        (ks.flatMap (fun j => Line.case_label (j : Int) :: branch_lines getDependency false (fn j))
          ++ tail)
      = after_case (v : Int) tail := by
  induction ks with
  | nil => rfl
  | cons j ks ih =>
    rw [flatMap_cases_cons, after_case_label]
    have hj : ¬ (j : Int) = (v : Int) := by
      intro h
      have : j = v := by exact_mod_cast h
      exact hv (by rw [this]; exact List.mem_cons_self _ _)
    rw [if_neg hj, after_case_branch]
    exact ih (fun h => hv (List.mem_cons_of_mem _ h))

theorem after_default_cases {S : Type} (getDependency : FunctionInternal S → Int)
    (fn : Nat → Function S) (tail : List Line) (ks : List Nat) :
    after_default
        (ks.flatMap (fun j => Line.case_label (j : Int) :: branch_lines getDependency false (fn j))
          ++ tail)
      = after_default tail := by
  induction ks with
  | nil => rfl
  | cons j ks ih =>
    rw [flatMap_cases_cons]
    show after_default (branch_lines getDependency false (fn j) ++ _) = _
    rw [after_default_branch]
    exact ih

theorem dispatch_header (fails : Int → Bool) (v : Int) (io workel : String) (rest : List Line) :
    dispatch fails v (Line.scope_open :: Line.io io :: Line.cond false workel :: rest)
      = match after_case v rest with
        | some branch => run_block fails branch
        | none =>
          match after_default rest with
          | some branch => run_block fails branch
          | none => [] := rfl

theorem switch_lines_eq {S M : Type} (self : Switch S M) (io workel : String)
    (getDependency : FunctionInternal S → Int) :
    switch_lines self io workel getDependency
      = Line.scope_open :: Line.io io :: Line.cond false workel ::
          ((List.range self.f_.length).flatMap (fun j =>
              Line.case_label (j : Int)
                :: branch_lines getDependency false (self.f_.getD j none))
            ++ Line.default_label :: (branch_lines getDependency false self.f_def_
                ++ [Line.close, Line.scope_close])) := by
  simp [switch_lines]

theorem dispatch_switch {S M : Type} (self : Switch S M) (io workel : String)
    (getDependency : FunctionInternal S → Int) (fails : Int → Bool) (k : Nat)
    (hk : k ≤ self.f_.length) :
    dispatch fails (k : Int) (switch_lines self io workel getDependency)
      = expected_actions getDependency fails ((self.f_ ++ [self.f_def_]).getD k none) := by
  rw [switch_lines_eq, dispatch_header]
  rcases Nat.lt_or_eq_of_le hk with hlt | heq
  · obtain ⟨rest, hrest⟩ := after_case_cases_found getDependency (fun j => self.f_.getD j none) k
      (Line.default_label :: (branch_lines getDependency false self.f_def_
        ++ [Line.close, Line.scope_close])) (List.range self.f_.length) (List.mem_range.mpr hlt)
    rw [hrest]
    simp only [run_block_branch]
    simp [List.getD_eq_getElem?_getD, List.getElem?_append_left hlt]
  · subst heq
    rw [after_case_cases_missing getDependency (fun j => self.f_.getD j none) self.f_.length _
      (List.range self.f_.length) (by simp)]
    have h1 : after_case (self.f_.length : Int)
        (Line.default_label :: (branch_lines getDependency false self.f_def_
          ++ [Line.close, Line.scope_close])) = none := by
      rw [after_case_default, after_case_branch]
      rfl
    rw [h1]
    simp only
    rw [after_default_cases, after_default]
    simp only [run_block_branch]
    simp [List.getD_eq_getElem?_getD]

theorem dispatch_if_else {S M : Type} (self : Switch S M) (io workel : String)
    (getDependency : FunctionInternal S → Int) (fails : Int → Bool) (k : Nat)
    (hn : self.f_.length = 1) (hk : k ≤ self.f_.length) :
    dispatch fails (k : Int) (if_else_lines self io workel getDependency)
      = expected_actions getDependency fails ((self.f_ ++ [self.f_def_]).getD k none) := by
  obtain ⟨f_, f_def_, sp_in_, sp_out_, dep, sparsity_⟩ := self
  cases f_ with
  | nil => cases hn
  | cons g0 rest =>
    cases rest with
    | cons g1 rest => simp at hn
    | nil =>
      have hk1 : k = 0 ∨ k = 1 := by
        simp only [List.length_singleton] at hk
        omega
      rcases hk1 with hk1 | hk1 <;> subst hk1 <;> cases g0 <;> cases f_def_ <;>
        simp [if_else_lines, dispatch, branch_lines, run_block, after_else, expected_actions]


theorem render_branch_lines {S : Type} (getDependency : FunctionInternal S → Int)
    (if_else : Bool) (fk : Function S) :
    (branch_lines getDependency if_else fk).map Line.render
      = branch_text getDependency if_else fk := by
  cases fk <;> cases if_else <;> rfl

theorem render_switch_lines {S M : Type} (self : Switch S M) (io workel : String)
    (getDependency : FunctionInternal S → Int) :
    (switch_lines self io workel getDependency).map Line.render
      = switch_text self io workel getDependency := by
  unfold switch_lines switch_text
  simp only [List.map_append, List.map_cons, List.map_nil, List.map_flatMap,
    render_branch_lines]
  rfl

theorem render_if_else_lines {S M : Type} (self : Switch S M) (io workel : String)
    (getDependency : FunctionInternal S → Int) :
    (if_else_lines self io workel getDependency).map Line.render
      = if_else_text self io workel getDependency := by
  unfold if_else_lines if_else_text
  simp only [List.map_append, List.map_cons, List.map_nil, render_branch_lines]
  rfl

/-- C14: for a switch with `n = f_.size()` case functions (at least one in every
constructed switch) and an index value `0 ≤ k ≤ n`, `Switch::generate` emits a
block whose execution for the value `k` of `(int)workel` reaches the branch of
`getFunction(k)`, the function that `evalD` selects for an index argument that
truncates to `k`: the branch is `return 1;` for a null function and the call of
its generated function otherwise. In the general case (`n ≠ 1`) the block is a
`switch` with `case k:` for `f_[k]` (`k < n`) and `default:` for `f_def_`; in the
case of a single function (`n = 1`) it is an `if` whose first (nonzero) branch is
that of `f_def_` and whose `else` (zero) branch is that of `f_[0]`. The text
written to the body of the generated function is, line by line, `switch_text`
in the general case and `if_else_text` in the case of a single function, and
the text of every kind of line is as stated. -/
theorem generate_dispatch_agrees {S M : Type} [DecidableEq S] (self : Switch S M)
    (io workel : String) (getDependency : FunctionInternal S → Int) (fails : Int → Bool)
    (k : Nat) (hk : k ≤ self.f_.length) :
    ∃ lines fk,
      self.generate io workel getDependency = .ok lines ∧
      self.getFunction (k : Int) = .ok fk ∧
      dispatch fails (k : Int) lines = expected_actions getDependency fails fk ∧
      (∀ (index : ℚ) (buffers : List (List ℚ)), static_cast_int index = (k : Int) →
        self.evalD index buffers =
          match fk with
          | none => .error CasadiException.null_function
          | some g =>
            match check_buffers self.sp_in_ g.input with
            | .error e => .error e
            | .ok _ =>
              match check_buffers self.sp_out_ g.output with
              | .error e => .error e
              | .ok _ => g.evalD buffers) ∧
      (self.f_.length ≠ 1 → lines = switch_lines self io workel getDependency) ∧
      (self.f_.length = 1 → lines = if_else_lines self io workel getDependency ∧
        (k = 1 → fk = self.f_def_) ∧ (k = 0 → fk = self.f_.getD 0 none)) ∧
      (self.f_.length ≠ 1 →
        lines.map Line.render = switch_text self io workel getDependency) ∧
      (self.f_.length = 1 →
        lines.map Line.render = if_else_text self io workel getDependency) ∧
      ((∀ t : String, Line.render (Line.io t) = t) ∧
        Line.render Line.scope_open = "  \x7b" ∧
        (∀ w : String, Line.render (Line.cond true w) = "    if ((int)" ++ w ++ ") \x7b") ∧
        (∀ w : String, Line.render (Line.cond false w)
          = "    switch ((int)" ++ w ++ ") \x7b") ∧
        (∀ j : Int, Line.render (Line.case_label j) = "    case " ++ toString j ++ ":") ∧
        Line.render Line.default_label = "    default:" ∧
        Line.render Line.else_branch = "    \x7d else \x7b" ∧
        Line.render Line.return_1 = "      return 1;" ∧
        (∀ f : Int, Line.render (Line.call f)
          = "      if (f" ++ toString f ++ "(arg1, res1, iw, w)) return 1;") ∧
        Line.render Line.break_stmt = "      break;" ∧
        Line.render Line.close = "    \x7d" ∧
        Line.render Line.scope_close = "  \x7d") := by
  have hrender : (∀ t : String, Line.render (Line.io t) = t) ∧
      Line.render Line.scope_open = "  \x7b" ∧
      (∀ w : String, Line.render (Line.cond true w) = "    if ((int)" ++ w ++ ") \x7b") ∧
      (∀ w : String, Line.render (Line.cond false w)
        = "    switch ((int)" ++ w ++ ") \x7b") ∧
      (∀ j : Int, Line.render (Line.case_label j) = "    case " ++ toString j ++ ":") ∧
      Line.render Line.default_label = "    default:" ∧
      Line.render Line.else_branch = "    \x7d else \x7b" ∧
      Line.render Line.return_1 = "      return 1;" ∧
      (∀ f : Int, Line.render (Line.call f)
        = "      if (f" ++ toString f ++ "(arg1, res1, iw, w)) return 1;") ∧
      Line.render Line.break_stmt = "      break;" ∧
      Line.render Line.close = "    \x7d" ∧
      Line.render Line.scope_close = "  \x7d" :=
    ⟨fun _ => rfl, rfl, fun _ => rfl, fun _ => rfl, fun _ => rfl, rfl, rfl, rfl,
      fun _ => rfl, rfl, rfl, rfl⟩
  have hfk : self.getFunction (k : Int) = .ok ((self.f_ ++ [self.f_def_]).getD k none) :=
    getFunction_nat self.f_ self.f_def_ k hk
  have heval : ∀ (index : ℚ) (buffers : List (List ℚ)), static_cast_int index = (k : Int) →
      self.evalD index buffers =
        match (self.f_ ++ [self.f_def_]).getD k none with
        | none => .error CasadiException.null_function
        | some g =>
          match check_buffers self.sp_in_ g.input with
          | .error e => .error e
          | .ok _ =>
            match check_buffers self.sp_out_ g.output with
            | .error e => .error e
            | .ok _ => g.evalD buffers := by
    intro index buffers hidx
    rw [Switch.evalD, hidx, hfk]
    cases (self.f_ ++ [self.f_def_]).getD k none <;> rfl
  by_cases h1 : self.f_.length = 1
  · refine ⟨_, _, generate_if_else self io workel getDependency h1, hfk,
      dispatch_if_else self io workel getDependency fails k h1 hk, heval,
      fun h => absurd h1 h, fun _ => ⟨rfl, ?_, ?_⟩, fun h => absurd h1 h,
      fun _ => render_if_else_lines self io workel getDependency, hrender⟩
    · intro hk1
      subst hk1
      have := getFunction_default self.f_ self.f_def_
      rw [h1] at this
      rw [Switch.getFunction] at hfk
      rw [hfk] at this
      injection this
    · intro hk0
      subst hk0
      have hlt : 0 < self.f_.length := by omega
      simp [List.getD_eq_getElem?_getD, List.getElem?_append_left hlt]
  · exact ⟨_, _, generate_switch self io workel getDependency h1, hfk,
      dispatch_switch self io workel getDependency fails k hk, heval,
      fun _ => rfl, fun h => absurd h h1,
      fun _ => render_switch_lines self io workel getDependency, fun h => absurd h h1,
      hrender⟩

/-- C14 at `demo_switch` (three case functions), where the value 2 reaches the
call of the function generated for `f_shifted`, and at `single_switch` (one case
function, null default), where the value 1 reaches `return 1;` and the value 0
the call of the function generated for `f_narrow`; the text written for each
of the two is given line by line. -/
theorem generate_dispatch_agrees_witness :
    (∃ lines, demo_switch.generate "io" "w[0]" demo_dependency = .ok lines ∧
      dispatch (fun _ => false) 2 lines = [Action.call 9] ∧
      lines.map Line.render
        = ["  \x7b", "io", "    switch ((int)w[0]) \x7b",
            "    case 0:", "      if (f6(arg1, res1, iw, w)) return 1;", "      break;",
            "    case 1:", "      return 1;",
            "    case 2:", "      if (f9(arg1, res1, iw, w)) return 1;", "      break;",
            "    default:", "      if (f8(arg1, res1, iw, w)) return 1;", "      break;",
            "    \x7d", "  \x7d"]) ∧
    (∃ lines, single_switch.generate "io" "w[0]" demo_dependency = .ok lines ∧
      dispatch (fun _ => false) 1 lines = [Action.return_1] ∧
      lines.map Line.render
        = ["  \x7b", "io", "    if ((int)w[0]) \x7b", "      return 1;", "    \x7d else \x7b",
            "      if (f8(arg1, res1, iw, w)) return 1;", "    \x7d", "  \x7d"]) ∧
    (∃ lines, single_switch.generate "io" "w[0]" demo_dependency = .ok lines ∧
      dispatch (fun _ => false) 0 lines = [Action.call 8]) := by
  refine ⟨?_, ?_, ?_⟩
  · obtain ⟨lines, fk, h1, h2, h3, _, _, _, h7, _⟩ := generate_dispatch_agrees demo_switch
      "io" "w[0]" demo_dependency (fun _ => false) 2 (by decide)
    have hsel : demo_switch.getFunction ((2 : Nat) : Int) = .ok (some f_shifted) := by rfl
    rw [hsel] at h2
    injection h2 with h2
    subst h2
    refine ⟨lines, h1, h3, ?_⟩
    rw [h7 (by decide)]
    decide
  · obtain ⟨lines, fk, h1, h2, h3, _, _, _, _, h8, _⟩ := generate_dispatch_agrees single_switch
      "io" "w[0]" demo_dependency (fun _ => false) 1 (by decide)
    have hsel : single_switch.getFunction ((1 : Nat) : Int) = .ok none := by rfl
    rw [hsel] at h2
    injection h2 with h2
    subst h2
    refine ⟨lines, h1, h3, ?_⟩
    rw [h8 (by decide)]
    decide
  · obtain ⟨lines, fk, h1, h2, h3, _⟩ := generate_dispatch_agrees single_switch "io" "w[0]"
      demo_dependency (fun _ => false) 0 (by decide)
    have hsel : single_switch.getFunction ((0 : Nat) : Int) = .ok (some f_narrow) := by rfl
    rw [hsel] at h2
    injection h2 with h2
    subst h2
    exact ⟨lines, h1, h3⟩

end casadi
